import Mathlib

/-!
# Magic-Sand (ZED port): depth-frame filter, plane fitter and projector calibration

A shallow embedding of the numerical core of the repository
(`src/ZedProjector/ZedGrabber.cpp`, `Utils.h`, `ZedProjectorCalibration.cpp`,
`ZedProjector.cpp`). A `float`/`double` of the source is a `ℚ` here, and outside
the loop body of the frame filter the arithmetic is exact.

The loop body of `ZedGrabber::filter` is the exception. Its sums of squares
pass `2^24` for ordinary depths (`4097^2 > 2^24`), where not every integer is a
`float` any more, so every arithmetic operation of that loop body (the updates
of `statBuffer`, the products and the sum of the stability test, the quotients
`oldFiltered` and `newFiltered` and their differences to the sample and to the
valid value) is rounded to binary32 by `f32`: round to nearest, ties to even, on
a significand of 24 bits, each operation of the source rounded once (no fused
multiply-add, no wider intermediate format). A raw sample is a 16-bit integer,
which the conversion to `float` keeps. The exponent range of binary32 is not
modelled: there is no overflow to infinity and no gradual underflow, and a
quotient by zero is zero.

Conventions taken from the libraries the source is written against:

* glm matrices are stored by columns: the sixteen-scalar constructor
  `glm::mat4x4(a0, ..., a15)` fills column 0 with `a0..a3`, column 1 with
  `a4..a7` and so on, `M[i]` is column `i`, `M[i][j]` is component `j` of
  column `i`, and `M * v` is `M[0]*v.x + M[1]*v.y + M[2]*v.z + M[3]*v.w`;
* the member function `v.length()` of a glm vector is the number of its
  components (2, 3 or 4); the Euclidean norm is the free function
  `glm::length(v)`, which the embedded functions never call;
* of openFrameworks, `ofRectangle::scaleFromCenter(s)` scales width and height
  by `s` and keeps the centre, `getLeft()` and `getTop()` are the smaller `x`
  and the smaller `y` of the rectangle, and `ofMap` is the linear map of one
  interval onto another, without clamping;
* the XML reader, the chessboard detector of OpenCV and the least-squares solver
  of dlib are inputs of the functions that call them;
* `actionsLock` is a mutex: `lock()` returns only when no thread holds it, and a
  thread that finds it taken does not advance; the two threads are interleaved
  statement by statement.
-/

namespace MagicSand

/-! ## Vectors -/

/-- The type `glm::vec2`. -/
structure Vec2 where
  x : ℚ
  y : ℚ
deriving DecidableEq

/-- The type `glm::vec3`. -/
structure Vec3 where
  x : ℚ
  y : ℚ
  z : ℚ
deriving DecidableEq

/-- The type `glm::vec4`. -/
structure Vec4 where
  x : ℚ
  y : ℚ
  z : ℚ
  w : ℚ
deriving DecidableEq

/-! ## The binary32 format of `float` -/

/-- The number of binary digits of `n`, counted by at most `fuel` halvings. -/
def bitLengthAux : Nat → Nat → Nat
  | 0, _ => 0
  | fuel + 1, n => if n = 0 then 0 else bitLengthAux fuel (n / 2) + 1

/-- The number of binary digits of `n`: the least `k` with `n < 2^k`. -/
def bitLength (n : Nat) : Nat := bitLengthAux n n

/-- The power `2^e` of two, for an integer exponent. -/
def pow2 (e : Int) : ℚ :=
  if 0 ≤ e then ((2 ^ e.toNat : Nat) : ℚ) else 1 / ((2 ^ (-e).toNat : Nat) : ℚ)

/-- The binary exponent of a positive number `a`: the `e` with
`2^e ≤ a < 2^(e+1)`. The difference of the digit counts of numerator and
denominator is `e` or `e + 1`. -/
def binaryExponent (a : ℚ) : Int :=
  if pow2 ((bitLength a.num.natAbs : Int) - (bitLength a.den : Int)) ≤ a then
    (bitLength a.num.natAbs : Int) - (bitLength a.den : Int)
  else (bitLength a.num.natAbs : Int) - (bitLength a.den : Int) - 1

/-- The integer nearest to `y`; of two nearest integers, the even one. -/
def roundHalfEven (y : ℚ) : Int :=
  if y - (Rat.floor y : ℚ) < 1 / 2 then Rat.floor y
  else if 1 / 2 < y - (Rat.floor y : ℚ) then Rat.floor y + 1
  else if Rat.floor y % 2 = 0 then Rat.floor y else Rat.floor y + 1

/-- The `float` that a binary32 operation with the exact result `x` delivers:
`x` rounded to the nearest multiple of `2^(e-23)`, where `2^e ≤ |x| < 2^(e+1)`,
ties to the even multiple. -/
def f32 (x : ℚ) : ℚ :=
  if x = 0 then 0
  else (roundHalfEven (x / pow2 (binaryExponent |x| - 23)) : ℚ) * pow2 (binaryExponent |x| - 23)

/-! ## ZedGrabber: the temporal stability filter -/

/-- The members of `class ZedGrabber` that the frame filter reads or writes.
Buffers are maps from the flat element index to the stored value; sizes and
indices are natural numbers. -/
structure ZedGrabber where
  bufferInitiated : Bool
  firstImageReady : Bool
  width : Nat
  height : Nat
  minX : Nat
  maxX : Nat
  minY : Nat
  maxY : Nat
  filteredframe : Nat → ℚ
  gradField : Nat → Vec2
  averagingBuffer : Nat → ℚ
  statBuffer : Nat → ℚ
  validBuffer : Nat → ℚ
  gradFieldcols : Nat
  gradFieldrows : Nat
  gradFieldresolution : Nat
  maxgradfield : ℚ
  numAveragingSlots : Nat
  averagingSlotIndex : Nat
  minNumSamples : Nat
  maxVariance : ℚ
  initialValue : ℚ
  outsideROIValue : ℚ
  hysteresis : ℚ
  followBigChange : Bool
  bigChange : ℚ
  instableValue : ℚ
  spatialFilter : Bool
  maxOffset : ℚ
  minInitFrame : Nat
  currentInitFrame : Nat

/-- The function `ZedGrabber::initiateBuffers`: every buffer is refilled and the
slot index and the initialisation counter restart. -/
def initiateBuffers (g : ZedGrabber) : ZedGrabber :=
  { g with
    filteredframe := fun _ => 0
    averagingBuffer := fun _ => g.initialValue
    averagingSlotIndex := 0
    statBuffer := fun _ => 0
    validBuffer := fun _ => g.initialValue
    gradField := fun _ => ⟨0, 0⟩
    bufferInitiated := true
    currentInitFrame := 0
    firstImageReady := false }

/-- The function `ZedGrabber::resetBuffers` (freeing the old arrays has no
counterpart here). -/
def resetBuffers (g : ZedGrabber) : ZedGrabber :=
  initiateBuffers { g with bufferInitiated := false }

/-- The function `ZedGrabber::setzedROI`, the rectangle given by its four
truncated bounds. -/
def setzedROI (g : ZedGrabber) (minX maxX minY maxY : Nat) : ZedGrabber :=
  resetBuffers { g with minX := minX, maxX := maxX, minY := minY, maxY := maxY }

/-- The function `ZedGrabber::setupFramefilter`. -/
def setupFramefilter (g : ZedGrabber) (sgradFieldresolution : Nat) (newMaxOffset : ℚ)
    (minX maxX minY maxY : Nat) (sspatialFilter sfollowBigChange : Bool)
    (snumAveragingSlots : Nat) : ZedGrabber :=
  let g1 : ZedGrabber :=
    { g with
      gradFieldresolution := sgradFieldresolution
      gradFieldcols := g.width / sgradFieldresolution
      gradFieldrows := g.height / sgradFieldresolution
      spatialFilter := sspatialFilter
      followBigChange := sfollowBigChange
      numAveragingSlots := snumAveragingSlots
      minNumSamples := (snumAveragingSlots + 1) / 2
      maxOffset := newMaxOffset
      maxVariance := 4
      hysteresis := 1 / 2
      bigChange := 10
      instableValue := 0
      maxgradfield := 1000
      initialValue := 4000
      outsideROIValue := 3999
      minInitFrame := 60 }
  initiateBuffers (setzedROI g1 minX maxX minY maxY)

/-- The function `ZedGrabber::setAveragingSlotsNumber`. -/
def setAveragingSlotsNumber (g : ZedGrabber) (snumAveragingSlots : Nat) : ZedGrabber :=
  initiateBuffers
    { g with
      bufferInitiated := false
      numAveragingSlots := snumAveragingSlots
      minNumSamples := (snumAveragingSlots + 1) / 2 }

/-- The function `ZedGrabber::setGradFieldResolution`. -/
def setGradFieldResolution (g : ZedGrabber) (sgradFieldresolution : Nat) : ZedGrabber :=
  initiateBuffers
    { g with bufferInitiated := false, gradFieldresolution := sgradFieldresolution }

/-- The function `ZedGrabber::setSpatialFiltering`. -/
def setSpatialFiltering (g : ZedGrabber) (newspatialFilter : Bool) : ZedGrabber :=
  { g with spatialFilter := newspatialFilter }

/-- The function `ZedGrabber::setFollowBigChange`. -/
def setFollowBigChange (g : ZedGrabber) (newfollowBigChange : Bool) : ZedGrabber :=
  initiateBuffers { g with bufferInitiated := false, followBigChange := newfollowBigChange }

/-- The condition of the big-change override at a pixel whose sample `newVal`
passed the ceiling test: the override is on, the pixel has a sample, and the
mean `oldFiltered` of its statistics is at least `bigChange` away from `newVal`.
The quotient and the two differences are `float` operations. -/
def bigChangeFires (g : ZedGrabber) (stat : Nat → ℚ) (p : Nat) (newVal : ℚ) : Bool :=
  g.followBigChange && decide (stat (3 * p) > 0) &&
    (decide (f32 (f32 (stat (3 * p + 1) / stat (3 * p)) - newVal) ≥ g.bigChange) ||
     decide (f32 (newVal - f32 (stat (3 * p + 1) / stat (3 * p))) ≥ g.bigChange))

/-- The loop `for (i = 0; i < numAveragingSlots; i++)` of the big-change
override: slot `i` of pixel `p` is set to `newVal`, for the first `k` slots. -/
def resetSlots (g : ZedGrabber) (p : Nat) (newVal : ℚ) : Nat → (Nat → ℚ) → (Nat → ℚ)
  | 0, buf => buf
  | k + 1, buf =>
      Function.update (resetSlots g p newVal k buf) (k * g.height * g.width + p) newVal

/-- Three consecutive writes `ptr[0] = a; ptr[1] = b; ptr[2] = c` through
`statBufferPtr`, which stands at offset `3*p`. -/
def writeStats (stat : Nat → ℚ) (p : Nat) (a b c : ℚ) : Nat → ℚ :=
  Function.update (Function.update (Function.update stat (3 * p) a) (3 * p + 1) b) (3 * p + 2) c

/-- The stability test of `filter()` on the statistics stored for pixel `p`,
`statBufferPtr[0] >= minNumSamples && statBufferPtr[2] * statBufferPtr[0] <=
maxVariance * statBufferPtr[0] * statBufferPtr[0] + statBufferPtr[1] *
statBufferPtr[1]`, in binary32: `minNumSamples` is converted to `float`, and
each of the four products and the sum is rounded. -/
def isStable (g : ZedGrabber) (stat : Nat → ℚ) (p : Nat) : Bool :=
  decide (f32 (g.minNumSamples : ℚ) ≤ stat (3 * p)) &&
    decide (f32 (stat (3 * p + 2) * stat (3 * p)) ≤
      f32 (f32 (f32 (g.maxVariance * stat (3 * p)) * stat (3 * p)) +
        f32 (stat (3 * p + 1) * stat (3 * p + 1))))

/-- The averaging and statistics buffers after the branch `newVal > maxOffset`
of the loop body of `filter()` at offset `p`: the sample is stored in the
current slot, the big-change override may reset the slots and the statistics,
the sample is added to the statistics and the value `oldVal` that the slot held
is taken out unless it is the initial value. Every value stored in `statBuffer`
is a `float`: the conversion of `numAveragingSlots`, the products
`newVal * newVal` and `oldVal * oldVal` and each `+=`, `-=`, `++` and `--` round
to binary32. -/
def acceptSample (g : ZedGrabber) (p : Nat) (newVal : ℚ) : (Nat → ℚ) × (Nat → ℚ) :=
  let slot := g.averagingSlotIndex * g.height * g.width + p
  let oldVal : ℚ := g.averagingBuffer slot
  let avg1 := Function.update g.averagingBuffer slot newVal
  let reset : (Nat → ℚ) × (Nat → ℚ) :=
    if bigChangeFires g g.statBuffer p newVal then
      (resetSlots g p newVal g.numAveragingSlots avg1,
       writeStats g.statBuffer p (f32 (g.numAveragingSlots : ℚ))
         (f32 (newVal * f32 (g.numAveragingSlots : ℚ)))
         (f32 (f32 (newVal * newVal) * f32 (g.numAveragingSlots : ℚ))))
    else (avg1, g.statBuffer)
  let stat3 := writeStats reset.2 p (f32 (reset.2 (3 * p) + 1))
    (f32 (reset.2 (3 * p + 1) + newVal))
    (f32 (reset.2 (3 * p + 2) + f32 (newVal * newVal)))
  let stat4 :=
    if oldVal ≠ g.initialValue then
      writeStats stat3 p (f32 (stat3 (3 * p) - 1)) (f32 (stat3 (3 * p + 1) - oldVal))
        (f32 (stat3 (3 * p + 2) - f32 (oldVal * oldVal)))
    else stat3
  (reset.1, stat4)

/-- The valid buffer and the output frame after the stability branch and the
final assignment `*filteredFramePtr = *validBufferPtr` of the loop body. The
quotient `newFiltered` and its difference to the valid value are `float`
operations. -/
def writeOutput (g : ZedGrabber) (stat : Nat → ℚ) (p : Nat) : (Nat → ℚ) × (Nat → ℚ) :=
  let branch : (Nat → ℚ) × (Nat → ℚ) :=
    if isStable g stat p then
      let newFiltered : ℚ := f32 (stat (3 * p + 1) / stat (3 * p))
      if abs (f32 (newFiltered - g.validBuffer p)) ≥ g.hysteresis then
        (Function.update g.validBuffer p newFiltered,
         Function.update g.filteredframe p newFiltered)
      else (g.validBuffer, Function.update g.filteredframe p (g.validBuffer p))
    else (g.validBuffer, g.filteredframe)
  (branch.1, Function.update branch.2 p (branch.1 p))

/-- The body of the inner loop of `ZedGrabber::filter` at column `x` of row `y`.
All five pointers of the source stand at offset `y*width + x` of their buffer
(`statBufferPtr` at three times that). -/
def filterPixel (zedDepthImage : Nat → Nat) (y : Nat) (g : ZedGrabber) (x : Nat) :
    ZedGrabber :=
  let p := y * g.width + x
  let newVal : ℚ := (zedDepthImage p : ℚ)
  let taken : (Nat → ℚ) × (Nat → ℚ) :=
    if newVal > g.maxOffset then acceptSample g p newVal
    else (g.averagingBuffer, g.statBuffer)
  let out := writeOutput g taken.2 p
  { g with
    averagingBuffer := taken.1
    statBuffer := taken.2
    validBuffer := out.1
    filteredframe := out.2 }

/-- One row of the scan of `filter()`: the columns `minX ≤ x < maxX`. -/
def filterRow (zedDepthImage : Nat → Nat) (g : ZedGrabber) (y : Nat) : ZedGrabber :=
  (List.range' g.minX (g.maxX - g.minX)).foldl (filterPixel zedDepthImage y) g

/-- The scan of `filter()` over the rows `minY ≤ y < maxY` of the ROI. -/
def filterScan (zedDepthImage : Nat → Nat) (g : ZedGrabber) : ZedGrabber :=
  (List.range' g.minY (g.maxY - g.minY)).foldl (filterRow zedDepthImage) g

/-- One interior step of a smoothing run of `applySpaceFilter`: the pixel under
the pointer becomes `(lastVal + 2*self + next) * 0.25`, the pointer advances by
`stride` and `lastVal` becomes the value the pixel had. The state is the frame,
the pointer and `lastVal`. -/
def smoothStep (stride : Nat) (s : (Nat → ℚ) × Nat × ℚ) : (Nat → ℚ) × Nat × ℚ :=
  (Function.update s.1 s.2.1 ((s.2.2 + s.1 s.2.1 * 2 + s.1 (s.2.1 + stride)) * (1 / 4)),
   s.2.1 + stride, s.1 s.2.1)

/-- The interior loop of a smoothing run, `k` iterations. -/
def smoothInterior (stride : Nat) :
    Nat → (Nat → ℚ) × Nat × ℚ → (Nat → ℚ) × Nat × ℚ
  | 0, s => s
  | k + 1, s => smoothInterior stride k (smoothStep stride s)

/-- The number of iterations of `for (unsigned v = lo + 1; v < hi - 1; ++v)`,
where `hi` is an `int` that the comparison converts to `unsigned`. -/
def interiorCount (lo hi : Nat) : Nat :=
  (if hi = 0 then 4294967295 else hi - 1) - (lo + 1)

/-- One smoothing run of `applySpaceFilter` from pointer `ptr`: first pixel,
`k` interior pixels, last pixel. Returns the frame and the pointer left on the
last pixel. -/
def smoothRun (stride k : Nat) (frame : Nat → ℚ) (ptr : Nat) : (Nat → ℚ) × Nat :=
  let lastVal := frame ptr
  let f1 := Function.update frame ptr ((frame ptr * 2 + frame (ptr + stride)) / 3)
  let s := smoothInterior stride k (f1, ptr + stride, lastVal)
  (Function.update s.1 s.2.1 ((s.2.2 + s.1 s.2.1 * 2) / 3), s.2.1)

/-- The column loop of one pass of `applySpaceFilter`: for each `minX ≤ x < maxX`
the run starts at `filteredframe.getData() + x`. -/
def smoothColumns (g : ZedGrabber) (frame : Nat → ℚ) : Nat → ℚ :=
  (List.range' g.minX (g.maxX - g.minX)).foldl
    (fun f x => (smoothRun g.width (interiorCount g.minY g.maxY) f x).1) frame

/-- The row loop of one pass of `applySpaceFilter`: `rowPtr` starts at
`filteredframe.getData()` and is only ever incremented. -/
def smoothRows (g : ZedGrabber) (frame : Nat → ℚ) : Nat → ℚ :=
  ((List.range' g.minY (g.maxY - g.minY)).foldl
    (fun (s : (Nat → ℚ) × Nat) _ =>
      let r := smoothRun 1 (interiorCount g.minX g.maxX) s.1 s.2
      (r.1, r.2 + 1))
    (frame, 0)).1

/-- The function `ZedGrabber::applySpaceFilter`: two passes, each the column
loop followed by the row loop. -/
def applySpaceFilter (g : ZedGrabber) : ZedGrabber :=
  { g with
    filteredframe :=
      smoothRows g (smoothColumns g (smoothRows g (smoothColumns g g.filteredframe))) }

/-- The statement `if (++averagingSlotIndex == numAveragingSlots)
averagingSlotIndex = 0;` of `filter()`. -/
def advanceSlot (g : ZedGrabber) : ZedGrabber :=
  { g with
    averagingSlotIndex :=
      if g.averagingSlotIndex + 1 = g.numAveragingSlots then 0 else g.averagingSlotIndex + 1 }

/-- The block `if (!firstImageReady) { ... }` of `filter()`: the cycles since
the last reset are counted until they exceed `minInitFrame`. -/
def countInitFrame (g : ZedGrabber) : ZedGrabber :=
  if g.firstImageReady then g
  else if g.currentInitFrame + 1 > g.minInitFrame then
    { g with currentInitFrame := g.currentInitFrame + 1, firstImageReady := true }
  else { g with currentInitFrame := g.currentInitFrame + 1 }

/-- The function `ZedGrabber::filter` on the raw depth frame `zedDepthImage`. -/
def filter (zedDepthImage : Nat → Nat) (g : ZedGrabber) : ZedGrabber :=
  if g.bufferInitiated then
    if (countInitFrame (advanceSlot (filterScan zedDepthImage g))).spatialFilter then
      applySpaceFilter (countInitFrame (advanceSlot (filterScan zedDepthImage g)))
    else countInitFrame (advanceSlot (filterScan zedDepthImage g))
  else g

/-- The grabber after `n` cycles of `filter()`, cycle `k` (counted from 1)
filtering the frame `frames k`. -/
def filterCycles (frames : Nat → Nat → Nat) : Nat → ZedGrabber → ZedGrabber
  | 0, g => g
  | n + 1, g => filter (frames (n + 1)) (filterCycles frames n g)

/-! ## The filter seen from one pixel -/

/-- What the filter stores for one pixel: its statistics triple, its valid
value, its output value and the content of its averaging slots. -/
@[ext]
structure PixelView where
  n : ℚ
  s : ℚ
  q : ℚ
  valid : ℚ
  filtered : ℚ
  slots : Nat → ℚ

/-- The view of the pixel at flat offset `p`. -/
def pixelView (g : ZedGrabber) (p : Nat) : PixelView :=
  { n := g.statBuffer (3 * p)
    s := g.statBuffer (3 * p + 1)
    q := g.statBuffer (3 * p + 2)
    valid := g.validBuffer p
    filtered := g.filteredframe p
    slots := fun i => g.averagingBuffer (i * g.height * g.width + p) }

/-- A view with its output value replaced by `f`. -/
def withFiltered (w : PixelView) (f : ℚ) : PixelView :=
  { n := w.n, s := w.s, q := w.q, valid := w.valid, filtered := f, slots := w.slots }

/-- The big-change condition on a view. -/
def viewBigChange (g : ZedGrabber) (newVal : ℚ) (v : PixelView) : Bool :=
  g.followBigChange && decide (v.n > 0) &&
    (decide (f32 (f32 (v.s / v.n) - newVal) ≥ g.bigChange) ||
     decide (f32 (newVal - f32 (v.s / v.n)) ≥ g.bigChange))

/-- The statistics and slots of a view after the sample `newVal` is taken in
(the branch `newVal > maxOffset` of the loop body), each stored value rounded
to binary32. -/
def viewAccept (g : ZedGrabber) (newVal : ℚ) (v : PixelView) : PixelView :=
  let oldVal := v.slots g.averagingSlotIndex
  let fires := viewBigChange g newVal v
  let n1 := if fires then f32 (g.numAveragingSlots : ℚ) else v.n
  let s1 := if fires then f32 (newVal * f32 (g.numAveragingSlots : ℚ)) else v.s
  let q1 := if fires then f32 (f32 (newVal * newVal) * f32 (g.numAveragingSlots : ℚ)) else v.q
  { v with
    n := if oldVal ≠ g.initialValue then f32 (f32 (n1 + 1) - 1) else f32 (n1 + 1)
    s := if oldVal ≠ g.initialValue then f32 (f32 (s1 + newVal) - oldVal) else f32 (s1 + newVal)
    q := if oldVal ≠ g.initialValue then
           f32 (f32 (q1 + f32 (newVal * newVal)) - f32 (oldVal * oldVal))
         else f32 (q1 + f32 (newVal * newVal))
    slots := fun i =>
      if fires ∧ i < g.numAveragingSlots then newVal
      else if i = g.averagingSlotIndex then newVal else v.slots i }

/-- The stability test on a view. -/
def viewStable (g : ZedGrabber) (v : PixelView) : Bool :=
  decide (f32 (g.minNumSamples : ℚ) ≤ v.n) &&
    decide (f32 (v.q * v.n) ≤ f32 (f32 (f32 (g.maxVariance * v.n) * v.n) + f32 (v.s * v.s)))

/-- The valid and output values of a view after the stability branch. -/
def viewOutput (g : ZedGrabber) (v : PixelView) : PixelView :=
  let valid :=
    if viewStable g v ∧ abs (f32 (f32 (v.s / v.n) - v.valid)) ≥ g.hysteresis then
      f32 (v.s / v.n)
    else v.valid
  { v with valid := valid, filtered := valid }

/-- The loop body of `filter()` as a function on the view of its pixel. -/
def viewStep (g : ZedGrabber) (newVal : ℚ) (v : PixelView) : PixelView :=
  viewOutput g (if newVal > g.maxOffset then viewAccept g newVal v else v)

/-- The fields of the grabber that the scan of `filter()` leaves alone. -/
structure SameSettings (g g' : ZedGrabber) : Prop where
  bufferInitiated : g'.bufferInitiated = g.bufferInitiated
  firstImageReady : g'.firstImageReady = g.firstImageReady
  width : g'.width = g.width
  height : g'.height = g.height
  minX : g'.minX = g.minX
  maxX : g'.maxX = g.maxX
  minY : g'.minY = g.minY
  maxY : g'.maxY = g.maxY
  numAveragingSlots : g'.numAveragingSlots = g.numAveragingSlots
  averagingSlotIndex : g'.averagingSlotIndex = g.averagingSlotIndex
  minNumSamples : g'.minNumSamples = g.minNumSamples
  maxVariance : g'.maxVariance = g.maxVariance
  initialValue : g'.initialValue = g.initialValue
  hysteresis : g'.hysteresis = g.hysteresis
  followBigChange : g'.followBigChange = g.followBigChange
  bigChange : g'.bigChange = g.bigChange
  spatialFilter : g'.spatialFilter = g.spatialFilter
  maxOffset : g'.maxOffset = g.maxOffset
  minInitFrame : g'.minInitFrame = g.minInitFrame
  currentInitFrame : g'.currentInitFrame = g.currentInitFrame


/-- A grabber for a `w × h` sensor as `ZedGrabber::setup` leaves it: the frame
size is known, the buffers are not initiated, nothing else is set. -/
def freshGrabber (w h : Nat) : ZedGrabber :=
  { bufferInitiated := false, firstImageReady := false, width := w, height := h,
    minX := 0, maxX := 0, minY := 0, maxY := 0, filteredframe := fun _ => 0,
    gradField := fun _ => ⟨0, 0⟩, averagingBuffer := fun _ => 0, statBuffer := fun _ => 0,
    validBuffer := fun _ => 0, gradFieldcols := 0, gradFieldrows := 0,
    gradFieldresolution := 0, maxgradfield := 0, numAveragingSlots := 0,
    averagingSlotIndex := 0, minNumSamples := 0, maxVariance := 0, initialValue := 0,
    outsideROIValue := 0, hysteresis := 0, followBigChange := false, bigChange := 0,
    instableValue := 0, spatialFilter := false, maxOffset := 0, minInitFrame := 0,
    currentInitFrame := 0 }

/-- A 2 × 2 grabber set up with the whole frame as ROI, averaging depth 15,
ceiling 0, spatial smoothing off and the big-change override off. -/
def plainDemo : ZedGrabber :=
  setupFramefilter (freshGrabber 2 2) 1 0 0 2 0 2 false false 15

/-- Raw frames that show 4000 at pixel 0 and 3000 elsewhere, on every cycle. -/
def demoFrames : Nat → Nat → Nat := fun _ p => if p = 0 then 4000 else 3000

/-- The fields of the grabber that a whole cycle of `filter()` leaves alone. -/
structure SameConfig (g g' : ZedGrabber) : Prop where
  bufferInitiated : g'.bufferInitiated = g.bufferInitiated
  width : g'.width = g.width
  height : g'.height = g.height
  minX : g'.minX = g.minX
  maxX : g'.maxX = g.maxX
  minY : g'.minY = g.minY
  maxY : g'.maxY = g.maxY
  numAveragingSlots : g'.numAveragingSlots = g.numAveragingSlots
  minNumSamples : g'.minNumSamples = g.minNumSamples
  maxVariance : g'.maxVariance = g.maxVariance
  initialValue : g'.initialValue = g.initialValue
  hysteresis : g'.hysteresis = g.hysteresis
  followBigChange : g'.followBigChange = g.followBigChange
  bigChange : g'.bigChange = g.bigChange
  spatialFilter : g'.spatialFilter = g.spatialFilter
  maxOffset : g'.maxOffset = g.maxOffset
  minInitFrame : g'.minInitFrame = g.minInitFrame

/-- The number of samples that the statistics of a pixel count after `c` cycles
of the constant sample `v` from reset buffers of depth `K`: a slot that still
holds the initial value 4000 is never taken out again. -/
def constCount (K : Nat) (v : ℚ) (c : Nat) : Nat :=
  if v = 4000 then c else min c K

/-- The view of a pixel after `c` cycles of the constant sample `v` from reset
buffers of depth `K` with `m` samples required for stability. -/
def constView (K m : Nat) (v : ℚ) (c : Nat) : PixelView :=
  { n := (constCount K v c : ℚ)
    s := (constCount K v c : ℚ) * v
    q := (constCount K v c : ℚ) * (v * v)
    valid := if m ≤ c then v else 4000
    filtered := if c = 0 then 0 else if m ≤ c then v else 4000
    slots := fun i => if i < min c K then v else 4000 }

/-- The 2 × 2 demonstration grabber with spatial smoothing on, the setting that
`ZedProjector::setup` passes by default. -/
def smoothedDemo : ZedGrabber :=
  setupFramefilter (freshGrabber 2 2) 1 0 0 2 0 2 true false 15

/-- A one-pixel grabber with averaging depth 1 and the big-change override on. -/
def driftDemo : ZedGrabber :=
  setupFramefilter (freshGrabber 1 1) 1 0 0 1 0 1 false true 1

/-- Raw frames for the one-pixel grabber: 5000 on the first cycle, 5005 after. -/
def driftFrames : Nat → Nat → Nat := fun k _ => if k = 1 then 5000 else 5005

/-- A one-pixel grabber with averaging depth 10 (`minNumSamples` 5), ceiling -1
(so that a raw value 0 is accepted), spatial smoothing off and the big-change
override off. -/
def lowDemo : ZedGrabber :=
  setupFramefilter (freshGrabber 1 1) 1 (-1) 0 1 0 1 false false 10

/-- Raw frames for the one-pixel grabber: 1 on the first cycle, 0 on cycles 2 to
5, and 1 from cycle 6 on. -/
def lowFrames : Nat → Nat → Nat := fun k _ => if k = 1 ∨ 6 ≤ k then 1 else 0

/-- A one-pixel grabber with averaging depth `K`, ceiling 0, spatial smoothing
off and the big-change override off. -/
def onePixelDemo (K : Nat) : ZedGrabber :=
  setupFramefilter (freshGrabber 1 1) 1 0 0 1 0 1 false false K

/-- Raw frames that show `v` everywhere on every cycle. -/
def steadyFrames (v : Nat) : Nat → Nat → Nat := fun _ _ => v

/-- The sums of up to `m` copies of `v` and of `v * v`, and the counts up to
`m`, are binary32 numbers: a window of at most `m` samples `v` is accumulated
without rounding. -/
def SumsExact (m : Nat) (v : ℚ) : Prop :=
  ∀ j : Nat, j ≤ m →
    f32 (j : ℚ) = (j : ℚ) ∧ f32 ((j : ℚ) * v) = (j : ℚ) * v ∧
      f32 ((j : ℚ) * (v * v)) = (j : ℚ) * (v * v)

instance (m : Nat) (v : ℚ) : Decidable (SumsExact m v) := by
  unfold SumsExact
  infer_instance

/-! ## glm vectors and matrices -/

/-- The sum `a + b` of two `glm::vec3`. -/
def Vec3.add (a b : Vec3) : Vec3 := ⟨a.x + b.x, a.y + b.y, a.z + b.z⟩

/-- The difference `a - b` of two `glm::vec3`. -/
def Vec3.sub (a b : Vec3) : Vec3 := ⟨a.x - b.x, a.y - b.y, a.z - b.z⟩

/-- The quotient `a / k` of a `glm::vec3` by a scalar. -/
def Vec3.divScalar (a : Vec3) (k : ℚ) : Vec3 := ⟨a.x / k, a.y / k, a.z / k⟩

/-- The product `glm::dot(a, b)` of two `glm::vec3`. -/
def Vec3.dot (a b : Vec3) : ℚ := a.x * b.x + a.y * b.y + a.z * b.z

/-- The member function `length()` of a `glm::vec3`: the number of components
of the vector, whatever its value. -/
def Vec3.length (_ : Vec3) : ℚ := 3

/-- The product `glm::dot(a, b)` of two `glm::vec4`. -/
def Vec4.dot (a b : Vec4) : ℚ := a.x * b.x + a.y * b.y + a.z * b.z + a.w * b.w

/-- The type `glm::mat4x4`, stored as its four columns: `col0` is `M[0]`. -/
structure Mat4 where
  col0 : Vec4
  col1 : Vec4
  col2 : Vec4
  col3 : Vec4
deriving DecidableEq

/-- The sixteen-scalar constructor `glm::mat4x4(x0, y0, z0, w0, x1, ...)`: each
group of four arguments is one column. -/
def mat4x4 (x0 y0 z0 w0 x1 y1 z1 w1 x2 y2 z2 w2 x3 y3 z3 w3 : ℚ) : Mat4 :=
  ⟨⟨x0, y0, z0, w0⟩, ⟨x1, y1, z1, w1⟩, ⟨x2, y2, z2, w2⟩, ⟨x3, y3, z3, w3⟩⟩

/-- The product `M * v` of a `glm::mat4x4` and a `glm::vec4`:
`M[0]*v.x + M[1]*v.y + M[2]*v.z + M[3]*v.w`. -/
def Mat4.mulVec (m : Mat4) (v : Vec4) : Vec4 :=
  ⟨m.col0.x * v.x + m.col1.x * v.y + m.col2.x * v.z + m.col3.x * v.w,
   m.col0.y * v.x + m.col1.y * v.y + m.col2.y * v.z + m.col3.y * v.w,
   m.col0.z * v.x + m.col1.z * v.y + m.col2.z * v.z + m.col3.z * v.w,
   m.col0.w * v.x + m.col1.w * v.y + m.col2.w * v.z + m.col3.w * v.w⟩

/-! ## Utils.h: the plane fitter -/

/-- The function `ofxCSG::getPlaneEquation`: the first three components are
`basePlaneNormal / basePlaneNormal.length()`, the fourth is
`-dot(basePlaneNormal, basePlanePos)`. -/
def getPlaneEquation (basePlanePos basePlaneNormal : Vec3) : Vec4 :=
  ⟨(basePlaneNormal.divScalar basePlaneNormal.length).x,
   (basePlaneNormal.divScalar basePlaneNormal.length).y,
   (basePlaneNormal.divScalar basePlaneNormal.length).z,
   -(Vec3.dot basePlaneNormal basePlanePos)⟩

/-- The six sums `xx, xy, xz, yy, yz, zz` of `plane_from_points`. -/
structure Covariance where
  xx : ℚ
  xy : ℚ
  xz : ℚ
  yy : ℚ
  yz : ℚ
  zz : ℚ

/-- The body of the second loop of `plane_from_points` for one point. -/
def covarianceStep (centroid : Vec3) (c : Covariance) (p : Vec3) : Covariance :=
  { xx := c.xx + (p.sub centroid).x * (p.sub centroid).x
    xy := c.xy + (p.sub centroid).x * (p.sub centroid).y
    xz := c.xz + (p.sub centroid).x * (p.sub centroid).z
    yy := c.yy + (p.sub centroid).y * (p.sub centroid).y
    yz := c.yz + (p.sub centroid).y * (p.sub centroid).z
    zz := c.zz + (p.sub centroid).z * (p.sub centroid).z }

/-- The centroid `sum / n` of `plane_from_points`. -/
def centroidOf (points : List Vec3) : Vec3 :=
  (points.foldl Vec3.add ⟨0, 0, 0⟩).divScalar (points.length : ℚ)

/-- The sums of `plane_from_points` after its second loop. -/
def covarianceOf (points : List Vec3) : Covariance :=
  points.foldl (covarianceStep (centroidOf points)) ⟨0, 0, 0, 0, 0, 0⟩

/-- The determinant `det_x` of `plane_from_points`. -/
def detX (c : Covariance) : ℚ := c.yy * c.zz - c.yz * c.yz

/-- The determinant `det_y` of `plane_from_points`. -/
def detY (c : Covariance) : ℚ := c.xx * c.zz - c.xz * c.xz

/-- The determinant `det_z` of `plane_from_points`. -/
def detZ (c : Covariance) : ℚ := c.xx * c.yy - c.xy * c.xy

/-- The value `det_max` of `plane_from_points`. -/
def detMax (c : Covariance) : ℚ := max (detX c) (max (detY c) (detZ c))

/-- The vector `dir` that `plane_from_points` picks from the sums. The last
branch of the source only logs an error and leaves `dir` as declared; it is
never taken, `det_max` being one of the three determinants. -/
def planeDirection (c : Covariance) : Vec3 :=
  if detMax c = detX c then
    ⟨1, (c.xz * c.yz - c.xy * c.zz) / detX c, (c.xy * c.yz - c.xz * c.yy) / detX c⟩
  else if detMax c = detY c then
    ⟨(c.yz * c.xz - c.xy * c.zz) / detY c, 1, (c.xy * c.xz - c.yz * c.xx) / detY c⟩
  else if detMax c = detZ c then
    ⟨(c.yz * c.xy - c.xz * c.yy) / detZ c, (c.xz * c.xy - c.yz * c.xx) / detZ c, 1⟩
  else ⟨0, 0, 0⟩

/-- The function `ofxCSG::plane_from_points` on the array `points` of `n`
elements, `n` being the length of the list. -/
def plane_from_points (points : List Vec3) : Vec4 :=
  if points.length < 3 then ⟨0, 0, 0, 0⟩
  else if detMax (covarianceOf points) = 0 then ⟨0, 0, 0, 0⟩
  else getPlaneEquation (centroidOf points) (planeDirection (covarianceOf points))

/-- The points all lie on one line (or coincide): each is `a + t * d` for one
point `a` and one direction `d`. -/
def Collinear (points : List Vec3) : Prop :=
  ∃ a d : Vec3, ∀ p ∈ points,
    ∃ t : ℚ, p = ⟨a.x + t * d.x, a.y + t * d.y, a.z + t * d.z⟩

/-- The points all lie on the plane `dot(normal, p) + offset = 0`, `normal`
not zero. -/
def OnPlane (normal : Vec3) (offset : ℚ) (points : List Vec3) : Prop :=
  normal ≠ ⟨0, 0, 0⟩ ∧ ∀ p ∈ points, Vec3.dot normal p + offset = 0

/-- The sum over the points of `dot(normal, p - centroid)^2`. -/
def centredCost (points : List Vec3) (normal : Vec3) : ℚ :=
  (points.map fun p => (Vec3.dot normal (p.sub (centroidOf points))) ^ 2).sum

/-- The index of the axis whose branch `plane_from_points` takes: 0 for x when
`det_max == det_x`, else 1 for y when `det_max == det_y`, else 2 for z. -/
def planeAxis (c : Covariance) : Nat :=
  if detMax c = detX c then 0 else if detMax c = detY c then 1 else 2

/-- The component of a vector along axis 0, 1 or 2. -/
def Vec3.component (v : Vec3) (axis : Nat) : ℚ :=
  if axis = 0 then v.x else if axis = 1 then v.y else v.z

/-- The elevation query of `ZedProjector::elevationAtZedCoord` on the world
point `w`: `-dot(basePlaneEq, (w, 1))`. -/
def elevationOfWorldPoint (basePlaneEq : Vec4) (w : Vec3) : ℚ :=
  -(Vec4.dot basePlaneEq ⟨w.x, w.y, w.z, 1⟩)

/-- The default base plane of `ZedProjector::setup`: normal `(0, 0, 1)` through
`(0, 0, 870)`. -/
def defaultBasePlaneEq : Vec4 := getPlaneEquation ⟨0, 0, 870⟩ ⟨0, 0, 1⟩

/-- The quadratic form of the sums of `plane_from_points` at the vector `v`:
`v.x^2*xx + v.y^2*yy + v.z^2*zz + 2*v.x*v.y*xy + 2*v.x*v.z*xz + 2*v.y*v.z*yz`. -/
def quadForm (c : Covariance) (v : Vec3) : ℚ :=
  v.x ^ 2 * c.xx + v.y ^ 2 * c.yy + v.z ^ 2 * c.zz +
    2 * (v.x * v.y) * c.xy + 2 * (v.x * v.z) * c.xz + 2 * (v.y * v.z) * c.yz

/-- The point `a + t * d` of the line through `a` with direction `d`. -/
def linePoint (a d : Vec3) (t : ℚ) : Vec3 :=
  ⟨a.x + t * d.x, a.y + t * d.y, a.z + t * d.z⟩

/-- Three points of the line through the origin with direction `(1, 1, 1)`. -/
def diagonalPoints : List Vec3 := [⟨0, 0, 0⟩, ⟨1, 1, 1⟩, ⟨2, 2, 2⟩]

/-- Three points of the plane `x - z + 1 = 0` that are not collinear. -/
def tiltedPoints : List Vec3 := [⟨0, 0, 1⟩, ⟨1, 0, 2⟩, ⟨0, 1, 1⟩]

/-- Four points that are not coplanar. -/
def cornerPoints : List Vec3 := [⟨0, 0, 0⟩, ⟨1, 0, 0⟩, ⟨0, 1, 0⟩, ⟨1, 1, 1⟩]

/-! ## ZedProjectorCalibration.cpp: the projective calibration solver -/

/-- Eleven scalars: a row of the matrix `A` of `calibrate()`, or the column `x`
of its solved coefficients `x(0,0) .. x(10,0)`. -/
structure Vec11 where
  c0 : ℚ
  c1 : ℚ
  c2 : ℚ
  c3 : ℚ
  c4 : ℚ
  c5 : ℚ
  c6 : ℚ
  c7 : ℚ
  c8 : ℚ
  c9 : ℚ
  c10 : ℚ
deriving DecidableEq

/-- The product of a row of `A` with the column `x`. -/
def Vec11.dot (r x : Vec11) : ℚ :=
  r.c0 * x.c0 + r.c1 * x.c1 + r.c2 * x.c2 + r.c3 * x.c3 + r.c4 * x.c4 + r.c5 * x.c5 +
    r.c6 * x.c6 + r.c7 * x.c7 + r.c8 * x.c8 + r.c9 * x.c9 + r.c10 * x.c10

/-- Row `2*i` of `A` for the pair `(pairsZed[i], pairsProjector[i])`. -/
def rowEven (w : Vec3) (d : Vec2) : Vec11 :=
  ⟨w.x, w.y, w.z, 1, 0, 0, 0, 0, -w.x * d.x, -w.y * d.x, -w.z * d.x⟩

/-- Row `2*i + 1` of `A` for the pair `(pairsZed[i], pairsProjector[i])`. -/
def rowOdd (w : Vec3) (d : Vec2) : Vec11 :=
  ⟨0, 0, 0, 0, w.x, w.y, w.z, 1, -w.x * d.y, -w.y * d.y, -w.z * d.y⟩

/-- The system `A*x = y` that `calibrate()` builds, as the list of its rows with
their right-hand sides, in row order. The loop runs over `pairsZed`; there is
no system (`none`) when `pairsProjector` is the shorter list, the loop reading
past its end. -/
def calibrationSystem : List Vec3 → List Vec2 → Option (List (Vec11 × ℚ))
  | [], _ => some []
  | _ :: _, [] => none
  | w :: ws, d :: ds =>
      (calibrationSystem ws ds).map fun rest =>
        (rowEven w d, d.x) :: (rowOdd w d, d.y) :: rest

/-- The projective map with coefficients `c` that the rows of `calibrate()`
encode, at the world point `w`. -/
def projectiveMap (c : Vec11) (w : Vec3) : Vec2 :=
  ⟨(c.c0 * w.x + c.c1 * w.y + c.c2 * w.z + c.c3) / (c.c8 * w.x + c.c9 * w.y + c.c10 * w.z + 1),
   (c.c4 * w.x + c.c5 * w.y + c.c6 * w.z + c.c7) / (c.c8 * w.x + c.c9 * w.y + c.c10 * w.z + 1)⟩

/-- The members of `class ofxZedProjectorToolkit`. -/
structure Toolkit where
  projRes : Vec2
  zedRes : Vec2
  x : Vec11
  projMatrice : Mat4
  calibrated : Bool

/-- The matrix that `calibrate()` builds from the solved coefficients:
`glm::mat4x4(x0, x1, x2, x3, x4, x5, x6, x7, x8, x9, x10, 1, 0, 0, 0, 1)`. -/
def calibratedMatrix (x : Vec11) : Mat4 :=
  mat4x4 x.c0 x.c1 x.c2 x.c3 x.c4 x.c5 x.c6 x.c7 x.c8 x.c9 x.c10 1 0 0 0 1

/-- The function `ofxZedProjectorToolkit::calibrate`. The least-squares solver
of dlib is the parameter `solve`, from the rows and right-hand sides to the
solution column. -/
def calibrate (solve : List (Vec11 × ℚ) → Vec11) (k : Toolkit) (pairsZed : List Vec3)
    (pairsProjector : List Vec2) : Option Toolkit :=
  (calibrationSystem pairsZed pairsProjector).map fun sys =>
    { k with
      x := solve sys
      projMatrice := calibratedMatrix (solve sys)
      calibrated := true }

/-- The function `ofxZedProjectorToolkit::getProjectedPoint`. -/
def getProjectedPoint (k : Toolkit) (worldPoint : Vec3) : Vec2 :=
  ⟨(k.projMatrice.mulVec ⟨worldPoint.x, worldPoint.y, worldPoint.z, 1⟩).x /
      (k.projMatrice.mulVec ⟨worldPoint.x, worldPoint.y, worldPoint.z, 1⟩).z,
   (k.projMatrice.mulVec ⟨worldPoint.x, worldPoint.y, worldPoint.z, 1⟩).y /
      (k.projMatrice.mulVec ⟨worldPoint.x, worldPoint.y, worldPoint.z, 1⟩).z⟩

/-! ## ZedProjector.cpp: the coordinate transforms -/

/-- The function `ZedProjector::worldCoordToProjCoord` for the member
`ZedProjMatrix`. -/
def worldCoordToProjCoord (ZedProjMatrix : Mat4) (vin : Vec3) : Vec2 :=
  ⟨(ZedProjMatrix.mulVec ⟨vin.x, vin.y, vin.z, 1⟩).x /
      (ZedProjMatrix.mulVec ⟨vin.x, vin.y, vin.z, 1⟩).z,
   (ZedProjMatrix.mulVec ⟨vin.x, vin.y, vin.z, 1⟩).y /
      (ZedProjMatrix.mulVec ⟨vin.x, vin.y, vin.z, 1⟩).z⟩

/-- The determinant `a*e - b*d` of the 2 × 2 system that
`projCoordAndWorldZToWorldCoord` forms. -/
def projSystemDet (m : Mat4) (projX projY : ℚ) : ℚ :=
  (m.col0.x - m.col2.x * projX) * (m.col1.y - m.col2.y * projY) -
    (m.col0.y - m.col2.y * projX) * (m.col1.x - m.col2.x * projY)

/-- The function `ZedProjector::projCoordAndWorldZToWorldCoord` for the member
`ZedProjMatrix`; `M[i][j]` of the source is component `j` of column `i`. -/
def projCoordAndWorldZToWorldCoord (ZedProjMatrix : Mat4) (projX projY worldZ : ℚ) : Vec3 :=
  let a := ZedProjMatrix.col0.x - ZedProjMatrix.col2.x * projX
  let b := ZedProjMatrix.col0.y - ZedProjMatrix.col2.y * projX
  let c := (ZedProjMatrix.col2.z * worldZ + 1) * projX -
    (ZedProjMatrix.col0.z * worldZ + ZedProjMatrix.col0.w)
  let d := ZedProjMatrix.col1.x - ZedProjMatrix.col2.x * projY
  let e := ZedProjMatrix.col1.y - ZedProjMatrix.col2.y * projY
  let f := (ZedProjMatrix.col2.z * worldZ + 1) * projY -
    (ZedProjMatrix.col1.z * worldZ + ZedProjMatrix.col1.w)
  let det := a * e - b * d
  if det = 0 then ⟨0, 0, 0⟩
  else ⟨(c * e - b * f) / det, (a * f - d * c) / det, worldZ⟩

/-- The coefficients of the projective map `u = X/(Z+1)`, `v = Y/(Z+1)`. -/
def demoCoeffs : Vec11 := ⟨1, 0, 0, 0, 0, 1, 0, 0, 0, 0, 1⟩

/-- Six world points in front of the sensor. -/
def demoWorld : List Vec3 :=
  [⟨1, 2, 3⟩, ⟨0, 0, 1⟩, ⟨0, 2, 1⟩, ⟨1, 0, 3⟩, ⟨1, 0, 1⟩, ⟨1, 2, 1⟩]

/-- The display points of `demoWorld` under the map of `demoCoeffs`. -/
def demoDisplay : List Vec2 :=
  [⟨1 / 4, 1 / 2⟩, ⟨0, 0⟩, ⟨0, 1⟩, ⟨1 / 4, 0⟩, ⟨1 / 2, 0⟩, ⟨1 / 2, 1⟩]

/-- The twelve rows and right-hand sides that `calibrate()` builds from
`demoWorld` and `demoDisplay`. -/
def demoSystem : List (Vec11 × ℚ) :=
  [(⟨1, 2, 3, 1, 0, 0, 0, 0, -1 / 4, -1 / 2, -3 / 4⟩, 1 / 4),
   (⟨0, 0, 0, 0, 1, 2, 3, 1, -1 / 2, -1, -3 / 2⟩, 1 / 2),
   (⟨0, 0, 1, 1, 0, 0, 0, 0, 0, 0, 0⟩, 0),
   (⟨0, 0, 0, 0, 0, 0, 1, 1, 0, 0, 0⟩, 0),
   (⟨0, 2, 1, 1, 0, 0, 0, 0, 0, 0, 0⟩, 0),
   (⟨0, 0, 0, 0, 0, 2, 1, 1, 0, -2, -1⟩, 1),
   (⟨1, 0, 3, 1, 0, 0, 0, 0, -1 / 4, 0, -3 / 4⟩, 1 / 4),
   (⟨0, 0, 0, 0, 1, 0, 3, 1, 0, 0, 0⟩, 0),
   (⟨1, 0, 1, 1, 0, 0, 0, 0, -1 / 2, 0, -1 / 2⟩, 1 / 2),
   (⟨0, 0, 0, 0, 1, 0, 1, 1, 0, 0, 0⟩, 0),
   (⟨1, 2, 1, 1, 0, 0, 0, 0, -1 / 2, -1, -1 / 2⟩, 1 / 2),
   (⟨0, 0, 0, 0, 1, 2, 1, 1, -1, -2, -1⟩, 1)]

/-- A toolkit as its constructor leaves it for a 1024 × 768 projector and a
1280 × 720 sensor: not calibrated; the members it does not set are zero here. -/
def freshToolkit : Toolkit :=
  { projRes := ⟨1024, 768⟩, zedRes := ⟨1280, 720⟩,
    x := ⟨0, 0, 0, 0, 0, 0, 0, 0, 0, 0, 0⟩,
    projMatrice := mat4x4 0 0 0 0 0 0 0 0 0 0 0 0 0 0 0 0, calibrated := false }

/-! ## ZedProjector.cpp: sensor pixels, world points and elevations -/

/-- The conversion `static_cast<int>` of a `float`: the fraction is dropped,
toward zero. -/
def truncToInt (q : ℚ) : Int := if 0 ≤ q then Rat.floor q else -Rat.floor (-q)

/-- The product `v * k` of a `glm::vec4` and a scalar. -/
def Vec4.scale (v : Vec4) (k : ℚ) : Vec4 := ⟨v.x * k, v.y * k, v.z * k, v.w * k⟩

/-- The type `ofRectangle`: corner `(x, y)`, `width` and `height`. -/
structure Rect where
  x : ℚ
  y : ℚ
  width : ℚ
  height : ℚ
deriving DecidableEq

/-- The function `ofRectangle::scaleFromCenter(float s)`: both sides are scaled
by `s` and the centre stays where it is. -/
def Rect.scaleFromCenter (r : Rect) (s : ℚ) : Rect :=
  if s = 1 then r
  else
    { x := (r.x + r.width / 2) - r.width * s / 2
      y := (r.y + r.height / 2) - r.height * s / 2
      width := r.width * s
      height := r.height * s }

/-- The function `ofRectangle::getLeft`. -/
def Rect.getLeft (r : Rect) : ℚ := min r.x (r.x + r.width)

/-- The function `ofRectangle::getTop`. -/
def Rect.getTop (r : Rect) : ℚ := min r.y (r.y + r.height)

/-- The members of `class ZedProjector` that the coordinate transforms and the
base plane update read or write. The pixels of `FilteredDepthImage` are a map
from the flat index to the depth. -/
structure ZedProjector where
  zedRes : Vec2
  zedROI : Rect
  FilteredDepthImage : Int → ℚ
  ZedWorldMatrix : Mat4
  basePlaneEq : Vec4
  basePlaneNormal : Vec3
  basePlaneNormalBack : Vec3
  basePlaneOffset : Vec3
  basePlaneOffsetBack : Vec3
  basePlaneUpdated : Bool
  maxOffset : ℚ
  maxOffsetBack : ℚ
  maxOffsetSafeRange : ℚ

/-- The index `static_cast<int>(y) * zedRes.x + static_cast<int>(x)` at which
`ZedCoordToWorldCoord` reads the depth; the sum is a `float` that the
assignment to `int ind` truncates. -/
def depthIndex (p : ZedProjector) (x y : ℚ) : Int :=
  truncToInt ((truncToInt y : ℚ) * p.zedRes.x + (truncToInt x : ℚ))

/-- The function `ZedProjector::ZedCoordToWorldCoord`:
`wc = ZedWorldMatrix * kc * kc.z` for `kc = (x, y, depth, 1)`. -/
def ZedCoordToWorldCoord (p : ZedProjector) (x y : ℚ) : Vec3 :=
  ⟨((p.ZedWorldMatrix.mulVec ⟨x, y, p.FilteredDepthImage (depthIndex p x y), 1⟩).scale
      (p.FilteredDepthImage (depthIndex p x y))).x,
   ((p.ZedWorldMatrix.mulVec ⟨x, y, p.FilteredDepthImage (depthIndex p x y), 1⟩).scale
      (p.FilteredDepthImage (depthIndex p x y))).y,
   ((p.ZedWorldMatrix.mulVec ⟨x, y, p.FilteredDepthImage (depthIndex p x y), 1⟩).scale
      (p.FilteredDepthImage (depthIndex p x y))).z⟩

/-- The sample points of `updateBasePlane` and `updateMaxOffset`: the ROI scaled
by 0.75 about its centre, its sides and corner truncated to `sw`, `sh`, `sl`,
`st`; `none` when `sw * sh == 0`, else the array `points`, whose element
`x + y * sw` is `ZedCoordToWorldCoord(x + sl, y + st)`. The ROI is a
standardized rectangle, its width and height are not negative. -/
def smallROIPoints (p : ZedProjector) : Option (List Vec3) :=
  let sw := (truncToInt (p.zedROI.scaleFromCenter (3 / 4)).width).toNat
  let sh := (truncToInt (p.zedROI.scaleFromCenter (3 / 4)).height).toNat
  let sl := truncToInt (p.zedROI.scaleFromCenter (3 / 4)).getLeft
  let st := truncToInt (p.zedROI.scaleFromCenter (3 / 4)).getTop
  if sw * sh = 0 then none
  else some ((List.range (sw * sh)).map fun i =>
    ZedCoordToWorldCoord p (((i % sw : Nat) : ℚ) + sl) (((i / sw : Nat) : ℚ) + st))

/-- The function `ZedProjector::updateBasePlane`. -/
def updateBasePlane (p : ZedProjector) : ZedProjector :=
  match smallROIPoints p with
  | none => p
  | some points =>
    { p with
      basePlaneEq := plane_from_points points
      basePlaneNormal :=
        ⟨(plane_from_points points).x, (plane_from_points points).y,
         (plane_from_points points).z⟩
      basePlaneOffset := ⟨0, 0, -(plane_from_points points).w⟩
      basePlaneNormalBack :=
        ⟨(plane_from_points points).x, (plane_from_points points).y,
         (plane_from_points points).z⟩
      basePlaneOffsetBack := ⟨0, 0, -(plane_from_points points).w⟩
      basePlaneUpdated := true }

/-- The function `ZedProjector::updateMaxOffset` (the request it queues for the
grabber has no counterpart here). -/
def updateMaxOffset (p : ZedProjector) : ZedProjector :=
  match smallROIPoints p with
  | none => p
  | some points =>
    { p with
      maxOffset := -(plane_from_points points).w - p.maxOffsetSafeRange
      maxOffsetBack := -(plane_from_points points).w - p.maxOffsetSafeRange }

/-- The pose matrix that `ZedGrabber::getWorldMatrix` builds for the identity
rotation and the zero translation. -/
def identityPose : Mat4 := mat4x4 1 0 0 0 0 1 0 0 0 0 1 0 0 0 0 0

/-- A projector as `ZedProjector::setup` leaves its base plane and ceiling
(normal `(0, 0, 1)`, offset `(0, 0, 870)`, ceiling `870 - 300`, safety range
`50`), for a `w × h` sensor with the ROI `roi`, the world matrix `m` and every
depth equal to `depth`. -/
def demoProjector (w h : ℚ) (roi : Rect) (m : Mat4) (depth : ℚ) : ZedProjector :=
  { zedRes := ⟨w, h⟩, zedROI := roi, FilteredDepthImage := fun _ => depth,
    ZedWorldMatrix := m, basePlaneEq := defaultBasePlaneEq,
    basePlaneNormal := ⟨0, 0, 1⟩, basePlaneNormalBack := ⟨0, 0, 1⟩,
    basePlaneOffset := ⟨0, 0, 870⟩, basePlaneOffsetBack := ⟨0, 0, 870⟩,
    basePlaneUpdated := false, maxOffset := 570, maxOffsetBack := 570,
    maxOffsetSafeRange := 50 }

/-- A 4 × 4 sensor with the pose `identityPose` and depth 3 everywhere. -/
def poseSensor : ZedProjector := demoProjector 4 4 ⟨0, 0, 4, 4⟩ identityPose 3

/-- A 4 × 4 sensor with the pose `identityPose`, depth 2 everywhere and the
ROI `[0, 4) × [0, 2)`, whose sample rectangle is one row of three pixels. -/
def thinRoiSensor : ZedProjector := demoProjector 4 4 ⟨0, 0, 4, 2⟩ identityPose 2

/-- The function `ZedGrabber::isInsideROI`. -/
def isInsideROI (g : ZedGrabber) (x y : Nat) : Bool :=
  if x < g.minX ∨ x > g.maxX ∨ y < g.minY ∨ y > g.maxY then false else true

/-- The member function `length()` of a `glm::vec2`: the number of components. -/
def Vec2.length (_ : Vec2) : ℚ := 2

/-- The product `v * k` of a `glm::vec2` and a scalar. -/
def Vec2.scale (v : Vec2) (k : ℚ) : Vec2 := ⟨v.x * k, v.y * k⟩

/-- The sums that `updateGradientField` keeps for one cell: `gx` and `gy` add
the differences of the valid edge pairs, `gvx` and `gvy` count them. -/
structure CellSums where
  gx : ℚ
  gvx : Int
  gy : ℚ
  gvy : Int
deriving DecidableEq

/-- Iteration `i` of the sample loop of `updateGradientField` for the cell
`(x, y)`: row `i` of the cell contributes its two end pixels to `gx`, column `i`
its two end pixels to `gy`, each only if both are non-zero. -/
def gradientSample (g : ZedGrabber) (x y : Nat) (s : CellSums) (i : Nat) : CellSums :=
  let indx := y * g.gradFieldresolution * g.width + i * g.width + x * g.gradFieldresolution
  let indy := y * g.gradFieldresolution * g.width + i + x * g.gradFieldresolution
  let s1 : CellSums :=
    if g.filteredframe indx ≠ 0 ∧ g.filteredframe (indx + g.gradFieldresolution - 1) ≠ 0 then
      { s with
        gvx := s.gvx + 1
        gx := s.gx +
          (g.filteredframe indx - g.filteredframe (indx + g.gradFieldresolution - 1)) }
    else s
  if g.filteredframe indy ≠ 0 ∧
      g.filteredframe (indy + (g.gradFieldresolution - 1) * g.width) ≠ 0 then
    { s1 with
      gvy := s1.gvy + 1
      gy := s1.gy +
        (g.filteredframe indy - g.filteredframe (indy + (g.gradFieldresolution - 1) * g.width)) }
  else s1

/-- The sums of the cell `(x, y)` after the sample loop. -/
def cellSums (g : ZedGrabber) (x y : Nat) : CellSums :=
  (List.range g.gradFieldresolution).foldl (gradientSample g x y) ⟨0, 0, 0, 0⟩

/-- The body of the cell loop of `updateGradientField` for the cell `(x, y)`,
on the gradient field `field`. -/
def gradientCell (g : ZedGrabber) (y : Nat) (field : Nat → Vec2) (x : Nat) : Nat → Vec2 :=
  if isInsideROI g (x * g.gradFieldresolution) (y * g.gradFieldresolution) &&
      isInsideROI g ((x + 1) * g.gradFieldresolution) ((y + 1) * g.gradFieldresolution) then
    let field1 : Nat → Vec2 :=
      if (cellSums g x y).gvx ≠ 0 ∧ (cellSums g x y).gvy ≠ 0 then
        Function.update field (y * g.gradFieldcols + x)
          ⟨(cellSums g x y).gx / g.gradFieldresolution / (cellSums g x y).gvx,
           (cellSums g x y).gy / g.gradFieldresolution / (cellSums g x y).gvy⟩
      else field
    if (field1 (y * g.gradFieldcols + x)).length > g.maxgradfield then
      Function.update field1 (y * g.gradFieldcols + x)
        ((field1 (y * g.gradFieldcols + x)).scale g.maxgradfield)
    else field1
  else Function.update field (y * g.gradFieldcols + x) ⟨0, 0⟩

/-- The function `ZedGrabber::updateGradientField`. -/
def updateGradientField (g : ZedGrabber) : ZedGrabber :=
  { g with
    gradField :=
      (List.range g.gradFieldrows).foldl
        (fun field y => (List.range g.gradFieldcols).foldl (gradientCell g y) field)
        g.gradField }

/-- A 2 × 2 grabber set up with gradient resolution 2 and the whole frame as
ROI, so that the gradient field has one cell. -/
def oneCellDemo : ZedGrabber :=
  setupFramefilter (freshGrabber 2 2) 2 0 0 2 0 2 false false 15

/-- The one-cell grabber with the filtered depths 3000 in the left column and
7000 in the right column. -/
def steepDemo : ZedGrabber :=
  { oneCellDemo with filteredframe := fun p => if p % 2 = 0 then 3000 else 7000 }

/-- A 4 × 4 grabber set up with the ROI `[1, 3) × [1, 3)` and spatial smoothing
on. -/
def offsetRoiDemo : ZedGrabber :=
  setupFramefilter (freshGrabber 4 4) 1 0 1 3 1 3 true false 15

/-- The one-cell grabber after one `updateGradientField()` on the steep frame,
with the filtered frame then all zero. -/
def staleDemo : ZedGrabber :=
  { updateGradientField steepDemo with filteredframe := fun _ => 0 }

/-- The one-cell grabber with the zero gradient field that the reset leaves and
the all-zero filtered frame. -/
def blankDemo : ZedGrabber :=
  { oneCellDemo with filteredframe := fun _ => 0 }

/-- The function `ZedGrabber::isImageStabilized`. -/
def isImageStabilized (g : ZedGrabber) : Bool := g.firstImageReady

/-! ## ZedProjectorCalibration.cpp: loading a calibration -/

/-- What `loadCalibration` reads from a calibration file that loaded: the two
stored resolutions and the eleven coefficients `COEFF0..COEFF10`. -/
structure CalibrationFile where
  PROJECTOR : Vec2
  Zed : Vec2
  COEFF : Vec11

/-- The matrix that `loadCalibration()` builds from the loaded coefficients:
`glm::mat4x4(x0, x1, x2, x3, x4, x5, x6, x7, x8, x9, x10, 1, 0, 0, 0, 0)`. -/
def loadedMatrix (x : Vec11) : Mat4 :=
  mat4x4 x.c0 x.c1 x.c2 x.c3 x.c4 x.c5 x.c6 x.c7 x.c8 x.c9 x.c10 1 0 0 0 0

/-- The function `ofxZedProjectorToolkit::loadCalibration`. The XML reader is
the parameter `file`: `none` when `xml.load(path)` fails, else the content. The
result is the returned flag and the toolkit. -/
def loadCalibration (k : Toolkit) (file : Option CalibrationFile) : Bool × Toolkit :=
  match file with
  | none => (false, k)
  | some xml =>
    if xml.PROJECTOR ≠ k.projRes ∨ xml.Zed ≠ k.zedRes then (false, k)
    else (true, { k with x := xml.COEFF, projMatrice := loadedMatrix xml.COEFF,
                         calibrated := true })

/-- A calibration file stored for a 1024 × 768 projector and a 1280 × 720
sensor. -/
def demoFile : CalibrationFile :=
  { PROJECTOR := ⟨1024, 768⟩, Zed := ⟨1280, 720⟩, COEFF := demoCoeffs }

/-- A calibration file stored for a 800 × 600 projector. -/
def staleFile : CalibrationFile :=
  { PROJECTOR := ⟨800, 600⟩, Zed := ⟨1280, 720⟩, COEFF := demoCoeffs }

/-! ## ZedProjector.cpp: the automatic calibration state machine -/

/-- The type `Auto_calibration_state`. -/
inductive AutoCalibState where
  | INIT_FIRST_PLANE
  | INIT_POINT
  | NEXT_POINT
  | COMPUTE
  | DONE
deriving DecidableEq

/-- The members of `class ZedProjector` that decide which correspondence pairs
`updateProjZedAutoCalibration` collects and when it calls the solver. -/
structure AutoCalibration where
  autoCalibState : AutoCalibState
  currentCalibPts : Int
  cleared : Bool
  upframe : Bool
  trials : Int
  autoCalibPts : Nat → Vec2
  currentProjectorPoints : List Vec2
  pairsZed : List Vec3
  pairsProjector : List Vec2
  projRes : Vec2
  chessboardSize : Int
  chessboardX : Int
  chessboardY : Int

/-- What one call of `updateProjZedAutoCalibration` reads from outside the
state machine: the flags `imageStabilized` and `ROIcalibrated`, the result of
`findChessboardCorners` (the flag and the refined corners `cvPoints`), and the
projector members that `ZedCoordToWorldCoord` reads. -/
structure CalibFrame where
  imageStabilized : Bool
  ROIcalibrated : Bool
  foundChessboard : Bool
  cvPoints : List Vec2
  sensor : ZedProjector

/-- The function `ofMap(value, inputMin, inputMax, outputMin, outputMax)` of
openFrameworks without clamping. -/
def ofMap (value inputMin inputMax outputMin outputMax : ℚ) : ℚ :=
  (value - inputMin) / (inputMax - inputMin) * (outputMax - outputMin) + outputMin

/-- The function `ZedProjector::drawChessboard`, of which only the corner list
`currentProjectorPoints` is kept: the inner corners `(xf + x0, yf + y0)` for
`0 < j < chessboardY`, `0 < i < chessboardX`, row by row. -/
def drawChessboard (c : AutoCalibration) (x y : Int) : AutoCalibration :=
  let xf : ℚ := ((x - truncToInt ((c.chessboardSize : ℚ) / 2) : Int) : ℚ)
  let yf : ℚ := ((y - truncToInt ((c.chessboardSize : ℚ) / 2) : Int) : ℚ)
  { c with
    currentProjectorPoints :=
      (List.range c.chessboardY.toNat).flatMap fun j =>
        (List.range c.chessboardX.toNat).filterMap fun i =>
          if 0 < j ∧ 0 < i then
            some ⟨xf + (truncToInt (ofMap i 0 c.chessboardX 0 c.chessboardSize) : ℚ),
                  yf + (truncToInt (ofMap j 0 c.chessboardY 0 c.chessboardSize) : ℚ)⟩
          else none }

/-- The function `ZedProjector::addPointPair` on the corners `cvPoints`: the
returned flag `okchess` and the machine. An index past the end of
`currentProjectorPoints` reads `(0, 0)` here. -/
def addPointPair (c : AutoCalibration) (sensor : ZedProjector) (cvPoints : List Vec2) :
    Bool × AutoCalibration :=
  if (((cvPoints.filter fun q => 0 < (ZedCoordToWorldCoord sensor q.x q.y).z).length : Nat) : Int)
      = (c.chessboardX - 1) * (c.chessboardY - 1) then
    (true,
     { c with
       pairsZed := c.pairsZed ++ cvPoints.map fun q => ZedCoordToWorldCoord sensor q.x q.y
       pairsProjector := c.pairsProjector ++
         (List.range cvPoints.length).map fun i => c.currentProjectorPoints.getD i ⟨0, 0⟩ })
  else (false, c)

/-- The branch `AUTOCALIB_STATE_INIT_POINT` of `updateProjZedAutoCalibration`:
the ten chessboard positions are prepared and the counters reset. -/
def initPoint (c : AutoCalibration) : AutoCalibration :=
  let cs : ℚ := (truncToInt ((2 * c.chessboardSize : Int) / (3 : ℚ)) : ℚ)
  let css : ℚ := (truncToInt ((3 * c.chessboardSize : Int) / (4 : ℚ)) : ℚ)
  let sx : ℚ := c.projRes.x / 2
  let sy : ℚ := c.projRes.y / 2
  { c with
    autoCalibPts := fun n =>
      if n = 0 then ⟨cs - sx, cs - sy⟩
      else if n = 1 then ⟨c.projRes.x - cs - sx, cs - sy⟩
      else if n = 2 then ⟨c.projRes.x - cs - sx, c.projRes.y - cs - sy⟩
      else if n = 3 then ⟨cs - sx, c.projRes.y - cs - sy⟩
      else if n = 4 then ⟨c.projRes.x / 2 + cs - sx, c.projRes.y / 2 - sy⟩
      else if n = 5 then ⟨css - sx, css - sy⟩
      else if n = 6 then ⟨c.projRes.x - css - sx, css - sy⟩
      else if n = 7 then ⟨c.projRes.x - css - sx, c.projRes.y - css - sy⟩
      else if n = 8 then ⟨css - sx, c.projRes.y - css - sy⟩
      else if n = 9 then ⟨c.projRes.x / 2 - cs - sx, c.projRes.y / 2 - sy⟩
      else c.autoCalibPts n
    currentCalibPts := 0
    cleared := false
    upframe := false
    trials := 0
    autoCalibState := AutoCalibState.NEXT_POINT }

/-- The retry of the branch `AUTOCALIB_STATE_NEXT_POINT`: `trials++`, and after
more than ten trials the chessboard position is scaled by `num / den` toward
the centre and the projector cleared. -/
def retryBoard (c : AutoCalibration) (num den : ℚ) : AutoCalibration :=
  if c.trials + 1 > 10 then
    { c with
      autoCalibPts := Function.update c.autoCalibPts c.currentCalibPts.toNat
        ((c.autoCalibPts c.currentCalibPts.toNat).scale (num / den))
      cleared := false
      trials := 0 }
  else { c with trials := c.trials + 1 }

/-- The branch `AUTOCALIB_STATE_NEXT_POINT` of `updateProjZedAutoCalibration`
for a stabilised image; the flag tells whether `addPointPair` added a board. -/
def nextPoint (c : AutoCalibration) (f : CalibFrame) : AutoCalibration × Bool :=
  if c.currentCalibPts < 5 ∨ (c.upframe = true ∧ c.currentCalibPts < 10) then
    if f.foundChessboard then
      if c.cleared then
        if (addPointPair c f.sensor f.cvPoints).1 then
          ({ (addPointPair c f.sensor f.cvPoints).2 with
              cleared := false
              trials := 0
              currentCalibPts := c.currentCalibPts + 1 }, true)
        else (retryBoard c 4 5, false)
      else (c, false)
    else if c.cleared = false then
      (drawChessboard { c with cleared := true }
        (truncToInt (c.projRes.x / 2 + (c.autoCalibPts c.currentCalibPts.toNat).x))
        (truncToInt (c.projRes.y / 2 + (c.autoCalibPts c.currentCalibPts.toNat).y)), false)
    else (retryBoard c 3 4, false)
  else if c.upframe then ({ c with autoCalibState := AutoCalibState.COMPUTE }, false)
  else (c, false)

/-- What one step of the machine reports: the arguments of the call of
`kpt->calibrate`, if it made one, and whether `addPointPair` added a board. -/
structure CalibReport where
  call : Option (List Vec3 × List Vec2)
  acquired : Bool

/-- The function `ZedProjector::updateProjZedAutoCalibration` on the frame `f`:
the machine after the call and its report. Messages, drawing, the ROI, the base
plane and the requests to the grabber have no counterpart here. -/
def updateProjZedAutoCalibration (c : AutoCalibration) (f : CalibFrame) :
    AutoCalibration × CalibReport :=
  match c.autoCalibState with
  | AutoCalibState.INIT_FIRST_PLANE =>
    if f.ROIcalibrated then
      ({ c with autoCalibState := AutoCalibState.INIT_POINT }, ⟨none, false⟩)
    else (c, ⟨none, false⟩)
  | AutoCalibState.INIT_POINT =>
    if f.imageStabilized then (initPoint c, ⟨none, false⟩) else (c, ⟨none, false⟩)
  | AutoCalibState.NEXT_POINT =>
    if f.imageStabilized then ((nextPoint c f).1, ⟨none, (nextPoint c f).2⟩)
    else (c, ⟨none, false⟩)
  | AutoCalibState.COMPUTE =>
    if c.pairsZed.length = 0 then
      ({ c with autoCalibState := AutoCalibState.DONE }, ⟨none, false⟩)
    else
      ({ c with autoCalibState := AutoCalibState.DONE },
       ⟨some (c.pairsZed, c.pairsProjector), false⟩)
  | AutoCalibState.DONE => (c, ⟨none, false⟩)

/-- What happens to the machine between two frames: a call of
`updateProjZedAutoCalibration`, the confirm button of the modal window (which
sets `upframe` while the machine waits in `NEXT_POINT`; `armed` stands for the
other conditions of the handler), `startAutomaticZedProjectorCalibration`, or
the step of `updateFullAutoCalibration` that starts the machine after the ROI
detection. -/
inductive CalibEvent where
  | update (f : CalibFrame)
  | confirm (armed : Bool)
  | startAutomatic
  | startFull

/-- The machine and its report after one event. -/
def calibStep (c : AutoCalibration) : CalibEvent → AutoCalibration × CalibReport
  | CalibEvent.update f => updateProjZedAutoCalibration c f
  | CalibEvent.confirm armed =>
    if armed = true ∧ c.autoCalibState = AutoCalibState.NEXT_POINT ∧ c.upframe = false then
      ({ c with upframe := true }, ⟨none, false⟩)
    else (c, ⟨none, false⟩)
  | CalibEvent.startAutomatic =>
    ({ c with autoCalibState := AutoCalibState.INIT_POINT }, ⟨none, false⟩)
  | CalibEvent.startFull =>
    ({ c with autoCalibState := AutoCalibState.INIT_FIRST_PLANE }, ⟨none, false⟩)

/-- A run of the machine: the state, the calls of `kpt->calibrate` made so far
(latest first) and the number of boards that `addPointPair` added. -/
structure CalibTrace where
  state : AutoCalibration
  calls : List (List Vec3 × List Vec2)
  acquisitions : Nat

/-- One event of a run. -/
def traceStep (t : CalibTrace) (ev : CalibEvent) : CalibTrace :=
  { state := (calibStep t.state ev).1
    calls :=
      match (calibStep t.state ev).2.call with
      | some call => call :: t.calls
      | none => t.calls
    acquisitions := if (calibStep t.state ev).2.acquired then t.acquisitions + 1
      else t.acquisitions }

/-- The run of the machine from the state `c` over the events `events`. -/
def calibrationRun (c : AutoCalibration) (events : List CalibEvent) : CalibTrace :=
  events.foldl traceStep ⟨c, [], 0⟩

/-- Every chessboard that an event reports as found has twelve corners. -/
def FullBoard : CalibEvent → Prop
  | CalibEvent.update f => f.foundChessboard = true → f.cvPoints.length = 12
  | _ => True

instance : DecidablePred FullBoard := fun ev =>
  match ev with
  | CalibEvent.update f =>
    inferInstanceAs (Decidable (f.foundChessboard = true → f.cvPoints.length = 12))
  | CalibEvent.confirm _ => isTrue trivial
  | CalibEvent.startAutomatic => isTrue trivial
  | CalibEvent.startFull => isTrue trivial

/-- The machine as `startAutomaticZedProjectorCalibration` leaves it on a
1024 × 768 projector with the 5 × 4 chessboard of size 300, nothing collected. -/
def demoMachine : AutoCalibration :=
  { autoCalibState := AutoCalibState.INIT_POINT, currentCalibPts := 0, cleared := false,
    upframe := false, trials := 0, autoCalibPts := fun _ => ⟨0, 0⟩,
    currentProjectorPoints := [], pairsZed := [], pairsProjector := [],
    projRes := ⟨1024, 768⟩, chessboardSize := 300, chessboardX := 5, chessboardY := 4 }

/-- A stabilised frame in which no chessboard is found. -/
def blankFrame : CalibFrame :=
  { imageStabilized := true, ROIcalibrated := true, foundChessboard := false,
    cvPoints := [], sensor := poseSensor }

/-- A stabilised frame in which the chessboard is found with twelve corners,
each at a pixel of positive world height. -/
def boardFrame : CalibFrame :=
  { imageStabilized := true, ROIcalibrated := true, foundChessboard := true,
    cvPoints := List.replicate 12 ⟨1, 1⟩, sensor := poseSensor }

/-- The events of acquiring one board: the cleared screen is seen and the
chessboard drawn, then the chessboard is found. -/
def oneBoard : List CalibEvent := [CalibEvent.update blankFrame, CalibEvent.update boardFrame]

/-- A whole session: start, five low boards, the confirmation of the cover,
five high boards, the step to `COMPUTE` and the step that calls the solver. -/
def demoSession : List CalibEvent :=
  [CalibEvent.update blankFrame] ++ oneBoard ++ oneBoard ++ oneBoard ++ oneBoard ++ oneBoard ++
  [CalibEvent.update blankFrame, CalibEvent.confirm true] ++
  oneBoard ++ oneBoard ++ oneBoard ++ oneBoard ++ oneBoard ++
  [CalibEvent.update blankFrame, CalibEvent.update blankFrame]

/-- The invariant of a run that started with `n` pairs in `pairsZed`. -/
structure RunInvariant (n : Nat) (t : CalibTrace) : Prop where
  board : (t.state.chessboardX - 1) * (t.state.chessboardY - 1) = 12
  same : t.state.pairsZed.length = t.state.pairsProjector.length
  total : t.state.pairsZed.length = n + 12 * t.acquisitions
  counted : t.state.autoCalibState = AutoCalibState.NEXT_POINT →
    t.state.currentCalibPts ≤ t.acquisitions
  done : t.state.autoCalibState = AutoCalibState.COMPUTE → 10 ≤ t.acquisitions
  calls : ∀ call ∈ t.calls, call.1.length = call.2.length ∧ n + 120 ≤ call.1.length

/-! ## Further demonstration values -/

/-- The function `ofxZedProjectorToolkit::saveCalibration`, as the content it
writes: the two resolutions and the eleven coefficients (writing the file has
no counterpart here). -/
def saveCalibration (k : Toolkit) : CalibrationFile :=
  { PROJECTOR := k.projRes, Zed := k.zedRes, COEFF := k.x }

/-- A toolkit after `calibrate()` has stored the coefficients `demoCoeffs`. -/
def calibratedToolkit : Toolkit :=
  { freshToolkit with
    x := demoCoeffs, projMatrice := calibratedMatrix demoCoeffs, calibrated := true }

/-- Raw frames that alternate between 1002 (odd cycles) and 1000 (even cycles). -/
def closeFrames : Nat → Nat → Nat := fun k _ => if k % 2 = 0 then 1000 else 1002

/-- The statistics `(9, 46701, 242331520)` at pixel 0: those that `filter()`
stores after nine samples 5189. -/
def roundedStats : Nat → ℚ :=
  fun i => if i = 0 then 9 else if i = 1 then 46701 else 242331520

/-- The stability test of `filter()` on the statistics of pixel `p` involves no
rounding: the converted `minNumSamples`, the four products and the sum are
binary32 numbers. -/
def TestExact (g : ZedGrabber) (stat : Nat → ℚ) (p : Nat) : Prop :=
  f32 (g.minNumSamples : ℚ) = (g.minNumSamples : ℚ) ∧
  f32 (stat (3 * p + 2) * stat (3 * p)) = stat (3 * p + 2) * stat (3 * p) ∧
  f32 (g.maxVariance * stat (3 * p)) = g.maxVariance * stat (3 * p) ∧
  f32 (g.maxVariance * stat (3 * p) * stat (3 * p)) =
    g.maxVariance * stat (3 * p) * stat (3 * p) ∧
  f32 (stat (3 * p + 1) * stat (3 * p + 1)) = stat (3 * p + 1) * stat (3 * p + 1) ∧
  f32 (g.maxVariance * stat (3 * p) * stat (3 * p) + stat (3 * p + 1) * stat (3 * p + 1)) =
    g.maxVariance * stat (3 * p) * stat (3 * p) + stat (3 * p + 1) * stat (3 * p + 1)

instance (g : ZedGrabber) (stat : Nat → ℚ) (p : Nat) : Decidable (TestExact g stat p) := by
  unfold TestExact
  infer_instance

/-- Raw frames for a one-pixel grabber: 5000 on the first cycle, 5020 after. -/
def jumpFrames : Nat → Nat → Nat := fun k _ => if k = 1 then 5000 else 5020

/-- A one-pixel grabber with averaging depth 2 and the big-change override on. -/
def pairDemo : ZedGrabber :=
  setupFramefilter (freshGrabber 1 1) 1 0 0 1 0 1 false true 2

/-- A one-pixel grabber with averaging depth 1 and the big-change override
off. -/
def singleDemo : ZedGrabber :=
  setupFramefilter (freshGrabber 1 1) 1 0 0 1 0 1 false false 1

/-- A 4 × 4 grabber set up with gradient resolution 1 and the whole frame as
ROI, whose gradient resolution is then set to 2. -/
def coarseDemo : ZedGrabber :=
  setGradFieldResolution (setupFramefilter (freshGrabber 4 4) 1 0 0 4 0 4 false false 15) 2

/-- A second session after a first: the whole session, the start of a new
automatic calibration, the whole session again. -/
def twoSessions : List CalibEvent :=
  demoSession ++ [CalibEvent.startAutomatic] ++ demoSession

/-! ## ZedGrabber.cpp: the producer thread and its queue of actions -/

/-- The two threads that use the queue of actions: the producer thread, which
runs `threadedFunction`, and the thread that calls `performInThread`. -/
inductive ThreadId where
  | producer
  | caller
deriving DecidableEq

/-- The statement of `threadedFunction` that the producer thread executes next:
`actionsLock.lock()`; the loop `for (auto & action : actions) action(*this)`,
of which `k` iterations are done, followed by `actions.clear()`;
`actionsLock.unlock()`; `zed.grab()`; and the call of `filter()` with
`updateGradientField()` on the frame `img`, which found the grabber as
`entered` when it began. -/
inductive ProducerAt where
  | locking
  | applying (k : Nat)
  | unlocking
  | grabbing
  | filtering (img : Nat → Nat) (entered : ZedGrabber)

/-- The statement of `performInThread(action)` that the calling thread executes
next: none (it is outside the function), `actionsLock.lock()`,
`actions.push_back(action)` or `actionsLock.unlock()`. -/
inductive CallerAt where
  | idle
  | locking (action : ZedGrabber → ZedGrabber)
  | pushing (action : ZedGrabber → ZedGrabber)
  | unlocking

/-- The grabber, the queue `actions`, the mutex `actionsLock` with the thread
that holds it, and the place of each thread. The lists `pushed` and `called`
are the history of the run: every action that `push_back` has put in the queue
and every action that the loop has called, oldest first. -/
structure Threads where
  grabber : ZedGrabber
  actions : List (ZedGrabber → ZedGrabber)
  actionsLock : Option ThreadId
  producer : ProducerAt
  caller : CallerAt
  pushed : List (ZedGrabber → ZedGrabber)
  called : List (ZedGrabber → ZedGrabber)

/-- The next statement of the producer thread in `threadedFunction`; `frame` is
what `zed.grab()` delivers if that is the statement (`none` when it fails). A
thread that finds the mutex taken does not advance. -/
def producerStep (s : Threads) (frame : Option (Nat → Nat)) : Threads :=
  match s.producer with
  | ProducerAt.locking =>
    if s.actionsLock = none then
      { s with actionsLock := some ThreadId.producer, producer := ProducerAt.applying 0 }
    else s
  | ProducerAt.applying k =>
    match s.actions[k]? with
    | some action =>
      { s with
        grabber := action s.grabber
        producer := ProducerAt.applying (k + 1)
        called := s.called ++ [action] }
    | none => { s with actions := [], producer := ProducerAt.unlocking }
  | ProducerAt.unlocking => { s with actionsLock := none, producer := ProducerAt.grabbing }
  | ProducerAt.grabbing =>
    match frame with
    | some img => { s with producer := ProducerAt.filtering img s.grabber }
    | none => { s with producer := ProducerAt.locking }
  | ProducerAt.filtering img _ =>
    { s with
      grabber := updateGradientField (filter img s.grabber)
      producer := ProducerAt.locking }

/-- The next statement of the calling thread in `performInThread`; `request` is
the action of the call it begins if it is outside the function. -/
def callerStep (s : Threads) (request : Option (ZedGrabber → ZedGrabber)) : Threads :=
  match s.caller with
  | CallerAt.idle =>
    match request with
    | some action => { s with caller := CallerAt.locking action }
    | none => s
  | CallerAt.locking action =>
    if s.actionsLock = none then
      { s with actionsLock := some ThreadId.caller, caller := CallerAt.pushing action }
    else s
  | CallerAt.pushing action =>
    { s with
      actions := s.actions ++ [action]
      caller := CallerAt.unlocking
      pushed := s.pushed ++ [action] }
  | CallerAt.unlocking => { s with actionsLock := none, caller := CallerAt.idle }

/-- One step of the interleaving: one of the two threads executes its next
statement. -/
inductive ThreadEvent where
  | producer (frame : Option (Nat → Nat))
  | caller (request : Option (ZedGrabber → ZedGrabber))

/-- The state after the event. -/
def threadStep (s : Threads) (ev : ThreadEvent) : Threads :=
  match ev with
  | ThreadEvent.producer frame => producerStep s frame
  | ThreadEvent.caller request => callerStep s request

/-- The state in which `ZedGrabber::start` starts the producer thread: the queue
is empty, the mutex is free, nothing has been pushed or called. -/
def startThreads (g : ZedGrabber) : Threads :=
  { grabber := g, actions := [], actionsLock := none, producer := ProducerAt.locking,
    caller := CallerAt.idle, pushed := [], called := [] }

/-- The state after the interleaving `events` of the two threads. -/
def runThreads (g : ZedGrabber) (events : List ThreadEvent) : Threads :=
  events.foldl threadStep (startThreads g)

/-- The producer thread is inside the block that `actionsLock` protects. -/
def ProducerInBlock (s : Threads) : Prop :=
  (∃ k, s.producer = ProducerAt.applying k) ∨ s.producer = ProducerAt.unlocking

/-- The calling thread is inside the block that `actionsLock` protects. -/
def CallerInBlock (s : Threads) : Prop :=
  (∃ action, s.caller = CallerAt.pushing action) ∨ s.caller = CallerAt.unlocking

/-- The actions of the queue that the loop of the producer thread has not
called yet: all of them, but for the first `k` while the loop stands at
iteration `k`. -/
def pendingActions (s : Threads) : List (ZedGrabber → ZedGrabber) :=
  match s.producer with
  | ProducerAt.applying k => s.actions.drop k
  | _ => s.actions

/-- What holds in every state of a run: the mutex is held by a thread exactly
while that thread is inside its block; the actions pushed so far are the
actions called so far followed by the pending ones, in the same order; the loop
index is inside the queue and the queue is empty once cleared; and while
`filter()` runs, the grabber is as `filter()` found it. -/
structure ThreadsInvariant (s : Threads) : Prop where
  producerHolds : s.actionsLock = some ThreadId.producer ↔ ProducerInBlock s
  callerHolds : s.actionsLock = some ThreadId.caller ↔ CallerInBlock s
  history : s.pushed = s.called ++ pendingActions s
  index : ∀ k, s.producer = ProducerAt.applying k → k ≤ s.actions.length
  cleared : s.producer = ProducerAt.unlocking → s.actions = []
  untouched : ∀ img entered, s.producer = ProducerAt.filtering img entered →
    s.grabber = entered

/-- An interleaving that lets the calling thread request the actions `as` one
after the other, each call run to its end. -/
def requestAll (as : List (ZedGrabber → ZedGrabber)) : List ThreadEvent :=
  as.flatMap fun action =>
    [ThreadEvent.caller (some action), ThreadEvent.caller none, ThreadEvent.caller none,
     ThreadEvent.caller none]

/-- The grabber of the demonstration run once its first two requests are
applied: averaging depth 3, big-change override on. -/
def demoConfigured : ZedGrabber :=
  setFollowBigChange (setAveragingSlotsNumber plainDemo 3) true

/-- A run of the two threads on the 2 × 2 demonstration grabber: two requests
(the averaging depth 3, the big-change override) are pushed; the producer thread
takes the mutex, calls both, clears the queue, releases the mutex and grabs a
frame; while that frame is being filtered a third request (spatial smoothing)
is pushed. -/
def demoInterleaving : List ThreadEvent :=
  requestAll [fun g => setAveragingSlotsNumber g 3, fun g => setFollowBigChange g true] ++
  [ThreadEvent.producer none, ThreadEvent.producer none, ThreadEvent.producer none,
   ThreadEvent.producer none, ThreadEvent.producer none,
   ThreadEvent.producer (some (demoFrames 1))] ++
  requestAll [fun g => setSpatialFiltering g true]

/-! ## The statistics of the slots of a pixel -/

/-- The number of the `K` averaging slots of a pixel that differ from the
initial value. -/
def slotCount (K : Nat) (init : ℚ) (slots : Nat → ℚ) : ℚ :=
  Finset.sum (Finset.range K) fun i => if slots i ≠ init then 1 else 0

/-- The sum of the `K` averaging slots of a pixel that differ from the initial
value. -/
def slotSum (K : Nat) (init : ℚ) (slots : Nat → ℚ) : ℚ :=
  Finset.sum (Finset.range K) fun i => if slots i ≠ init then slots i else 0

/-- The sum of the squares of the `K` averaging slots of a pixel that differ
from the initial value. -/
def slotSumSq (K : Nat) (init : ℚ) (slots : Nat → ℚ) : ℚ :=
  Finset.sum (Finset.range K) fun i => if slots i ≠ init then slots i * slots i else 0

/-- The statistics of a view are those of its slots. -/
def StatsMatch (g : ZedGrabber) (w : PixelView) : Prop :=
  w.n = slotCount g.numAveragingSlots g.initialValue w.slots ∧
  w.s = slotSum g.numAveragingSlots g.initialValue w.slots ∧
  w.q = slotSumSq g.numAveragingSlots g.initialValue w.slots

/-- The number `x` is a natural number not above `B`. -/
def NatUpTo (B : Nat) (x : ℚ) : Prop := ∃ m : Nat, m ≤ B ∧ x = (m : ℚ)

/-- Every slot of a view holds the initial value or a natural number not above
`V`. -/
def SlotsUpTo (g : ZedGrabber) (V : Nat) (w : PixelView) : Prop :=
  ∀ i, w.slots i = g.initialValue ∨ NatUpTo V (w.slots i)

/-- Raw frames for a one-pixel grabber: 1000 on the even cycles, 990 on the odd
ones. -/
def nearFrames : Nat → Nat → Nat := fun k _ => if k % 2 = 0 then 1000 else 990

/-! ## The spatial filter in the words of the specification -/

theorem bitLengthAux_spec (fuel : Nat) : ∀ n : Nat, n ≤ fuel →
    n < 2 ^ bitLengthAux fuel n ∧ (n ≠ 0 → 2 ^ (bitLengthAux fuel n - 1) ≤ n) := by
  induction fuel with
  | zero =>
    intro n hn
    have : n = 0 := by omega
    subst this
    simp [bitLengthAux]
  | succ fuel ih =>
    intro n hn
    by_cases h0 : n = 0
    · subst h0
      simp [bitLengthAux]
    · have hle : n / 2 ≤ fuel := by omega
      obtain ⟨h1, h2⟩ := ih (n / 2) hle
      simp only [bitLengthAux, if_neg h0, Nat.add_sub_cancel]
      constructor
      · rw [pow_succ]
        omega
      · intro _
        by_cases h1' : n / 2 = 0
        · have : bitLengthAux fuel (n / 2) = 0 := by
            rw [h1']
            cases fuel <;> simp [bitLengthAux]
          rw [this]
          simp
          omega
        · have h3 := h2 h1'
          have hpos : 1 ≤ bitLengthAux fuel (n / 2) := by
            by_contra hc
            have : bitLengthAux fuel (n / 2) = 0 := by omega
            rw [this] at h1
            simp at h1
            exact h1' h1
          have e : bitLengthAux fuel (n / 2) = (bitLengthAux fuel (n / 2) - 1) + 1 := by omega
          rw [e, pow_succ]
          omega

theorem bitLength_spec (n : Nat) :
    n < 2 ^ bitLength n ∧ (n ≠ 0 → 2 ^ (bitLength n - 1) ≤ n) :=
  bitLengthAux_spec n n (le_refl n)

theorem pow2_eq (e : Int) : pow2 e = (2 : ℚ) ^ e := by
  unfold pow2
  split_ifs with h
  · obtain ⟨k, rfl⟩ := Int.eq_ofNat_of_zero_le h
    simp
  · have h' : 0 ≤ -e := by omega
    obtain ⟨k, hk⟩ := Int.eq_ofNat_of_zero_le h'
    have e2 : e = -(k : Int) := by omega
    subst e2
    simp

theorem pow2_pos (e : Int) : 0 < pow2 e := by
  rw [pow2_eq]; positivity

theorem binaryExponent_spec (a : ℚ) (ha : 0 < a) :
    pow2 (binaryExponent a) ≤ a ∧ a < pow2 (binaryExponent a + 1) := by
  have hnum : 0 < a.num := Rat.num_pos.2 ha
  have hden : 0 < a.den := a.den_pos
  obtain ⟨n1, n2⟩ := bitLength_spec a.num.natAbs
  obtain ⟨d1, d2⟩ := bitLength_spec a.den
  have hn0 : a.num.natAbs ≠ 0 := by omega
  have hd0 : a.den ≠ 0 := by omega
  have n2' := n2 hn0
  have d2' := d2 hd0
  have hbn : 1 ≤ bitLength a.num.natAbs := by
    by_contra hc
    have : bitLength a.num.natAbs = 0 := by omega
    rw [this, pow_zero] at n1; omega
  have hbd : 1 ≤ bitLength a.den := by
    by_contra hc
    have : bitLength a.den = 0 := by omega
    rw [this, pow_zero] at d1; omega
  -- a = num / den
  have hq : a = (a.num.natAbs : ℚ) / (a.den : ℚ) := by
    have : ((a.num.natAbs : ℕ) : ℚ) = (a.num : ℚ) := by
      have h : ((a.num.natAbs : ℕ) : ℤ) = a.num := Int.natAbs_of_nonneg (le_of_lt hnum)
      exact (@Int.cast_natCast ℚ _ a.num.natAbs).symm.trans (congrArg Int.cast h)
    rw [this, Rat.num_div_den]
  have hdq : (0 : ℚ) < (a.den : ℚ) := by exact_mod_cast hden
  set N := bitLength a.num.natAbs
  set D := bitLength a.den
  have N1 : (a.num.natAbs : ℚ) < (2 : ℚ) ^ N := by exact_mod_cast n1
  have N2 : (2 : ℚ) ^ (N - 1) ≤ (a.num.natAbs : ℚ) := by exact_mod_cast n2'
  have D1 : (a.den : ℚ) < (2 : ℚ) ^ D := by exact_mod_cast d1
  have D2 : (2 : ℚ) ^ (D - 1) ≤ (a.den : ℚ) := by exact_mod_cast d2'
  -- upper: a < 2^(N - D + 1), lower: 2^(N - D - 1) < a  hmm lower is ≤ 
  have up : a < (2 : ℚ) ^ ((N : Int) - (D : Int) + 1) := by
    rw [hq, div_lt_iff₀ hdq]
    have e1 : (2 : ℚ) ^ ((N : Int) - (D : Int) + 1) * (2 : ℚ) ^ (D - 1) = (2 : ℚ) ^ N := by
      rw [← zpow_natCast, ← zpow_natCast, ← zpow_add₀ (by norm_num : (2 : ℚ) ≠ 0)]
      congr 1
      omega
    calc (a.num.natAbs : ℚ) < (2 : ℚ) ^ N := N1
      _ = (2 : ℚ) ^ ((N : Int) - (D : Int) + 1) * (2 : ℚ) ^ (D - 1) := e1.symm
      _ ≤ (2 : ℚ) ^ ((N : Int) - (D : Int) + 1) * (a.den : ℚ) := by
        apply mul_le_mul_of_nonneg_left D2 (by positivity)
  have lo : (2 : ℚ) ^ ((N : Int) - (D : Int) - 1) ≤ a := by
    rw [hq, le_div_iff₀ hdq]
    have e1 : (2 : ℚ) ^ ((N : Int) - (D : Int) - 1) * (2 : ℚ) ^ D = (2 : ℚ) ^ (N - 1) := by
      rw [← zpow_natCast, ← zpow_natCast, ← zpow_add₀ (by norm_num : (2 : ℚ) ≠ 0)]
      congr 1
      omega
    calc (2 : ℚ) ^ ((N : Int) - (D : Int) - 1) * (a.den : ℚ)
        ≤ (2 : ℚ) ^ ((N : Int) - (D : Int) - 1) * (2 : ℚ) ^ D := by
          apply mul_le_mul_of_nonneg_left (le_of_lt D1) (by positivity)
      _ = (2 : ℚ) ^ (N - 1) := e1
      _ ≤ (a.num.natAbs : ℚ) := N2
  unfold binaryExponent
  split_ifs with h
  · refine ⟨h, ?_⟩
    rw [pow2_eq]; exact up
  · constructor
    · rw [pow2_eq]; exact lo
    · have : (N : Int) - (D : Int) - 1 + 1 = (N : Int) - (D : Int) := by ring
      rw [this]
      exact lt_of_not_le h

theorem binaryExponent_unique (a : ℚ) (k : Int) (h1 : (2 : ℚ) ^ k ≤ a) (h2 : a < (2 : ℚ) ^ (k + 1)) :
    binaryExponent a = k := by
  have ha : 0 < a := lt_of_lt_of_le (by positivity) h1
  obtain ⟨s1, s2⟩ := binaryExponent_spec a ha
  rw [pow2_eq] at s1 s2
  have l1 : (2 : ℚ) ^ k < (2 : ℚ) ^ (binaryExponent a + 1) := lt_of_le_of_lt h1 s2
  have l2 : (2 : ℚ) ^ (binaryExponent a) < (2 : ℚ) ^ (k + 1) := lt_of_le_of_lt s1 h2
  have m1 := (zpow_lt_zpow_iff_right₀ (by norm_num : (1 : ℚ) < 2)).1 l1
  have m2 := (zpow_lt_zpow_iff_right₀ (by norm_num : (1 : ℚ) < 2)).1 l2
  omega

theorem floor_le_self (y : ℚ) : ((Rat.floor y : Int) : ℚ) ≤ y := by
  have : Rat.floor y = ⌊y⌋ := rfl
  rw [this]; exact Int.floor_le y

theorem self_lt_floor_add_one (y : ℚ) : y < ((Rat.floor y : Int) : ℚ) + 1 := by
  have : Rat.floor y = ⌊y⌋ := rfl
  rw [this]; exact Int.lt_floor_add_one y

theorem floor_intCast (k : Int) : Rat.floor (k : ℚ) = k := by
  have : Rat.floor (k : ℚ) = ⌊(k : ℚ)⌋ := rfl
  rw [this]; exact Int.floor_intCast k

theorem floor_mono {x y : ℚ} (h : x ≤ y) : Rat.floor x ≤ Rat.floor y := by
  have e1 : Rat.floor x = ⌊x⌋ := rfl
  have e2 : Rat.floor y = ⌊y⌋ := rfl
  rw [e1, e2]; exact Int.floor_mono h

theorem roundHalfEven_bounds (y : ℚ) :
    Rat.floor y ≤ roundHalfEven y ∧ roundHalfEven y ≤ Rat.floor y + 1 := by
  unfold roundHalfEven
  split_ifs <;> constructor <;> omega

theorem roundHalfEven_intCast (k : Int) : roundHalfEven (k : ℚ) = k := by
  unfold roundHalfEven
  rw [floor_intCast]
  simp

theorem roundHalfEven_mono {x y : ℚ} (h : x ≤ y) : roundHalfEven x ≤ roundHalfEven y := by
  have hf := floor_mono h
  rcases lt_or_eq_of_le hf with hlt | heq
  · exact le_trans (roundHalfEven_bounds x).2 (le_trans (by omega) (roundHalfEven_bounds y).1)
  · unfold roundHalfEven
    rw [heq]
    have hxy : x - (Rat.floor y : ℚ) ≤ y - (Rat.floor y : ℚ) := by linarith
    split_ifs <;> first | omega | (exfalso; linarith)

theorem roundHalfEven_ge_of_intCast_le {k : Int} {y : ℚ} (h : (k : ℚ) ≤ y) :
    k ≤ roundHalfEven y := by
  have := roundHalfEven_mono h
  rwa [roundHalfEven_intCast] at this

theorem roundHalfEven_le_of_le_intCast {k : Int} {y : ℚ} (h : y ≤ (k : ℚ)) :
    roundHalfEven y ≤ k := by
  have := roundHalfEven_mono h
  rwa [roundHalfEven_intCast] at this

theorem f32_pos_eq (x : ℚ) (hx : 0 < x) :
    f32 x = (roundHalfEven (x / (2 : ℚ) ^ (binaryExponent x - 23)) : ℚ) *
      (2 : ℚ) ^ (binaryExponent x - 23) := by
  unfold f32
  rw [if_neg (ne_of_gt hx), abs_of_pos hx, pow2_eq]

theorem scaled_bounds (x : ℚ) (hx : 0 < x) :
    (2 : ℚ) ^ (23 : ℕ) ≤ x / (2 : ℚ) ^ (binaryExponent x - 23) ∧
    x / (2 : ℚ) ^ (binaryExponent x - 23) < (2 : ℚ) ^ (24 : ℕ) := by
  obtain ⟨s1, s2⟩ := binaryExponent_spec x hx
  rw [pow2_eq] at s1 s2
  have hu : (0 : ℚ) < (2 : ℚ) ^ (binaryExponent x - 23) := by positivity
  constructor
  · rw [le_div_iff₀ hu]
    have : (2 : ℚ) ^ (23 : ℕ) * (2 : ℚ) ^ (binaryExponent x - 23) = (2 : ℚ) ^ (binaryExponent x) := by
      rw [← zpow_natCast, ← zpow_add₀ (by norm_num : (2 : ℚ) ≠ 0)]
      congr 1; push_cast; ring
    rw [this]; exact s1
  · rw [div_lt_iff₀ hu]
    have : (2 : ℚ) ^ (24 : ℕ) * (2 : ℚ) ^ (binaryExponent x - 23) =
        (2 : ℚ) ^ (binaryExponent x + 1) := by
      rw [← zpow_natCast, ← zpow_add₀ (by norm_num : (2 : ℚ) ≠ 0)]
      congr 1; push_cast; ring
    rw [this]; exact s2

theorem round_scaled_bounds (x : ℚ) (hx : 0 < x) :
    (2 : Int) ^ (23 : ℕ) ≤ roundHalfEven (x / (2 : ℚ) ^ (binaryExponent x - 23)) ∧
    roundHalfEven (x / (2 : ℚ) ^ (binaryExponent x - 23)) ≤ (2 : Int) ^ (24 : ℕ) := by
  obtain ⟨b1, b2⟩ := scaled_bounds x hx
  constructor
  · apply roundHalfEven_ge_of_intCast_le
    push_cast; exact b1
  · apply roundHalfEven_le_of_le_intCast
    push_cast; exact le_of_lt b2

theorem f32_zero : f32 0 = 0 := by simp [f32]

theorem f32_bounds (x : ℚ) (hx : 0 < x) :
    (2 : ℚ) ^ (binaryExponent x) ≤ f32 x ∧ f32 x ≤ (2 : ℚ) ^ (binaryExponent x + 1) := by
  obtain ⟨r1, r2⟩ := round_scaled_bounds x hx
  have hu : (0 : ℚ) < (2 : ℚ) ^ (binaryExponent x - 23) := by positivity
  have q1 : ((2 : ℚ) ^ (23 : ℕ)) ≤ (roundHalfEven (x / (2 : ℚ) ^ (binaryExponent x - 23)) : ℚ) := by
    exact_mod_cast r1
  have q2 : (roundHalfEven (x / (2 : ℚ) ^ (binaryExponent x - 23)) : ℚ) ≤ (2 : ℚ) ^ (24 : ℕ) := by
    exact_mod_cast r2
  have e1 : (2 : ℚ) ^ (23 : ℕ) * (2 : ℚ) ^ (binaryExponent x - 23) = (2 : ℚ) ^ (binaryExponent x) := by
    rw [← zpow_natCast, ← zpow_add₀ (by norm_num : (2 : ℚ) ≠ 0)]
    congr 1; push_cast; ring
  have e2 : (2 : ℚ) ^ (24 : ℕ) * (2 : ℚ) ^ (binaryExponent x - 23) =
      (2 : ℚ) ^ (binaryExponent x + 1) := by
    rw [← zpow_natCast, ← zpow_add₀ (by norm_num : (2 : ℚ) ≠ 0)]
    congr 1; push_cast; ring
  rw [f32_pos_eq x hx, ← e1, ← e2]
  exact ⟨mul_le_mul_of_nonneg_right q1 (le_of_lt hu), mul_le_mul_of_nonneg_right q2 (le_of_lt hu)⟩

theorem f32_nonneg (x : ℚ) (hx : 0 ≤ x) : 0 ≤ f32 x := by
  rcases eq_or_lt_of_le hx with h | h
  · rw [← h, f32_zero]
  · exact le_trans (by positivity) (f32_bounds x h).1

theorem f32_mono {x y : ℚ} (hx : 0 ≤ x) (hxy : x ≤ y) : f32 x ≤ f32 y := by
  rcases eq_or_lt_of_le hx with h | h
  · rw [← h, f32_zero]; exact f32_nonneg y (le_trans hx hxy)
  · have hy : 0 < y := lt_of_lt_of_le h hxy
    obtain ⟨sx1, sx2⟩ := binaryExponent_spec x h
    obtain ⟨sy1, sy2⟩ := binaryExponent_spec y hy
    rw [pow2_eq] at sx1 sx2 sy1 sy2
    have l1 : (2 : ℚ) ^ (binaryExponent x) < (2 : ℚ) ^ (binaryExponent y + 1) :=
      lt_of_le_of_lt sx1 (lt_of_le_of_lt hxy sy2)
    have m1 := (zpow_lt_zpow_iff_right₀ (by norm_num : (1 : ℚ) < 2)).1 l1
    rcases lt_or_eq_of_le (show binaryExponent x ≤ binaryExponent y by omega) with hlt | heq
    · have a1 := (f32_bounds x h).2
      have a2 := (f32_bounds y hy).1
      have a3 : (2 : ℚ) ^ (binaryExponent x + 1) ≤ (2 : ℚ) ^ (binaryExponent y) :=
        (zpow_le_zpow_iff_right₀ (by norm_num : (1 : ℚ) < 2)).2 (by omega)
      linarith
    · rw [f32_pos_eq x h, f32_pos_eq y hy, heq]
      have hu : (0 : ℚ) < (2 : ℚ) ^ (binaryExponent y - 23) := by positivity
      apply mul_le_mul_of_nonneg_right _ (le_of_lt hu)
      have : x / (2 : ℚ) ^ (binaryExponent y - 23) ≤ y / (2 : ℚ) ^ (binaryExponent y - 23) :=
        div_le_div_of_nonneg_right hxy (le_of_lt hu)
      exact_mod_cast roundHalfEven_mono this

theorem f32_of_scaled_int (x : ℚ) (hx : 0 < x) (k : Int)
    (hk : x / (2 : ℚ) ^ (binaryExponent x - 23) = (k : ℚ)) : f32 x = x := by
  have hu : (0 : ℚ) < (2 : ℚ) ^ (binaryExponent x - 23) := by positivity
  rw [f32_pos_eq x hx, hk, roundHalfEven_intCast, ← hk]
  field_simp

theorem f32_idem (x : ℚ) (hx : 0 ≤ x) : f32 (f32 x) = f32 x := by
  rcases eq_or_lt_of_le hx with h | h
  · rw [← h, f32_zero, f32_zero]
  · obtain ⟨r1, r2⟩ := round_scaled_bounds x h
    have hu : (0 : ℚ) < (2 : ℚ) ^ (binaryExponent x - 23) := by positivity
    have hpos : 0 < f32 x := lt_of_lt_of_le (by positivity) (f32_bounds x h).1
    rcases lt_or_eq_of_le r2 with hlt | heq
    · -- same binade
      have hexp : binaryExponent (f32 x) = binaryExponent x := by
        apply binaryExponent_unique
        · exact (f32_bounds x h).1
        · rw [f32_pos_eq x h]
          have q2 : (roundHalfEven (x / (2 : ℚ) ^ (binaryExponent x - 23)) : ℚ) <
              (2 : ℚ) ^ (24 : ℕ) := by exact_mod_cast hlt
          have e2 : (2 : ℚ) ^ (24 : ℕ) * (2 : ℚ) ^ (binaryExponent x - 23) =
              (2 : ℚ) ^ (binaryExponent x + 1) := by
            rw [← zpow_natCast, ← zpow_add₀ (by norm_num : (2 : ℚ) ≠ 0)]
            congr 1; push_cast; ring
          rw [← e2]
          exact mul_lt_mul_of_pos_right q2 hu
      apply f32_of_scaled_int (f32 x) hpos (roundHalfEven (x / (2 : ℚ) ^ (binaryExponent x - 23)))
      rw [hexp]
      nth_rewrite 1 [f32_pos_eq x h]
      field_simp
    · -- rounded up to the next power of two
      have hval : f32 x = (2 : ℚ) ^ (binaryExponent x + 1) := by
        have e2 : (2 : ℚ) ^ (24 : ℕ) * (2 : ℚ) ^ (binaryExponent x - 23) =
            (2 : ℚ) ^ (binaryExponent x + 1) := by
          rw [← zpow_natCast, ← zpow_add₀ (by norm_num : (2 : ℚ) ≠ 0)]
          congr 1; push_cast; ring
        rw [f32_pos_eq x h, heq, ← e2]
        push_cast; rfl
      have hexp : binaryExponent (f32 x) = binaryExponent x + 1 := by
        apply binaryExponent_unique
        · rw [hval]
        · rw [hval]
          exact (zpow_lt_zpow_iff_right₀ (by norm_num : (1 : ℚ) < 2)).2 (by omega)
      apply f32_of_scaled_int (f32 x) hpos ((2 : Int) ^ (23 : ℕ))
      rw [hexp, hval]
      have : (2 : ℚ) ^ (binaryExponent x + 1) =
          (2 : ℚ) ^ (23 : ℕ) * (2 : ℚ) ^ (binaryExponent x + 1 - 23) := by
        rw [← zpow_natCast, ← zpow_add₀ (by norm_num : (2 : ℚ) ≠ 0)]
        congr 1; push_cast; ring
      rw [this]
      push_cast
      field_simp
      norm_num

theorem f32_natCast (m : Nat) (hm : m ≤ 2 ^ 24) : f32 (m : ℚ) = (m : ℚ) := by
  rcases Nat.eq_zero_or_pos m with h0 | hpos
  · subst h0; simp [f32_zero]
  · have hx : (0 : ℚ) < (m : ℚ) := by exact_mod_cast hpos
    obtain ⟨s1, s2⟩ := binaryExponent_spec (m : ℚ) hx
    rw [pow2_eq] at s1 s2
    have hm1 : (1 : ℚ) ≤ (m : ℚ) := by exact_mod_cast hpos
    have hm2 : (m : ℚ) ≤ (2 : ℚ) ^ (24 : Int) := by
      have : (m : ℚ) ≤ ((2 ^ 24 : ℕ) : ℚ) := by exact_mod_cast hm
      have e : (((2 : ℕ) ^ 24 : ℕ) : ℚ) = (2 : ℚ) ^ (24 : Int) := by norm_num
      rw [← e]; exact this
    have e0 : 0 ≤ binaryExponent (m : ℚ) := by
      have : (2 : ℚ) ^ (0 : Int) < (2 : ℚ) ^ (binaryExponent (m : ℚ) + 1) := by
        rw [zpow_zero]; exact lt_of_le_of_lt hm1 s2
      have := (zpow_lt_zpow_iff_right₀ (by norm_num : (1 : ℚ) < 2)).1 this
      omega
    have e1 : binaryExponent (m : ℚ) ≤ 24 :=
      (zpow_le_zpow_iff_right₀ (by norm_num : (1 : ℚ) < 2)).1 (le_trans s1 hm2)
    obtain ⟨e, he⟩ := Int.eq_ofNat_of_zero_le e0
    have hu : (0 : ℚ) < (2 : ℚ) ^ (binaryExponent (m : ℚ) - 23) := by positivity
    rcases lt_or_eq_of_le e1 with hlt | heq
    · -- quantum at most one
      have he23 : e ≤ 23 := by omega
      apply f32_of_scaled_int (m : ℚ) hx ((m : Int) * (2 : Int) ^ (23 - e))
      rw [he]
      have : ((e : Int) - 23) = -((23 - e : ℕ) : Int) := by omega
      rw [this, zpow_neg, zpow_natCast]
      push_cast
      field_simp
    · have hmeq : (m : ℚ) = (2 : ℚ) ^ (24 : Int) := by
        apply le_antisymm hm2
        rw [← heq]; exact s1
      apply f32_of_scaled_int (m : ℚ) hx ((2 : Int) ^ (23 : ℕ))
      rw [heq, hmeq]
      norm_num


theorem floor_neg_of_not_int (y : ℚ) (h : y - (Rat.floor y : ℚ) ≠ 0) :
    Rat.floor (-y) = -Rat.floor y - 1 := by
  have e1 : Rat.floor (-y) = ⌊-y⌋ := rfl
  have l1 := floor_le_self y
  have l2 := self_lt_floor_add_one y
  have l3 : ((Rat.floor y : Int) : ℚ) < y := lt_of_le_of_ne l1 (fun hc => h (by rw [hc]; ring))
  rw [e1, Int.floor_eq_iff]
  push_cast
  constructor <;> linarith

theorem roundHalfEven_neg (y : ℚ) : roundHalfEven (-y) = -roundHalfEven y := by
  by_cases h : y - (Rat.floor y : ℚ) = 0
  · have hy : y = ((Rat.floor y : Int) : ℚ) := by linarith
    rw [hy, ← Int.cast_neg, roundHalfEven_intCast, roundHalfEven_intCast]
  · have hf := floor_neg_of_not_int y h
    have l1 := floor_le_self y
    have l2 := self_lt_floor_add_one y
    unfold roundHalfEven
    rw [hf]
    push_cast
    split_ifs <;> first | omega | (exfalso; linarith)

theorem f32_neg (x : ℚ) : f32 (-x) = -f32 x := by
  unfold f32
  by_cases h : x = 0
  · simp [h]
  · have h2 : -x ≠ 0 := neg_ne_zero.2 h
    rw [if_neg h, if_neg h2, abs_neg, neg_div, roundHalfEven_neg]
    push_cast
    ring

theorem f32_one : f32 1 = 1 := by
  have := f32_natCast 1 (by norm_num)
  simpa using this

theorem abs_f32_ge_one (x : ℚ) (h : 1 ≤ |x|) : 1 ≤ |f32 x| := by
  rcases le_total 0 x with hx | hx
  · rw [abs_of_nonneg hx] at h
    have := f32_mono (show (0 : ℚ) ≤ 1 by norm_num) h
    rw [f32_one] at this
    rw [abs_of_nonneg (f32_nonneg x hx)]
    exact this
  · rw [abs_of_nonpos hx] at h
    have h0 : 0 ≤ -x := by linarith
    have := f32_mono (show (0 : ℚ) ≤ 1 by norm_num) h
    rw [f32_one, f32_neg] at this
    have hn : f32 x ≤ 0 := by
      have := f32_nonneg (-x) h0
      rw [f32_neg] at this
      linarith
    rw [abs_of_nonpos hn]
    exact this

theorem f32_idem_all (x : ℚ) : f32 (f32 x) = f32 x := by
  rcases le_total 0 x with h | h
  · exact f32_idem x h
  · have h0 : 0 ≤ -x := by linarith
    have := f32_idem (-x) h0
    rw [f32_neg, f32_neg] at this
    linarith

theorem f32_scaled (k : Nat) (j : Int) (hk : k ≤ 2 ^ 24) :
    f32 ((k : ℚ) * (2 : ℚ) ^ j) = (k : ℚ) * (2 : ℚ) ^ j := by
  rcases Nat.eq_zero_or_pos k with h0 | hpos
  · subst h0; simp [f32_zero]
  · have hkq : (0 : ℚ) < (k : ℚ) := by exact_mod_cast hpos
    have hx : (0 : ℚ) < (k : ℚ) * (2 : ℚ) ^ j := mul_pos hkq (by positivity)
    obtain ⟨s1, s2⟩ := binaryExponent_spec _ hx
    rw [pow2_eq] at s1 s2
    have hk24 : (k : ℚ) ≤ (2 : ℚ) ^ (24 : Int) := by
      have : (k : ℚ) ≤ ((2 ^ 24 : ℕ) : ℚ) := by exact_mod_cast hk
      have e : (((2 : ℕ) ^ 24 : ℕ) : ℚ) = (2 : ℚ) ^ (24 : Int) := by norm_num
      rw [← e]; exact this
    have hxle : (k : ℚ) * (2 : ℚ) ^ j ≤ (2 : ℚ) ^ (24 + j) := by
      rw [zpow_add₀ (by norm_num : (2 : ℚ) ≠ 0)]
      exact mul_le_mul_of_nonneg_right hk24 (by positivity)
    have e1 : binaryExponent ((k : ℚ) * (2 : ℚ) ^ j) ≤ 24 + j :=
      (zpow_le_zpow_iff_right₀ (by norm_num : (1 : ℚ) < 2)).1 (le_trans s1 hxle)
    rcases lt_or_eq_of_le e1 with hlt | heq
    · obtain ⟨d, hd⟩ := Int.eq_ofNat_of_zero_le
        (show 0 ≤ j + 23 - binaryExponent ((k : ℚ) * (2 : ℚ) ^ j) by omega)
      apply f32_of_scaled_int _ hx ((k : Int) * (2 : Int) ^ d)
      have he : binaryExponent ((k : ℚ) * (2 : ℚ) ^ j) - 23 = j - (d : Int) := by omega
      rw [he, zpow_sub₀ (by norm_num : (2 : ℚ) ≠ 0), zpow_natCast]
      push_cast
      field_simp
      ring
    · have hk2 : (2 : ℚ) ^ (24 : Int) ≤ (k : ℚ) := by
        have h1 : (2 : ℚ) ^ (24 + j) ≤ (k : ℚ) * (2 : ℚ) ^ j := by rw [← heq]; exact s1
        rw [zpow_add₀ (by norm_num : (2 : ℚ) ≠ 0)] at h1
        exact le_of_mul_le_mul_right h1 (by positivity)
      have hkeq : (k : ℚ) = (2 : ℚ) ^ (24 : Int) := le_antisymm hk24 hk2
      apply f32_of_scaled_int _ hx ((2 : Int) ^ (23 : ℕ))
      rw [heq, hkeq, ← zpow_add₀ (by norm_num : (2 : ℚ) ≠ 0),
        ← zpow_sub₀ (by norm_num : (2 : ℚ) ≠ 0)]
      have : (24 : Int) + j - (24 + j - 23) = 23 := by ring
      rw [this]
      norm_num

theorem f32_fixed_form (x : ℚ) (hx : 0 < x) (h : f32 x = x) :
    ∃ k : Nat, k ≤ 2 ^ 24 ∧ x = (k : ℚ) * (2 : ℚ) ^ (binaryExponent x - 23) := by
  obtain ⟨r1, r2⟩ := round_scaled_bounds x hx
  obtain ⟨k, hk⟩ := Int.eq_ofNat_of_zero_le
    (show 0 ≤ roundHalfEven (x / (2 : ℚ) ^ (binaryExponent x - 23)) by
      have : (0 : Int) ≤ 2 ^ (23 : ℕ) := by norm_num
      omega)
  refine ⟨k, ?_, ?_⟩
  · have : (k : Int) ≤ 2 ^ (24 : ℕ) := by rw [← hk]; exact r2
    exact_mod_cast this
  · have e := f32_pos_eq x hx
    rw [h, hk] at e
    have e2 : ((k : Int) : ℚ) = (k : ℚ) := Int.cast_natCast k
    rw [e2] at e
    exact e

/-- The difference of two binary32 numbers within a factor of two of each other
is a binary32 number: the `float` subtraction is exact. -/
theorem f32_sub_exact_of_le (a b : ℚ) (hb : 0 < b) (ha : f32 a = a) (hbr : f32 b = b)
    (hle : b ≤ a) (h2 : a ≤ 2 * b) : f32 (a - b) = a - b := by
  have hapos : 0 < a := lt_of_lt_of_le hb hle
  obtain ⟨ka, hka, ea⟩ := f32_fixed_form a hapos ha
  obtain ⟨kb, hkb, eb⟩ := f32_fixed_form b hb hbr
  obtain ⟨sa1, sa2⟩ := binaryExponent_spec a hapos
  obtain ⟨sb1, sb2⟩ := binaryExponent_spec b hb
  rw [pow2_eq] at sa1 sa2 sb1 sb2
  have hexp : binaryExponent b ≤ binaryExponent a := by
    have l : (2 : ℚ) ^ (binaryExponent b) < (2 : ℚ) ^ (binaryExponent a + 1) :=
      lt_of_le_of_lt sb1 (lt_of_le_of_lt hle sa2)
    have := (zpow_lt_zpow_iff_right₀ (by norm_num : (1 : ℚ) < 2)).1 l
    omega
  obtain ⟨d, hd⟩ := Int.eq_ofNat_of_zero_le (show 0 ≤ binaryExponent a - binaryExponent b by omega)
  have hu : (0 : ℚ) < (2 : ℚ) ^ (binaryExponent b - 23) := by positivity
  have ea2 : a = ((ka * 2 ^ d : ℕ) : ℚ) * (2 : ℚ) ^ (binaryExponent b - 23) := by
    have he : binaryExponent a - 23 = (binaryExponent b - 23) + (d : Int) := by omega
    rw [he, zpow_add₀ (by norm_num : (2 : ℚ) ≠ 0), zpow_natCast] at ea
    rw [ea]
    push_cast
    ring
  have hge : kb ≤ ka * 2 ^ d := by
    have : (kb : ℚ) * (2 : ℚ) ^ (binaryExponent b - 23) ≤
        ((ka * 2 ^ d : ℕ) : ℚ) * (2 : ℚ) ^ (binaryExponent b - 23) := by
      rw [← ea2, ← eb]; exact hle
    have := le_of_mul_le_mul_right this hu
    exact_mod_cast this
  have hdiff : a - b = ((ka * 2 ^ d - kb : ℕ) : ℚ) * (2 : ℚ) ^ (binaryExponent b - 23) := by
    rw [Nat.cast_sub hge, sub_mul, ← ea2, ← eb]
  have hsmall : ka * 2 ^ d - kb ≤ 2 ^ 24 := by
    have h3 : a - b ≤ b := by linarith
    have : ((ka * 2 ^ d - kb : ℕ) : ℚ) * (2 : ℚ) ^ (binaryExponent b - 23) ≤
        (kb : ℚ) * (2 : ℚ) ^ (binaryExponent b - 23) := by
      rw [← hdiff, ← eb]; exact h3
    have := le_of_mul_le_mul_right this hu
    have h4 : ka * 2 ^ d - kb ≤ kb := by exact_mod_cast this
    omega
  rw [hdiff]
  exact f32_scaled _ _ hsmall

theorem f32_sub_exact (a b : ℚ) (ha0 : 0 < a) (hb0 : 0 < b) (ha : f32 a = a) (hb : f32 b = b)
    (h1 : a ≤ 2 * b) (h2 : b ≤ 2 * a) : f32 (a - b) = a - b := by
  rcases le_total b a with h | h
  · exact f32_sub_exact_of_le a b hb0 ha hb h h1
  · have := f32_sub_exact_of_le b a ha0 hb ha h h2
    have e : a - b = -(b - a) := by ring
    rw [e, f32_neg, this]

theorem abs_ge_of_lt_abs_f32 (h d : ℚ) (hh : f32 h = h) (hlt : h < |f32 d|) : h ≤ |d| := by
  by_contra hc
  have hc2 : |d| < h := lt_of_not_le hc
  have hpos : 0 < h := lt_of_le_of_lt (abs_nonneg d) hc2
  rcases le_total 0 d with hd | hd
  · rw [abs_of_nonneg hd] at hc2
    have := f32_mono hd (le_of_lt hc2)
    rw [hh] at this
    rw [abs_of_nonneg (f32_nonneg d hd)] at hlt
    linarith
  · rw [abs_of_nonpos hd] at hc2
    have h0 : 0 ≤ -d := by linarith
    have := f32_mono h0 (le_of_lt hc2)
    rw [hh, f32_neg] at this
    have hn : f32 d ≤ 0 := by
      have := f32_nonneg (-d) h0
      rw [f32_neg] at this
      linarith
    rw [abs_of_nonpos hn] at hlt
    linarith

/-! ## Theorems: the temporal stability filter -/

theorem sameSettings_refl (g : ZedGrabber) : SameSettings g g := by
  constructor <;> rfl

theorem sameSettings_trans {a b c : ZedGrabber} (h1 : SameSettings a b)
    (h2 : SameSettings b c) : SameSettings a c := by
  obtain ⟨a1, a2, a3, a4, a5, a6, a7, a8, a9, a10, a11, a12, a13, a14, a15, a16, a17, a18,
    a19, a20⟩ := h1
  obtain ⟨b1, b2, b3, b4, b5, b6, b7, b8, b9, b10, b11, b12, b13, b14, b15, b16, b17, b18,
    b19, b20⟩ := h2
  constructor <;> simp [*]

theorem filterPixel_settings (img : Nat → Nat) (y : Nat) (g : ZedGrabber) (x : Nat) :
    SameSettings g (filterPixel img y g x) := by
  constructor <;> rfl

theorem viewStep_congr {g g' : ZedGrabber} (h : SameSettings g g') (v : ℚ) (w : PixelView) :
    viewStep g' v w = viewStep g v w := by
  simp only [viewStep, viewOutput, viewAccept, viewStable, viewBigChange, h.averagingSlotIndex,
    h.followBigChange, h.bigChange, h.numAveragingSlots, h.initialValue, h.maxOffset,
    h.minNumSamples, h.maxVariance, h.hysteresis]

theorem slot_index_inj {N i j p q : Nat} (hp : p < N) (hq : q < N)
    (h : i * N + p = j * N + q) : i = j ∧ p = q := by
  have hN : 0 < N := Nat.lt_of_le_of_lt (Nat.zero_le p) hp
  have h1 : (i * N + p) % N = (j * N + q) % N := by rw [h]
  have h2 : (i * N + p) / N = (j * N + q) / N := by rw [h]
  rw [Nat.mul_comm i N, Nat.mul_comm j N, Nat.mul_add_mod, Nat.mul_add_mod,
    Nat.mod_eq_of_lt hp, Nat.mod_eq_of_lt hq] at h1
  rw [Nat.mul_comm i N, Nat.mul_comm j N, Nat.mul_add_div hN, Nat.mul_add_div hN,
    Nat.div_eq_of_lt hp, Nat.div_eq_of_lt hq] at h2
  exact ⟨by simpa using h2, h1⟩

theorem writeStats_zero (stat : Nat → ℚ) (p : Nat) (a b c : ℚ) :
    writeStats stat p a b c (3 * p) = a := by
  simp [writeStats, Function.update_apply]

theorem writeStats_one (stat : Nat → ℚ) (p : Nat) (a b c : ℚ) :
    writeStats stat p a b c (3 * p + 1) = b := by
  simp [writeStats, Function.update_apply]

theorem writeStats_two (stat : Nat → ℚ) (p : Nat) (a b c : ℚ) :
    writeStats stat p a b c (3 * p + 2) = c := by
  simp [writeStats, Function.update_apply]

theorem writeStats_other (stat : Nat → ℚ) (p p0 k : Nat) (a b c : ℚ) (hk : k < 3)
    (hne : p0 ≠ p) : writeStats stat p a b c (3 * p0 + k) = stat (3 * p0 + k) := by
  have h0 : 3 * p0 + k ≠ 3 * p := by omega
  have h1 : 3 * p0 + k ≠ 3 * p + 1 := by omega
  have h2 : 3 * p0 + k ≠ 3 * p + 2 := by omega
  simp [writeStats, Function.update_apply, h0, h1, h2]

theorem resetSlots_own (g : ZedGrabber) (p : Nat) (v : ℚ) (buf : Nat → ℚ)
    (hp : p < g.height * g.width) (k i : Nat) :
    resetSlots g p v k buf (i * g.height * g.width + p) =
      if i < k then v else buf (i * g.height * g.width + p) := by
  induction k with
  | zero => simp [resetSlots]
  | succ k ih =>
    rw [resetSlots, Function.update_apply, ih]
    by_cases hik : i = k
    · subst hik; simp
    · have hne : i * g.height * g.width + p ≠ k * g.height * g.width + p := by
        intro h
        rw [Nat.mul_assoc, Nat.mul_assoc] at h
        exact hik (slot_index_inj hp hp h).1
      rw [if_neg hne]
      by_cases hlt : i < k
      · have : i < k + 1 := by omega
        simp [hlt, this]
      · have : ¬ i < k + 1 := by omega
        simp [hlt, this]

theorem resetSlots_other (g : ZedGrabber) (p p0 : Nat) (v : ℚ) (buf : Nat → ℚ)
    (hp : p < g.height * g.width) (hp0 : p0 < g.height * g.width) (hne : p0 ≠ p)
    (k i : Nat) :
    resetSlots g p v k buf (i * g.height * g.width + p0) =
      buf (i * g.height * g.width + p0) := by
  induction k with
  | zero => simp [resetSlots]
  | succ k ih =>
    rw [resetSlots, Function.update_apply, ih]
    have hne2 : i * g.height * g.width + p0 ≠ k * g.height * g.width + p := by
      intro h
      rw [Nat.mul_assoc, Nat.mul_assoc] at h
      exact hne (slot_index_inj hp0 hp h).2
    rw [if_neg hne2]

theorem bigChangeFires_view (g : ZedGrabber) (p : Nat) (v : ℚ) :
    bigChangeFires g g.statBuffer p v = viewBigChange g v (pixelView g p) := rfl

theorem acceptSample_own (g : ZedGrabber) (p : Nat) (v : ℚ)
    (hp : p < g.height * g.width) :
    (acceptSample g p v).2 (3 * p) = (viewAccept g v (pixelView g p)).n ∧
    (acceptSample g p v).2 (3 * p + 1) = (viewAccept g v (pixelView g p)).s ∧
    (acceptSample g p v).2 (3 * p + 2) = (viewAccept g v (pixelView g p)).q ∧
    ∀ i, (acceptSample g p v).1 (i * g.height * g.width + p) =
      (viewAccept g v (pixelView g p)).slots i := by
  have hslot : ∀ i, (i * g.height * g.width + p = g.averagingSlotIndex * g.height * g.width + p)
      ↔ i = g.averagingSlotIndex := by
    intro i
    constructor
    · intro h
      rw [Nat.mul_assoc, Nat.mul_assoc] at h
      exact (slot_index_inj hp hp h).1
    · intro h; rw [h]
  simp only [acceptSample, viewAccept, bigChangeFires_view]
  obtain ⟨fires, hfires⟩ : ∃ b, viewBigChange g v (pixelView g p) = b := ⟨_, rfl⟩
  simp only [hfires]
  by_cases ho : g.averagingBuffer (g.averagingSlotIndex * g.height * g.width + p) = g.initialValue
  · cases fires <;>
      simp [ho, pixelView, writeStats_zero, writeStats_one, writeStats_two,
        resetSlots_own g p v _ hp, Function.update_apply, hslot]
  · cases fires <;>
      simp [ho, pixelView, writeStats_zero, writeStats_one, writeStats_two,
        resetSlots_own g p v _ hp, Function.update_apply, hslot]

theorem acceptSample_other (g : ZedGrabber) (p p0 : Nat) (v : ℚ)
    (hp : p < g.height * g.width) (hp0 : p0 < g.height * g.width) (hne : p0 ≠ p) :
    (∀ k, k < 3 → (acceptSample g p v).2 (3 * p0 + k) = g.statBuffer (3 * p0 + k)) ∧
    ∀ i, (acceptSample g p v).1 (i * g.height * g.width + p0) =
      g.averagingBuffer (i * g.height * g.width + p0) := by
  have hslot : ∀ i, i * g.height * g.width + p0 ≠
      g.averagingSlotIndex * g.height * g.width + p := by
    intro i h
    rw [Nat.mul_assoc, Nat.mul_assoc] at h
    exact hne (slot_index_inj hp0 hp h).2
  simp only [acceptSample]
  constructor
  · intro k hk
    split_ifs <;> simp [writeStats_other _ _ _ _ _ _ _ hk hne]
  · intro i
    split_ifs <;>
      simp [resetSlots_other g p p0 v _ hp hp0 hne, Function.update_apply, hslot]

theorem writeOutput_own (g : ZedGrabber) (stat : Nat → ℚ) (p : Nat) :
    (writeOutput g stat p).1 p =
      (if isStable g stat p = true ∧
          abs (f32 (f32 (stat (3 * p + 1) / stat (3 * p)) - g.validBuffer p)) ≥ g.hysteresis
        then f32 (stat (3 * p + 1) / stat (3 * p)) else g.validBuffer p) ∧
    (writeOutput g stat p).2 p = (writeOutput g stat p).1 p := by
  simp only [writeOutput]
  split_ifs <;> simp_all

theorem writeOutput_other (g : ZedGrabber) (stat : Nat → ℚ) (p p0 : Nat) (hne : p0 ≠ p) :
    (writeOutput g stat p).1 p0 = g.validBuffer p0 ∧
    (writeOutput g stat p).2 p0 = g.filteredframe p0 := by
  simp only [writeOutput]
  split_ifs <;> simp [Function.update_apply, hne]

theorem filterPixel_own (img : Nat → Nat) (y : Nat) (g : ZedGrabber) (x : Nat)
    (hp : y * g.width + x < g.height * g.width) :
    pixelView (filterPixel img y g x) (y * g.width + x) =
      viewStep g (img (y * g.width + x)) (pixelView g (y * g.width + x)) := by
  obtain ⟨h0, h1, h2, h3⟩ := acceptSample_own g (y * g.width + x) (img (y * g.width + x)) hp
  by_cases hacc : ((img (y * g.width + x) : ℕ) : ℚ) > g.maxOffset
  · obtain ⟨w1, w2⟩ := writeOutput_own g
      (acceptSample g (y * g.width + x) (img (y * g.width + x))).2 (y * g.width + x)
    ext
    · simp [filterPixel, pixelView, viewStep, viewOutput, hacc, h0]
    · simp [filterPixel, pixelView, viewStep, viewOutput, hacc, h1]
    · simp [filterPixel, pixelView, viewStep, viewOutput, hacc, h2]
    · simp only [filterPixel, pixelView, viewStep, viewOutput, hacc, if_true, w1, isStable,
        viewStable, h0, h1, h2]
      simp [viewAccept, pixelView]
    · simp only [filterPixel, pixelView, viewStep, viewOutput, hacc, if_true, w2, w1, isStable,
        viewStable, h0, h1, h2]
      simp [viewAccept, pixelView]
    · simp [filterPixel, pixelView, viewStep, viewOutput, hacc, h3]
  · obtain ⟨w1, w2⟩ := writeOutput_own g g.statBuffer (y * g.width + x)
    ext
    · simp [filterPixel, pixelView, viewStep, viewOutput, hacc]
    · simp [filterPixel, pixelView, viewStep, viewOutput, hacc]
    · simp [filterPixel, pixelView, viewStep, viewOutput, hacc]
    · simp only [filterPixel, pixelView, viewStep, viewOutput, hacc, if_false, w1, isStable,
        viewStable]
    · simp only [filterPixel, pixelView, viewStep, viewOutput, hacc, if_false, w2, w1, isStable,
        viewStable]
    · simp [filterPixel, pixelView, viewStep, viewOutput, hacc]

theorem filterPixel_other (img : Nat → Nat) (y : Nat) (g : ZedGrabber) (x p0 : Nat)
    (hp : y * g.width + x < g.height * g.width) (hp0 : p0 < g.height * g.width)
    (hne : p0 ≠ y * g.width + x) :
    pixelView (filterPixel img y g x) p0 = pixelView g p0 := by
  obtain ⟨h0, h1⟩ :=
    acceptSample_other g (y * g.width + x) p0 (img (y * g.width + x)) hp hp0 hne
  have h00 := h0 0 (by omega)
  have h01 := h0 1 (by omega)
  have h02 := h0 2 (by omega)
  simp only [Nat.add_zero] at h00
  by_cases hacc : ((img (y * g.width + x) : ℕ) : ℚ) > g.maxOffset
  · obtain ⟨w1, w2⟩ := writeOutput_other g
      (acceptSample g (y * g.width + x) (img (y * g.width + x))).2 (y * g.width + x) p0 hne
    ext <;> simp [filterPixel, pixelView, hacc, h00, h01, h02, h1, w1, w2]
  · obtain ⟨w1, w2⟩ := writeOutput_other g g.statBuffer (y * g.width + x) p0 hne
    ext <;> simp [filterPixel, pixelView, hacc, w1, w2]

theorem pixel_lt {w h x y : Nat} (hx : x < w) (hy : y < h) : y * w + x < h * w := by
  have h1 : (y + 1) * w ≤ h * w := Nat.mul_le_mul_right w hy
  have h2 : (y + 1) * w = y * w + w := Nat.succ_mul y w
  omega

theorem pixel_inj {w x y x0 y0 : Nat} (hx : x < w) (hx0 : x0 < w)
    (h : y * w + x = y0 * w + x0) : y = y0 ∧ x = x0 :=
  slot_index_inj hx hx0 h

theorem foldl_filterPixel_settings (img : Nat → Nat) (y : Nat) (xs : List Nat)
    (g : ZedGrabber) : SameSettings g (xs.foldl (filterPixel img y) g) := by
  induction xs generalizing g with
  | nil => exact sameSettings_refl g
  | cons a rest ih =>
    exact sameSettings_trans (filterPixel_settings img y g a) (ih (filterPixel img y g a))

theorem foldl_filterPixel_other (img : Nat → Nat) (y : Nat) (xs : List Nat) (g : ZedGrabber)
    (hy : y < g.height) (hxs : ∀ x ∈ xs, x < g.width) (p0 : Nat)
    (hp0 : p0 < g.height * g.width) (hne : ∀ x ∈ xs, p0 ≠ y * g.width + x) :
    pixelView (xs.foldl (filterPixel img y) g) p0 = pixelView g p0 := by
  induction xs generalizing g with
  | nil => rfl
  | cons a rest ih =>
    have hs := filterPixel_settings img y g a
    have ha : a < g.width := hxs a (List.mem_cons_self a rest)
    rw [List.foldl_cons, ih (filterPixel img y g a) (by rw [hs.height]; exact hy)
      (fun x hx => by rw [hs.width]; exact hxs x (List.mem_cons_of_mem a hx))
      (by rw [hs.height, hs.width]; exact hp0)
      (fun x hx => by rw [hs.width]; exact hne x (List.mem_cons_of_mem a hx))]
    exact filterPixel_other img y g a p0 (pixel_lt ha hy) hp0
      (hne a (List.mem_cons_self a rest))

theorem foldl_filterPixel_own (img : Nat → Nat) (y : Nat) (xs : List Nat) (g : ZedGrabber)
    (hy : y < g.height) (hxs : ∀ x ∈ xs, x < g.width) (hnd : xs.Nodup) (x0 : Nat)
    (hx0 : x0 ∈ xs) :
    pixelView (xs.foldl (filterPixel img y) g) (y * g.width + x0) =
      viewStep g (img (y * g.width + x0)) (pixelView g (y * g.width + x0)) := by
  induction xs generalizing g with
  | nil => simp at hx0
  | cons a rest ih =>
    have hs := filterPixel_settings img y g a
    have ha : a < g.width := hxs a (List.mem_cons_self a rest)
    have hrest : ∀ x ∈ rest, x < (filterPixel img y g a).width := fun x hx => by
      rw [hs.width]; exact hxs x (List.mem_cons_of_mem a hx)
    have hy1 : y < (filterPixel img y g a).height := by rw [hs.height]; exact hy
    rw [List.nodup_cons] at hnd
    rw [List.foldl_cons]
    by_cases hax : x0 = a
    · subst hax
      have hother := foldl_filterPixel_other img y rest (filterPixel img y g x0) hy1 hrest
        (y * g.width + x0) (by rw [hs.height, hs.width]; exact pixel_lt ha hy)
        (fun x hx hxe => by
          rw [hs.width] at hxe
          have := (pixel_inj ha (hxs x (List.mem_cons_of_mem x0 hx)) hxe).2
          exact hnd.1 (this ▸ hx))
      rw [hother]
      exact filterPixel_own img y g x0 (pixel_lt ha hy)
    · have hmem : x0 ∈ rest := by
        rcases List.mem_cons.1 hx0 with h | h
        · exact absurd h hax
        · exact h
      have hx0w : x0 < g.width := hxs x0 hx0
      have := ih (filterPixel img y g a) hy1 hrest hnd.2 hmem
      rw [hs.width] at this
      rw [this, viewStep_congr hs]
      rw [filterPixel_other img y g a (y * g.width + x0) (pixel_lt ha hy) (pixel_lt hx0w hy)
        (fun hxe => hax (pixel_inj hx0w ha hxe).2)]

theorem mem_range_iff {lo hi x : Nat} : x ∈ List.range' lo (hi - lo) ↔ lo ≤ x ∧ x < hi := by
  rw [List.mem_range'_1]
  omega

theorem filterRow_settings (img : Nat → Nat) (g : ZedGrabber) (y : Nat) :
    SameSettings g (filterRow img g y) :=
  foldl_filterPixel_settings img y _ g

theorem filterRow_other (img : Nat → Nat) (g : ZedGrabber) (y : Nat) (hX : g.maxX ≤ g.width)
    (hy : y < g.height) (p0 : Nat) (hp0 : p0 < g.height * g.width)
    (hne : ∀ x, g.minX ≤ x → x < g.maxX → p0 ≠ y * g.width + x) :
    pixelView (filterRow img g y) p0 = pixelView g p0 :=
  foldl_filterPixel_other img y _ g hy
    (fun _ hx => Nat.lt_of_lt_of_le (mem_range_iff.1 hx).2 hX) p0 hp0
    (fun x hx => hne x (mem_range_iff.1 hx).1 (mem_range_iff.1 hx).2)

theorem filterRow_own (img : Nat → Nat) (g : ZedGrabber) (y : Nat) (hX : g.maxX ≤ g.width)
    (hy : y < g.height) (x0 : Nat) (hlo : g.minX ≤ x0) (hhi : x0 < g.maxX) :
    pixelView (filterRow img g y) (y * g.width + x0) =
      viewStep g (img (y * g.width + x0)) (pixelView g (y * g.width + x0)) :=
  foldl_filterPixel_own img y _ g hy
    (fun x hx => Nat.lt_of_lt_of_le (mem_range_iff.1 hx).2 hX)
    (List.nodup_range' _ _) x0 (mem_range_iff.2 ⟨hlo, hhi⟩)

theorem foldl_filterRow_settings (img : Nat → Nat) (ys : List Nat) (g : ZedGrabber) :
    SameSettings g (ys.foldl (filterRow img) g) := by
  induction ys generalizing g with
  | nil => exact sameSettings_refl g
  | cons a rest ih => exact sameSettings_trans (filterRow_settings img g a) (ih (filterRow img g a))

theorem foldl_filterRow_other (img : Nat → Nat) (ys : List Nat) (g : ZedGrabber)
    (hX : g.maxX ≤ g.width) (hys : ∀ y ∈ ys, y < g.height) (p0 : Nat)
    (hp0 : p0 < g.height * g.width)
    (hne : ∀ y ∈ ys, ∀ x, g.minX ≤ x → x < g.maxX → p0 ≠ y * g.width + x) :
    pixelView (ys.foldl (filterRow img) g) p0 = pixelView g p0 := by
  induction ys generalizing g with
  | nil => rfl
  | cons a rest ih =>
    have hs := filterRow_settings img g a
    rw [List.foldl_cons, ih (filterRow img g a) (by rw [hs.maxX, hs.width]; exact hX)
      (fun y hy => by rw [hs.height]; exact hys y (List.mem_cons_of_mem a hy))
      (by rw [hs.height, hs.width]; exact hp0)
      (fun y hy x h1 h2 => by
        rw [hs.width]
        rw [hs.minX] at h1
        rw [hs.maxX] at h2
        exact hne y (List.mem_cons_of_mem a hy) x h1 h2)]
    exact filterRow_other img g a hX (hys a (List.mem_cons_self a rest)) p0 hp0
      (hne a (List.mem_cons_self a rest))

theorem foldl_filterRow_own (img : Nat → Nat) (ys : List Nat) (g : ZedGrabber)
    (hX : g.maxX ≤ g.width) (hys : ∀ y ∈ ys, y < g.height) (hnd : ys.Nodup) (y0 : Nat)
    (hy0 : y0 ∈ ys) (x0 : Nat) (hlo : g.minX ≤ x0) (hhi : x0 < g.maxX) :
    pixelView (ys.foldl (filterRow img) g) (y0 * g.width + x0) =
      viewStep g (img (y0 * g.width + x0)) (pixelView g (y0 * g.width + x0)) := by
  induction ys generalizing g with
  | nil => simp at hy0
  | cons a rest ih =>
    have hs := filterRow_settings img g a
    have ha : a < g.height := hys a (List.mem_cons_self a rest)
    have hx0w : x0 < g.width := Nat.lt_of_lt_of_le hhi hX
    have hX1 : (filterRow img g a).maxX ≤ (filterRow img g a).width := by
      rw [hs.maxX, hs.width]; exact hX
    have hrest : ∀ y ∈ rest, y < (filterRow img g a).height := fun y hy => by
      rw [hs.height]; exact hys y (List.mem_cons_of_mem a hy)
    rw [List.nodup_cons] at hnd
    rw [List.foldl_cons]
    by_cases hay : y0 = a
    · subst hay
      have hother := foldl_filterRow_other img rest (filterRow img g y0) hX1 hrest
        (y0 * g.width + x0) (by rw [hs.height, hs.width]; exact pixel_lt hx0w ha)
        (fun y hy x _ h2 hxe => by
          rw [hs.width] at hxe
          rw [hs.maxX] at h2
          have := (pixel_inj hx0w (Nat.lt_of_lt_of_le h2 hX) hxe).1
          exact hnd.1 (this ▸ hy))
      rw [hother]
      exact filterRow_own img g y0 hX ha x0 hlo hhi
    · have hmem : y0 ∈ rest := by
        rcases List.mem_cons.1 hy0 with h | h
        · exact absurd h hay
        · exact h
      have hy0h : y0 < g.height := hys y0 hy0
      have := ih (filterRow img g a) hX1 hrest hnd.2 hmem (by rw [hs.minX]; exact hlo)
        (by rw [hs.maxX]; exact hhi)
      rw [hs.width] at this
      rw [this, viewStep_congr hs]
      rw [filterRow_other img g a hX ha (y0 * g.width + x0) (pixel_lt hx0w hy0h)
        (fun x _ h2 hxe => hay (pixel_inj hx0w (Nat.lt_of_lt_of_le h2 hX) hxe).1)]

theorem filterScan_settings (img : Nat → Nat) (g : ZedGrabber) :
    SameSettings g (filterScan img g) :=
  foldl_filterRow_settings img _ g

/-- The scan of `filter()` applies the loop body once to every pixel of a ROI
that lies inside the frame. -/
theorem filterScan_inside (img : Nat → Nat) (g : ZedGrabber) (hX : g.maxX ≤ g.width)
    (hY : g.maxY ≤ g.height) (x y : Nat) (hx : g.minX ≤ x ∧ x < g.maxX)
    (hy : g.minY ≤ y ∧ y < g.maxY) :
    pixelView (filterScan img g) (y * g.width + x) =
      viewStep g (img (y * g.width + x)) (pixelView g (y * g.width + x)) :=
  foldl_filterRow_own img _ g hX
    (fun y hy => Nat.lt_of_lt_of_le (mem_range_iff.1 hy).2 hY)
    (List.nodup_range' _ _) y (mem_range_iff.2 hy) x hx.1 hx.2

/-- The scan of `filter()` leaves every pixel of the frame outside the ROI as
it was. -/
theorem filterScan_outside (img : Nat → Nat) (g : ZedGrabber) (hX : g.maxX ≤ g.width)
    (hY : g.maxY ≤ g.height) (x y : Nat) (hxw : x < g.width) (hyh : y < g.height)
    (hout : ¬ ((g.minX ≤ x ∧ x < g.maxX) ∧ (g.minY ≤ y ∧ y < g.maxY))) :
    pixelView (filterScan img g) (y * g.width + x) = pixelView g (y * g.width + x) :=
  foldl_filterRow_other img _ g hX
    (fun y hy => Nat.lt_of_lt_of_le (mem_range_iff.1 hy).2 hY) _ (pixel_lt hxw hyh)
    (fun y1 hy1 x1 h1 h2 hxe => by
      have := pixel_inj hxw (Nat.lt_of_lt_of_le h2 hX) hxe
      exact hout ⟨⟨this.2 ▸ h1, this.2 ▸ h2⟩, this.1 ▸ mem_range_iff.1 hy1⟩)

theorem sameConfig_refl (g : ZedGrabber) : SameConfig g g := by
  constructor <;> rfl

theorem sameConfig_trans {a b c : ZedGrabber} (h1 : SameConfig a b)
    (h2 : SameConfig b c) : SameConfig a c := by
  obtain ⟨a1, a2, a3, a4, a5, a6, a7, a8, a9, a10, a11, a12, a13, a14, a15, a16, a17⟩ := h1
  obtain ⟨b1, b2, b3, b4, b5, b6, b7, b8, b9, b10, b11, b12, b13, b14, b15, b16, b17⟩ := h2
  constructor <;> simp [*]

theorem countInitFrame_buffers (g : ZedGrabber) :
    (countInitFrame g).statBuffer = g.statBuffer ∧
    (countInitFrame g).validBuffer = g.validBuffer ∧
    (countInitFrame g).filteredframe = g.filteredframe ∧
    (countInitFrame g).averagingBuffer = g.averagingBuffer ∧
    (countInitFrame g).averagingSlotIndex = g.averagingSlotIndex := by
  unfold countInitFrame
  split_ifs <;> exact ⟨rfl, rfl, rfl, rfl, rfl⟩

theorem countInitFrame_config (g : ZedGrabber) : SameConfig g (countInitFrame g) := by
  unfold countInitFrame
  split_ifs <;> constructor <;> rfl

theorem advanceSlot_config (g : ZedGrabber) : SameConfig g (advanceSlot g) := by
  constructor <;> rfl

theorem applySpaceFilter_config (g : ZedGrabber) : SameConfig g (applySpaceFilter g) := by
  constructor <;> rfl

theorem sameConfig_of_sameSettings {g g' : ZedGrabber} (h : SameSettings g g') :
    SameConfig g g' :=
  ⟨h.bufferInitiated, h.width, h.height, h.minX, h.maxX, h.minY, h.maxY, h.numAveragingSlots,
    h.minNumSamples, h.maxVariance, h.initialValue, h.hysteresis, h.followBigChange,
    h.bigChange, h.spatialFilter, h.maxOffset, h.minInitFrame⟩

theorem tail_config (img : Nat → Nat) (g : ZedGrabber) :
    SameConfig g (countInitFrame (advanceSlot (filterScan img g))) :=
  sameConfig_trans (sameConfig_of_sameSettings (filterScan_settings img g))
    (sameConfig_trans (advanceSlot_config _) (countInitFrame_config _))

theorem filter_settings_scan (img : Nat → Nat) (g : ZedGrabber)
    (hinit : g.bufferInitiated = true) :
    (filter img g).statBuffer = (filterScan img g).statBuffer ∧
    (filter img g).validBuffer = (filterScan img g).validBuffer ∧
    (g.spatialFilter = false →
      (filter img g).filteredframe = (filterScan img g).filteredframe) ∧
    (filter img g).averagingBuffer = (filterScan img g).averagingBuffer ∧
    (filter img g).width = g.width ∧ (filter img g).height = g.height := by
  have hc := tail_config img g
  obtain ⟨b1, b2, b3, b4, _⟩ := countInitFrame_buffers (advanceSlot (filterScan img g))
  unfold filter
  rw [if_pos hinit]
  by_cases hsp : (countInitFrame (advanceSlot (filterScan img g))).spatialFilter = true
  · rw [if_pos hsp]
    refine ⟨b1, b2, ?_, b4, hc.width, hc.height⟩
    intro h
    rw [hc.spatialFilter, h] at hsp
    exact absurd hsp (by decide)
  · rw [if_neg hsp]
    exact ⟨b1, b2, fun _ => b3, b4, hc.width, hc.height⟩

theorem filter_pixelView_core (img : Nat → Nat) (g : ZedGrabber)
    (hinit : g.bufferInitiated = true) (p : Nat) :
    pixelView (filter img g) p =
      withFiltered (pixelView (filterScan img g) p) ((filter img g).filteredframe p) := by
  obtain ⟨h1, h2, _, h4, h5, h6⟩ := filter_settings_scan img g hinit
  have hs := filterScan_settings img g
  simp only [pixelView, withFiltered, h1, h2, h4, h5, h6, hs.width, hs.height]

theorem filter_pixelView (img : Nat → Nat) (g : ZedGrabber)
    (hinit : g.bufferInitiated = true) (hsp : g.spatialFilter = false) (p : Nat) :
    pixelView (filter img g) p = pixelView (filterScan img g) p := by
  obtain ⟨h1, h2, h3, h4, h5, h6⟩ := filter_settings_scan img g hinit
  have hs := filterScan_settings img g
  simp only [pixelView, h1, h2, h3 hsp, h4, h5, h6, hs.width, hs.height]

theorem viewStep_withFiltered (g : ZedGrabber) (v : ℚ) (w : PixelView) (f : ℚ) :
    viewStep g v (withFiltered w f) = viewStep g v w := by
  unfold viewStep
  split_ifs <;> rfl

/-- One cycle of `filter()` applies the loop body once to every pixel of a ROI
that lies inside the frame; spatial smoothing, when on, then changes only the
output value. -/
theorem filter_inside_core (img : Nat → Nat) (g : ZedGrabber)
    (hinit : g.bufferInitiated = true)
    (hX : g.maxX ≤ g.width) (hY : g.maxY ≤ g.height) (x y : Nat)
    (hx : g.minX ≤ x ∧ x < g.maxX) (hy : g.minY ≤ y ∧ y < g.maxY) :
    pixelView (filter img g) (y * g.width + x) =
      withFiltered (viewStep g (img (y * g.width + x)) (pixelView g (y * g.width + x)))
        ((filter img g).filteredframe (y * g.width + x)) := by
  rw [filter_pixelView_core img g hinit, filterScan_inside img g hX hY x y hx hy]

/-- With spatial smoothing off, one cycle of `filter()` applies the loop body
once to every pixel of a ROI that lies inside the frame. -/
theorem filter_inside (img : Nat → Nat) (g : ZedGrabber)
    (hinit : g.bufferInitiated = true) (hsp : g.spatialFilter = false)
    (hX : g.maxX ≤ g.width) (hY : g.maxY ≤ g.height) (x y : Nat)
    (hx : g.minX ≤ x ∧ x < g.maxX) (hy : g.minY ≤ y ∧ y < g.maxY) :
    pixelView (filter img g) (y * g.width + x) =
      viewStep g (img (y * g.width + x)) (pixelView g (y * g.width + x)) := by
  rw [filter_pixelView img g hinit hsp]
  exact filterScan_inside img g hX hY x y hx hy

theorem viewStep_valid (g : ZedGrabber) (v : ℚ) (w : PixelView) :
    (viewStep g v w).valid =
      (if (f32 (g.minNumSamples : ℚ) ≤ (viewStep g v w).n ∧
            f32 ((viewStep g v w).q * (viewStep g v w).n) ≤
              f32 (f32 (f32 (g.maxVariance * (viewStep g v w).n) * (viewStep g v w).n) +
                f32 ((viewStep g v w).s * (viewStep g v w).s))) ∧
          abs (f32 (f32 ((viewStep g v w).s / (viewStep g v w).n) - w.valid)) ≥ g.hysteresis
        then f32 ((viewStep g v w).s / (viewStep g v w).n) else w.valid) ∧
    (viewStep g v w).filtered = (viewStep g v w).valid := by
  have key : ∀ u : PixelView,
      (viewOutput g u).valid =
        (if (f32 (g.minNumSamples : ℚ) ≤ u.n ∧
              f32 (u.q * u.n) ≤ f32 (f32 (f32 (g.maxVariance * u.n) * u.n) + f32 (u.s * u.s))) ∧
            abs (f32 (f32 (u.s / u.n) - u.valid)) ≥ g.hysteresis
          then f32 (u.s / u.n) else u.valid) := by
    intro u
    simp only [viewOutput, viewStable, Bool.and_eq_true, decide_eq_true_eq]
  constructor
  · by_cases hacc : v > g.maxOffset
    · have e1 : viewStep g v w = viewOutput g (viewAccept g v w) := by simp [viewStep, hacc]
      rw [e1, key]; rfl
    · have e1 : viewStep g v w = viewOutput g w := by simp [viewStep, hacc]
      rw [e1, key]; rfl
  · rfl

/-- C1, counterexample: one pixel, averaging depth 17 (`minNumSamples` 9), fed
the constant raw value 5189. After cycle 9 the statistics are
`(9, 46701, 242331520)`, the sum of squares being the binary32 sum of the
rounded squares. The inequality of the claim holds of them in exact arithmetic
(`9 * 242331520 = 2180983680 ≤ 4 * 81 + 46701^2 = 2180983725`), the sample
count is `minNumSamples`, and the mean `46701/9 = 5189` is `1189` away from the
valid value `4000`, in exact arithmetic and in binary32; yet the valid value
after the cycle is still `4000`,
because `filter()` compares the binary32 values `2180983808` and
`2180983552`. -/
theorem stability_test_rounding_counterexample :
    (onePixelDemo 17).minNumSamples = 9 ∧ (onePixelDemo 17).maxVariance = 4 ∧
    (onePixelDemo 17).hysteresis = 1 / 2 ∧
    (filterCycles (steadyFrames 5189) 9 (onePixelDemo 17)).statBuffer 0 = 9 ∧
    (filterCycles (steadyFrames 5189) 9 (onePixelDemo 17)).statBuffer 1 = 46701 ∧
    (filterCycles (steadyFrames 5189) 9 (onePixelDemo 17)).statBuffer 2 = 242331520 ∧
    (9 : ℚ) * 242331520 ≤ 4 * 9 ^ 2 + 46701 ^ 2 ∧
    (filterCycles (steadyFrames 5189) 8 (onePixelDemo 17)).validBuffer 0 = 4000 ∧
    abs ((46701 : ℚ) / 9 - 4000) ≥ 1 / 2 ∧
    abs (f32 (f32 ((46701 : ℚ) / 9) - 4000)) ≥ 1 / 2 ∧
    (filterCycles (steadyFrames 5189) 9 (onePixelDemo 17)).validBuffer 0 = 4000 ∧
    (4000 : ℚ) ≠ 46701 / 9 ∧
    f32 ((242331520 : ℚ) * 9) = 2180983808 ∧
    f32 (f32 (f32 ((4 : ℚ) * 9) * 9) + f32 ((46701 : ℚ) * 46701)) = 2180983552 :=
  ⟨by decide!, by decide!, by decide!, by decide!, by decide!, by decide!, by norm_num,
   by decide!, by norm_num [abs_of_nonneg], by decide!, by decide!, by norm_num, by decide!,
   by decide!⟩

/-- C1 (as amended): for every pixel of a ROI inside the frame and every
`filter()` cycle with spatial smoothing off, writing `(n, s, q)` for the pixel's
statistics after the cycle's update and `fl` for rounding to binary32, and
calling the pixel stable when `n ≥ minNumSamples` and the test of `filter()`
passes as `filter()` evaluates it, `fl(q*n) ≤ fl(fl(fl(maxVariance*n)*n) +
fl(s*s))`, the valid buffer after the cycle holds the mean `fl(s/n)` if the
pixel is stable and `|fl(fl(s/n) - old valid)| ≥ hysteresis`, and the old valid
value otherwise; the filtered frame after the cycle holds the valid value. -/
theorem filter_valid_and_output (img : Nat → Nat) (g : ZedGrabber)
    (hinit : g.bufferInitiated = true) (hsp : g.spatialFilter = false)
    (hX : g.maxX ≤ g.width) (hY : g.maxY ≤ g.height) (x y : Nat)
    (hx : g.minX ≤ x ∧ x < g.maxX) (hy : g.minY ≤ y ∧ y < g.maxY) :
    (filter img g).validBuffer (y * g.width + x) =
      (if (f32 (g.minNumSamples : ℚ) ≤ (filter img g).statBuffer (3 * (y * g.width + x)) ∧
            f32 ((filter img g).statBuffer (3 * (y * g.width + x) + 2) *
                (filter img g).statBuffer (3 * (y * g.width + x))) ≤
              f32 (f32 (f32 (g.maxVariance *
                    (filter img g).statBuffer (3 * (y * g.width + x))) *
                  (filter img g).statBuffer (3 * (y * g.width + x))) +
                f32 ((filter img g).statBuffer (3 * (y * g.width + x) + 1) *
                  (filter img g).statBuffer (3 * (y * g.width + x) + 1)))) ∧
          abs (f32 (f32 ((filter img g).statBuffer (3 * (y * g.width + x) + 1) /
              (filter img g).statBuffer (3 * (y * g.width + x))) -
            g.validBuffer (y * g.width + x))) ≥ g.hysteresis
        then f32 ((filter img g).statBuffer (3 * (y * g.width + x) + 1) /
          (filter img g).statBuffer (3 * (y * g.width + x)))
        else g.validBuffer (y * g.width + x)) ∧
    (filter img g).filteredframe (y * g.width + x) =
      (filter img g).validBuffer (y * g.width + x) := by
  have hv := filter_inside img g hinit hsp hX hY x y hx hy
  have hn : (filter img g).statBuffer (3 * (y * g.width + x)) =
      (viewStep g (img (y * g.width + x)) (pixelView g (y * g.width + x))).n := by
    rw [← hv]; rfl
  have hs : (filter img g).statBuffer (3 * (y * g.width + x) + 1) =
      (viewStep g (img (y * g.width + x)) (pixelView g (y * g.width + x))).s := by
    rw [← hv]; rfl
  have hq : (filter img g).statBuffer (3 * (y * g.width + x) + 2) =
      (viewStep g (img (y * g.width + x)) (pixelView g (y * g.width + x))).q := by
    rw [← hv]; rfl
  have hval : (filter img g).validBuffer (y * g.width + x) =
      (viewStep g (img (y * g.width + x)) (pixelView g (y * g.width + x))).valid := by
    rw [← hv]; rfl
  have hout : (filter img g).filteredframe (y * g.width + x) =
      (viewStep g (img (y * g.width + x)) (pixelView g (y * g.width + x))).filtered := by
    rw [← hv]; rfl
  obtain ⟨k1, k2⟩ :=
    viewStep_valid g (img (y * g.width + x)) (pixelView g (y * g.width + x))
  rw [hn, hs, hq, hval, hout]
  exact ⟨k1, k2⟩

/-- Witness of C1 (as amended): the 2 × 2 demonstration grabber after seven
cycles, on its eighth cycle, at pixel (1, 0), which is fed 3000: the statistics
after the update are `(8, 24000, 72000000)`, the pixel passes the test, the mean
`3000` is `1000` away from the valid value `4000`, and the valid value and the
filtered frame become `3000`. -/
theorem filter_valid_and_output_witness :
    (filterCycles demoFrames 7 plainDemo).bufferInitiated = true ∧
    (filterCycles demoFrames 7 plainDemo).spatialFilter = false ∧
    (filterCycles demoFrames 7 plainDemo).validBuffer 1 = 4000 ∧
    isStable (filterCycles demoFrames 7 plainDemo)
      (filter (demoFrames 8) (filterCycles demoFrames 7 plainDemo)).statBuffer 1 = true ∧
    (filter (demoFrames 8) (filterCycles demoFrames 7 plainDemo)).validBuffer 1 = 3000 ∧
    ((filter (demoFrames 8) (filterCycles demoFrames 7 plainDemo)).validBuffer
        (0 * (filterCycles demoFrames 7 plainDemo).width + 1) =
      (if (f32 ((filterCycles demoFrames 7 plainDemo).minNumSamples : ℚ) ≤
              (filter (demoFrames 8) (filterCycles demoFrames 7 plainDemo)).statBuffer
                (3 * (0 * (filterCycles demoFrames 7 plainDemo).width + 1)) ∧
            f32 ((filter (demoFrames 8) (filterCycles demoFrames 7 plainDemo)).statBuffer
                  (3 * (0 * (filterCycles demoFrames 7 plainDemo).width + 1) + 2) *
                (filter (demoFrames 8) (filterCycles demoFrames 7 plainDemo)).statBuffer
                  (3 * (0 * (filterCycles demoFrames 7 plainDemo).width + 1))) ≤
              f32 (f32 (f32 ((filterCycles demoFrames 7 plainDemo).maxVariance *
                    (filter (demoFrames 8) (filterCycles demoFrames 7 plainDemo)).statBuffer
                      (3 * (0 * (filterCycles demoFrames 7 plainDemo).width + 1))) *
                  (filter (demoFrames 8) (filterCycles demoFrames 7 plainDemo)).statBuffer
                    (3 * (0 * (filterCycles demoFrames 7 plainDemo).width + 1))) +
                f32 ((filter (demoFrames 8) (filterCycles demoFrames 7 plainDemo)).statBuffer
                    (3 * (0 * (filterCycles demoFrames 7 plainDemo).width + 1) + 1) *
                  (filter (demoFrames 8) (filterCycles demoFrames 7 plainDemo)).statBuffer
                    (3 * (0 * (filterCycles demoFrames 7 plainDemo).width + 1) + 1)))) ∧
          abs (f32 (f32 ((filter (demoFrames 8) (filterCycles demoFrames 7 plainDemo)).statBuffer
                (3 * (0 * (filterCycles demoFrames 7 plainDemo).width + 1) + 1) /
              (filter (demoFrames 8) (filterCycles demoFrames 7 plainDemo)).statBuffer
                (3 * (0 * (filterCycles demoFrames 7 plainDemo).width + 1))) -
            (filterCycles demoFrames 7 plainDemo).validBuffer
              (0 * (filterCycles demoFrames 7 plainDemo).width + 1))) ≥
            (filterCycles demoFrames 7 plainDemo).hysteresis
        then f32 ((filter (demoFrames 8) (filterCycles demoFrames 7 plainDemo)).statBuffer
            (3 * (0 * (filterCycles demoFrames 7 plainDemo).width + 1) + 1) /
          (filter (demoFrames 8) (filterCycles demoFrames 7 plainDemo)).statBuffer
            (3 * (0 * (filterCycles demoFrames 7 plainDemo).width + 1)))
        else (filterCycles demoFrames 7 plainDemo).validBuffer
          (0 * (filterCycles demoFrames 7 plainDemo).width + 1)) ∧
    (filter (demoFrames 8) (filterCycles demoFrames 7 plainDemo)).filteredframe
        (0 * (filterCycles demoFrames 7 plainDemo).width + 1) =
      (filter (demoFrames 8) (filterCycles demoFrames 7 plainDemo)).validBuffer
        (0 * (filterCycles demoFrames 7 plainDemo).width + 1)) :=
  ⟨by decide!, by decide!, by decide!, by decide!, by decide!,
   filter_valid_and_output (demoFrames 8) (filterCycles demoFrames 7 plainDemo)
      (by decide!) (by decide!) (by decide!) (by decide!) 1 0 (by decide!) (by decide!)⟩

theorem filter_config (img : Nat → Nat) (g : ZedGrabber) : SameConfig g (filter img g) := by
  unfold filter
  split_ifs
  · exact sameConfig_trans (tail_config img g) (applySpaceFilter_config _)
  · exact tail_config img g
  · exact sameConfig_refl g

theorem filter_slotIndex (img : Nat → Nat) (g : ZedGrabber)
    (hinit : g.bufferInitiated = true) :
    (filter img g).averagingSlotIndex =
      if g.averagingSlotIndex + 1 = g.numAveragingSlots then 0
      else g.averagingSlotIndex + 1 := by
  have hs := filterScan_settings img g
  have hb := (countInitFrame_buffers (advanceSlot (filterScan img g))).2.2.2.2
  have e : (advanceSlot (filterScan img g)).averagingSlotIndex =
      if g.averagingSlotIndex + 1 = g.numAveragingSlots then 0
      else g.averagingSlotIndex + 1 := by
    simp only [advanceSlot, hs.averagingSlotIndex, hs.numAveragingSlots]
  unfold filter
  rw [if_pos hinit]
  by_cases hsp : (countInitFrame (advanceSlot (filterScan img g))).spatialFilter = true
  · rw [if_pos hsp]
    exact hb.trans e
  · rw [if_neg hsp]
    exact hb.trans e

theorem filterCycles_config (frames : Nat → Nat → Nat) (c : Nat) (g : ZedGrabber) :
    SameConfig g (filterCycles frames c g) := by
  induction c with
  | zero => exact sameConfig_refl g
  | succ c ih => exact sameConfig_trans ih (filter_config _ _)


theorem constView_noBigChange (g : ZedGrabber) (K m : Nat) (v : ℚ) (c : Nat)
    (hbig : g.bigChange = 10) (hv : f32 v = v) :
    viewBigChange g v (constView K m v c) = false := by
  simp only [viewBigChange, constView, hbig]
  by_cases h0 : constCount K v c = 0
  · simp [h0]
  · have hpos : ((constCount K v c : ℕ) : ℚ) ≠ 0 := by exact_mod_cast h0
    have hdiv : ((constCount K v c : ℕ) : ℚ) * v / (constCount K v c : ℚ) = v := by
      field_simp
    simp [hdiv, hv, f32_zero]

theorem slot_advance (K c : Nat) (hK : 1 ≤ K) :
    (if c % K + 1 = K then 0 else c % K + 1) = (c + 1) % K := by
  have hlt : c % K < K := Nat.mod_lt c (by omega)
  have e : (c + 1) % K = (c % K + 1) % K := (Nat.mod_add_mod c K 1).symm
  rw [e]
  split_ifs with h
  · rw [h, Nat.mod_self]
  · rw [Nat.mod_eq_of_lt (show c % K + 1 < K by omega)]

theorem sumsExact_mono {m m' : Nat} {v : ℚ} (h : SumsExact m v) (hm : m' ≤ m) :
    SumsExact m' v := fun j hj => h j (le_trans hj hm)

theorem sumsExact_step (m : Nat) (v : ℚ) (h : SumsExact (m + 1) v) :
    f32 ((m : ℚ) + 1) = (m : ℚ) + 1 ∧ f32 ((m : ℚ) * v + v) = ((m : ℚ) + 1) * v ∧
    f32 (v * v) = v * v ∧ f32 ((m : ℚ) * (v * v) + v * v) = ((m : ℚ) + 1) * (v * v) ∧
    f32 ((m : ℚ) + 1 - 1) = (m : ℚ) ∧ f32 (((m : ℚ) + 1) * v - v) = (m : ℚ) * v ∧
    f32 (((m : ℚ) + 1) * (v * v) - v * v) = (m : ℚ) * (v * v) := by
  obtain ⟨a1, a2, a3⟩ := h (m + 1) (le_refl _)
  obtain ⟨b1, b2, b3⟩ := h m (Nat.le_succ m)
  obtain ⟨_, _, c3⟩ := h 1 (by omega)
  have k : ((m + 1 : ℕ) : ℚ) = (m : ℚ) + 1 := by push_cast; ring
  rw [k] at a1 a2 a3
  have k1 : ((1 : ℕ) : ℚ) * (v * v) = v * v := by push_cast; ring
  rw [k1] at c3
  refine ⟨a1, ?_, c3, ?_, ?_, ?_, ?_⟩
  · rw [show (m : ℚ) * v + v = ((m : ℚ) + 1) * v by ring]; exact a2
  · rw [show (m : ℚ) * (v * v) + v * v = ((m : ℚ) + 1) * (v * v) by ring]; exact a3
  · rw [show (m : ℚ) + 1 - 1 = (m : ℚ) by ring]; exact b1
  · rw [show ((m : ℚ) + 1) * v - v = (m : ℚ) * v by ring]; exact b2
  · rw [show ((m : ℚ) + 1) * (v * v) - v * v = (m : ℚ) * (v * v) by ring]; exact b3

theorem constView_accept (g : ZedGrabber) (K m : Nat) (vn : Nat) (c : Nat) (hK : 1 ≤ K)
    (hslots : g.numAveragingSlots = K) (hidx : g.averagingSlotIndex = c % K)
    (hbig : g.bigChange = 10) (hini : g.initialValue = 4000)
    (hrep : SumsExact (constCount K (vn : ℚ) c + 1) (vn : ℚ)) :
    viewAccept g (vn : ℚ) (constView K m (vn : ℚ) c) =
      { constView K m (vn : ℚ) (c + 1) with
        valid := (constView K m (vn : ℚ) c).valid
        filtered := (constView K m (vn : ℚ) c).filtered } := by
  have hvrep : f32 (vn : ℚ) = (vn : ℚ) := by
    have := (hrep 1 (by omega)).2.1
    simpa using this
  have hfire := constView_noBigChange g K m (vn : ℚ) c hbig hvrep
  have hlt : c % K < K := Nat.mod_lt c (by omega)
  have hold : (constView K m (vn : ℚ) c).slots (c % K) =
      if c < K then 4000 else (vn : ℚ) := by
    simp only [constView]
    by_cases hc : c < K
    · rw [Nat.mod_eq_of_lt hc, Nat.min_eq_left (le_of_lt hc)]; simp [hc]
    · rw [Nat.min_eq_right (by omega)]; simp [hc, hlt]
  obtain ⟨e1, e2, e3, e4, e5, e6, e7⟩ := sumsExact_step (constCount K (vn : ℚ) c) (vn : ℚ) hrep
  have hstat : (viewAccept g (vn : ℚ) (constView K m (vn : ℚ) c)).n =
        (constCount K (vn : ℚ) (c + 1) : ℚ) ∧
      (viewAccept g (vn : ℚ) (constView K m (vn : ℚ) c)).s =
        (constCount K (vn : ℚ) (c + 1) : ℚ) * (vn : ℚ) ∧
      (viewAccept g (vn : ℚ) (constView K m (vn : ℚ) c)).q =
        (constCount K (vn : ℚ) (c + 1) : ℚ) * ((vn : ℚ) * (vn : ℚ)) := by
    have hn0 : (constView K m (vn : ℚ) c).n = (constCount K (vn : ℚ) c : ℚ) := rfl
    have hs0 : (constView K m (vn : ℚ) c).s = (constCount K (vn : ℚ) c : ℚ) * (vn : ℚ) := rfl
    have hq0 : (constView K m (vn : ℚ) c).q =
        (constCount K (vn : ℚ) c : ℚ) * ((vn : ℚ) * (vn : ℚ)) := rfl
    simp only [viewAccept, hfire, hidx, hold, hini, hn0, hs0, hq0, Bool.false_eq_true, if_false]
    by_cases hkeep : (if c < K then (4000 : ℚ) else (vn : ℚ)) ≠ 4000
    · -- the slot held an earlier sample that is not the initial value
      have hcK : ¬ c < K := by
        intro hc; rw [if_pos hc] at hkeep; exact hkeep rfl
      have hv : (vn : ℚ) ≠ 4000 := by rw [if_neg hcK] at hkeep; exact hkeep
      have c1 : constCount K (vn : ℚ) (c + 1) = constCount K (vn : ℚ) c := by
        simp only [constCount, if_neg hv]
        rw [Nat.min_eq_right (by omega), Nat.min_eq_right (by omega)]
      rw [if_pos hkeep, if_pos hkeep, if_pos hkeep, if_neg hcK, e1, e2, e3, e4, e5, e6, e7, c1]
      exact ⟨rfl, rfl, rfl⟩
    · have c1 : constCount K (vn : ℚ) (c + 1) = constCount K (vn : ℚ) c + 1 := by
        by_cases hc : c < K
        · by_cases hv : (vn : ℚ) = 4000
          · simp only [constCount, if_pos hv]
          · simp only [constCount, if_neg hv]
            rw [Nat.min_eq_left (by omega), Nat.min_eq_left (by omega)]
        · rw [if_neg hc] at hkeep
          have hv : (vn : ℚ) = 4000 := not_not.1 hkeep
          simp only [constCount, if_pos hv]
      rw [if_neg hkeep, if_neg hkeep, if_neg hkeep, e1, e2, e3, e4, c1]
      push_cast
      exact ⟨rfl, rfl, rfl⟩
  obtain ⟨hn, hs, hq⟩ := hstat
  have hsl : (viewAccept g (vn : ℚ) (constView K m (vn : ℚ) c)).slots =
      fun i => if i < min (c + 1) K then (vn : ℚ) else 4000 := by
    funext i
    simp only [viewAccept, hfire, hidx]
    by_cases hc : c < K
    · have e1 : min c K = c := Nat.min_eq_left (le_of_lt hc)
      have e2 : min (c + 1) K = c + 1 := Nat.min_eq_left hc
      have e3 : c % K = c := Nat.mod_eq_of_lt hc
      by_cases hi : i = c
      · simp [constView, e1, e2, e3, hi]
      · by_cases hi2 : i < c
        · have : i < c + 1 := by omega
          simp [constView, e1, e2, e3, hi, hi2, this]
        · have : ¬ i < c + 1 := by omega
          simp [constView, e1, e2, e3, hi, hi2, this]
    · have e1 : min c K = K := Nat.min_eq_right (by omega)
      have e2 : min (c + 1) K = K := Nat.min_eq_right (by omega)
      by_cases hi : i = c % K
      · simp [constView, e1, e2, hi, hlt]
      · simp [constView, e1, e2, hi]
  ext1
  · exact hn
  · exact hs
  · exact hq
  · rfl
  · rfl
  · exact hsl

theorem sumsExact_of_small (m vn : Nat) (hv : 1 ≤ vn) (h : m * (vn * vn) ≤ 2 ^ 24) :
    SumsExact m (vn : ℚ) := by
  intro j hj
  have h1 : j * (vn * vn) ≤ 2 ^ 24 := le_trans (Nat.mul_le_mul_right _ hj) h
  have h2 : j * vn ≤ j * (vn * vn) := Nat.mul_le_mul_left _ (Nat.le_mul_of_pos_left vn hv)
  have h3 : j ≤ j * vn := Nat.le_mul_of_pos_right j hv
  refine ⟨f32_natCast j (by omega), ?_, ?_⟩
  · have := f32_natCast (j * vn) (by omega)
    push_cast at this
    exact this
  · have := f32_natCast (j * (vn * vn)) h1
    push_cast at this
    exact this
theorem constCount_stable (K vn c : Nat) (hK : 1 ≤ K) :
    ((K + 1) / 2 ≤ constCount K (vn : ℚ) c) ↔ (K + 1) / 2 ≤ c := by
  have hmK : (K + 1) / 2 ≤ K := by omega
  unfold constCount
  split_ifs with hv
  · rfl
  · rw [Nat.le_min]
    constructor
    · exact fun h => h.1
    · exact fun h => ⟨h, hmK⟩

theorem rounded_test_of_equal_products (a n p q : ℚ) (ha : 0 ≤ a) (hn : 0 ≤ n) (hp : 0 ≤ p)
    (hqp : q = p) : f32 q ≤ f32 (f32 (f32 (a * n) * n) + f32 p) := by
  rw [hqp]
  have h1 : 0 ≤ f32 (a * n) := f32_nonneg _ (mul_nonneg ha hn)
  have h2 : 0 ≤ f32 (f32 (a * n) * n) := f32_nonneg _ (mul_nonneg h1 hn)
  have h3 : 0 ≤ f32 p := f32_nonneg _ hp
  calc f32 p = f32 (f32 p) := (f32_idem p hp).symm
    _ ≤ f32 (f32 (f32 (a * n) * n) + f32 p) := f32_mono h3 (by linarith)

theorem viewStable_const (g : ZedGrabber) (K vn c : Nat) (hK : 1 ≤ K) (hK24 : K ≤ 2 ^ 24)
    (hmin : g.minNumSamples = (K + 1) / 2) (hvar : g.maxVariance = 4) (u : PixelView)
    (hn : u.n = (constCount K (vn : ℚ) c : ℚ))
    (hs : u.s = (constCount K (vn : ℚ) c : ℚ) * (vn : ℚ))
    (hq : u.q = (constCount K (vn : ℚ) c : ℚ) * ((vn : ℚ) * (vn : ℚ))) :
    viewStable g u = true ↔ (K + 1) / 2 ≤ c := by
  have hmin24 : (K + 1) / 2 ≤ 2 ^ 24 := by omega
  have hround : f32 (u.q * u.n) ≤ f32 (f32 (f32 (g.maxVariance * u.n) * u.n) + f32 (u.s * u.s)) := by
    apply rounded_test_of_equal_products
    · rw [hvar]; norm_num
    · rw [hn]; exact Nat.cast_nonneg _
    · exact mul_self_nonneg _
    · rw [hn, hs, hq]; ring
  have hcount : f32 (g.minNumSamples : ℚ) ≤ u.n ↔ (K + 1) / 2 ≤ c := by
    rw [hmin, f32_natCast _ hmin24, hn, Nat.cast_le]
    exact constCount_stable K vn c hK
  simp only [viewStable, Bool.and_eq_true, decide_eq_true_eq, hround, and_true, hcount]

theorem int_sample_far (vn : Nat) (hv : (vn : ℚ) ≠ 4000) :
    abs ((vn : ℚ) - 4000) ≥ 1 / 2 := by
  have hne : vn ≠ 4000 := fun h => hv (by rw [h]; norm_num)
  rcases Nat.lt_or_gt_of_ne hne with h | h
  · have h1 : (vn : ℚ) ≤ 3999 := by exact_mod_cast Nat.le_of_lt_succ h
    rw [abs_of_nonpos (by linarith)]
    linarith
  · have h1 : (4001 : ℚ) ≤ (vn : ℚ) := by exact_mod_cast h
    rw [abs_of_nonneg (by linarith)]
    linarith

theorem constView_step (g : ZedGrabber) (K : Nat) (vn : Nat) (c : Nat) (hK : 1 ≤ K)
    (hK24 : K ≤ 2 ^ 24)
    (hslots : g.numAveragingSlots = K) (hidx : g.averagingSlotIndex = c % K)
    (hmin : g.minNumSamples = (K + 1) / 2) (hvar : g.maxVariance = 4)
    (hhys : g.hysteresis = 1 / 2) (hbig : g.bigChange = 10) (hini : g.initialValue = 4000)
    (hoff : (vn : ℚ) > g.maxOffset)
    (hrep : SumsExact (constCount K (vn : ℚ) c + 1) (vn : ℚ)) :
    viewStep g (vn : ℚ) (constView K ((K + 1) / 2) (vn : ℚ) c) =
      constView K ((K + 1) / 2) (vn : ℚ) (c + 1) := by
  have hacc := constView_accept g K ((K + 1) / 2) vn c hK hslots hidx hbig hini hrep
  have hm1 : 1 ≤ (K + 1) / 2 := by omega
  have hst : viewStable g
      { constView K ((K + 1) / 2) (vn : ℚ) (c + 1) with
        valid := (constView K ((K + 1) / 2) (vn : ℚ) c).valid
        filtered := (constView K ((K + 1) / 2) (vn : ℚ) c).filtered } = true ↔
      (K + 1) / 2 ≤ c + 1 :=
    viewStable_const g K vn (c + 1) hK hK24 hmin hvar _ rfl rfl rfl
  have hvrep : f32 (vn : ℚ) = (vn : ℚ) := by
    have := (hrep 1 (by omega)).2.1
    simpa using this
  have hval : (viewOutput g
      { constView K ((K + 1) / 2) (vn : ℚ) (c + 1) with
        valid := (constView K ((K + 1) / 2) (vn : ℚ) c).valid
        filtered := (constView K ((K + 1) / 2) (vn : ℚ) c).filtered }).valid =
      if (K + 1) / 2 ≤ c + 1 then (vn : ℚ) else 4000 := by
    simp only [viewOutput, hst, hhys]
    by_cases hA : (K + 1) / 2 ≤ c + 1
    · have hcnt : 1 ≤ constCount K (vn : ℚ) (c + 1) :=
        le_trans hm1 ((constCount_stable K vn (c + 1) hK).2 hA)
      have hpos : ((constCount K (vn : ℚ) (c + 1) : ℕ) : ℚ) ≠ 0 := by
        have : 0 < constCount K (vn : ℚ) (c + 1) := hcnt
        exact_mod_cast (Nat.pos_iff_ne_zero.1 this)
      have hmean : ((constCount K (vn : ℚ) (c + 1) : ℕ) : ℚ) * (vn : ℚ) /
          ((constCount K (vn : ℚ) (c + 1) : ℕ) : ℚ) = (vn : ℚ) := by
        field_simp
      simp only [constView, hmean, hvrep, hA, true_and, if_true]
      by_cases hB : (K + 1) / 2 ≤ c
      · simp [hB]
      · simp only [hB, if_false]
        by_cases hv : (vn : ℚ) = 4000
        · simp [hv]
        · have hfar : (1 : ℚ) ≤ |(vn : ℚ) - 4000| := by
            have hne : vn ≠ 4000 := fun h => hv (by rw [h]; norm_num)
            rcases Nat.lt_or_gt_of_ne hne with h | h
            · have h1 : (vn : ℚ) ≤ 3999 := by exact_mod_cast Nat.le_of_lt_succ h
              rw [abs_of_nonpos (by linarith)]
              linarith
            · have h1 : (4001 : ℚ) ≤ (vn : ℚ) := by exact_mod_cast h
              rw [abs_of_nonneg (by linarith)]
              linarith
          have hge : g.hysteresis ≤ |f32 ((vn : ℚ) - 4000)| := by
            rw [hhys]
            have := abs_f32_ge_one _ hfar
            linarith
          rw [← hhys, if_pos hge]
    · have hB : ¬ (K + 1) / 2 ≤ c := by omega
      simp [constView, hA, hB]
  simp only [viewStep, hoff, if_true, hacc]
  ext1
  · rfl
  · rfl
  · rfl
  · exact hval
  · have : c + 1 ≠ 0 := by omega
    simp only [constView, this, if_false]
    exact hval
  · rfl

theorem constant_cycles (gb : ZedGrabber) (R : Nat) (mo : ℚ) (minX maxX minY maxY : Nat)
    (sp fbc : Bool) (K : Nat) (hK : 1 ≤ K) (hK24 : K ≤ 2 ^ 24)
    (hX : maxX ≤ gb.width) (hY : maxY ≤ gb.height)
    (x y : Nat) (hx : minX ≤ x ∧ x < maxX) (hy : minY ≤ y ∧ y < maxY) (vn : Nat)
    (hoff : (vn : ℚ) > mo) (frames : Nat → Nat → Nat)
    (hfr : ∀ k, frames k (y * gb.width + x) = vn) (c : Nat)
    (hrep : SumsExact (if (vn : ℚ) = 4000 then c else K + 1) (vn : ℚ)) :
    pixelView (filterCycles frames c
        (setupFramefilter gb R mo minX maxX minY maxY sp fbc K)) (y * gb.width + x) =
      withFiltered (constView K ((K + 1) / 2) (vn : ℚ) c)
        ((filterCycles frames c
          (setupFramefilter gb R mo minX maxX minY maxY sp fbc K)).filteredframe
            (y * gb.width + x)) ∧
    (filterCycles frames c
        (setupFramefilter gb R mo minX maxX minY maxY sp fbc K)).averagingSlotIndex = c % K ∧
    (sp = false → 1 ≤ c →
      (filterCycles frames c
        (setupFramefilter gb R mo minX maxX minY maxY sp fbc K)).filteredframe
          (y * gb.width + x) = (constView K ((K + 1) / 2) (vn : ℚ) c).filtered) := by
  induction c with
  | zero =>
    have hm1 : ¬ (K + 1) / 2 ≤ 0 := by omega
    refine ⟨?_, ?_, ?_⟩
    · simp [filterCycles, setupFramefilter, setzedROI, resetBuffers, initiateBuffers, pixelView,
        withFiltered, constView, constCount, hm1]
    · simp [filterCycles, setupFramefilter, setzedROI, resetBuffers, initiateBuffers]
    · intro _ h; omega
  | succ c ih =>
    have hrepc : SumsExact (if (vn : ℚ) = 4000 then c else K + 1) (vn : ℚ) := by
      apply sumsExact_mono hrep
      split_ifs <;> omega
    have hrepstep : SumsExact (constCount K (vn : ℚ) c + 1) (vn : ℚ) := by
      apply sumsExact_mono hrep
      unfold constCount
      split_ifs
      · exact le_refl _
      · have : min c K ≤ K := Nat.min_le_right c K
        omega
    obtain ⟨ih1, ih2, _⟩ := ih hrepc
    have hcfg := filterCycles_config frames c
      (setupFramefilter gb R mo minX maxX minY maxY sp fbc K)
    simp only [filterCycles]
    generalize filterCycles frames c
      (setupFramefilter gb R mo minX maxX minY maxY sp fbc K) = gc at ih1 ih2 hcfg ⊢
    have hinit : gc.bufferInitiated = true := hcfg.bufferInitiated
    have hw : gc.width = gb.width := hcfg.width
    have hh : gc.height = gb.height := hcfg.height
    have hstep : viewStep gc (vn : ℚ) (pixelView gc (y * gb.width + x)) =
        constView K ((K + 1) / 2) (vn : ℚ) (c + 1) := by
      rw [ih1, viewStep_withFiltered]
      exact constView_step gc K vn c hK hK24 hcfg.numAveragingSlots ih2 hcfg.minNumSamples
        hcfg.maxVariance hcfg.hysteresis hcfg.bigChange hcfg.initialValue
        (by rw [hcfg.maxOffset]; exact hoff) hrepstep
    have hXc : gc.maxX ≤ gc.width := by rw [hcfg.maxX, hw]; exact hX
    have hYc : gc.maxY ≤ gc.height := by rw [hcfg.maxY, hh]; exact hY
    have hxc : gc.minX ≤ x ∧ x < gc.maxX := by rw [hcfg.minX, hcfg.maxX]; exact hx
    have hyc : gc.minY ≤ y ∧ y < gc.maxY := by rw [hcfg.minY, hcfg.maxY]; exact hy
    refine ⟨?_, ?_, ?_⟩
    · have := filter_inside_core (frames (c + 1)) gc hinit hXc hYc x y hxc hyc
      rw [hw, hfr, hstep] at this
      exact this
    · rw [filter_slotIndex _ gc hinit, ih2, hcfg.numAveragingSlots]
      exact slot_advance K c hK
    · intro hsp _
      have hspc : gc.spatialFilter = false := by rw [hcfg.spatialFilter]; exact hsp
      have := filter_inside (frames (c + 1)) gc hinit hspc hXc hYc x y hxc hyc
      rw [hw, hfr, hstep] at this
      rw [← this]
      rfl
/-- C2 (as amended): from freshly set-up buffers of any averaging depth
`1 ≤ K ≤ 2^24`, a ROI pixel that receives the same integer raw value
`v > maxOffset` on every cycle, when the sums of the window are accumulated
without rounding (the multiples `j`, `j*v` and `j*v^2` are binary32 numbers for
`j ≤ K + 1`, or for `j ≤ c` when `v` is the initial value 4000, which is never
taken out of the sums), passes the stability test on cycle `c` exactly when
`c ≥ minNumSamples`; its valid value is the initial value 4000 on every earlier
cycle and `v` from that cycle on; and with spatial smoothing off the filtered
frame shows the valid value. -/
theorem constant_sample_stabilises (gb : ZedGrabber) (R : Nat) (mo : ℚ)
    (minX maxX minY maxY : Nat) (sp fbc : Bool) (K : Nat) (hK : 1 ≤ K) (hK24 : K ≤ 2 ^ 24)
    (hX : maxX ≤ gb.width) (hY : maxY ≤ gb.height)
    (x y : Nat) (hx : minX ≤ x ∧ x < maxX) (hy : minY ≤ y ∧ y < maxY) (vn : Nat)
    (hoff : (vn : ℚ) > mo) (frames : Nat → Nat → Nat)
    (hfr : ∀ k, frames k (y * gb.width + x) = vn) (c : Nat) (hc : 1 ≤ c)
    (hrep : SumsExact (if (vn : ℚ) = 4000 then c else K + 1) (vn : ℚ)) :
    (isStable (filterCycles frames c (setupFramefilter gb R mo minX maxX minY maxY sp fbc K))
        (filterCycles frames c
          (setupFramefilter gb R mo minX maxX minY maxY sp fbc K)).statBuffer
        (y * gb.width + x) = true ↔
      (setupFramefilter gb R mo minX maxX minY maxY sp fbc K).minNumSamples ≤ c) ∧
    (c < (setupFramefilter gb R mo minX maxX minY maxY sp fbc K).minNumSamples →
      (filterCycles frames c
        (setupFramefilter gb R mo minX maxX minY maxY sp fbc K)).validBuffer
          (y * gb.width + x) = 4000) ∧
    ((setupFramefilter gb R mo minX maxX minY maxY sp fbc K).minNumSamples ≤ c →
      (filterCycles frames c
        (setupFramefilter gb R mo minX maxX minY maxY sp fbc K)).validBuffer
          (y * gb.width + x) = (vn : ℚ)) ∧
    (sp = false →
      (filterCycles frames c
        (setupFramefilter gb R mo minX maxX minY maxY sp fbc K)).filteredframe
          (y * gb.width + x) =
      (filterCycles frames c
        (setupFramefilter gb R mo minX maxX minY maxY sp fbc K)).validBuffer
          (y * gb.width + x)) := by
  obtain ⟨h1, _, h3⟩ := constant_cycles gb R mo minX maxX minY maxY sp fbc K hK hK24 hX hY x y
    hx hy vn hoff frames hfr c hrep
  have hcfg := filterCycles_config frames c
    (setupFramefilter gb R mo minX maxX minY maxY sp fbc K)
  have hm : (setupFramefilter gb R mo minX maxX minY maxY sp fbc K).minNumSamples =
      (K + 1) / 2 := rfl
  have hvar : (setupFramefilter gb R mo minX maxX minY maxY sp fbc K).maxVariance = 4 := rfl
  rw [hm]
  generalize filterCycles frames c
    (setupFramefilter gb R mo minX maxX minY maxY sp fbc K) = gc at h1 h3 hcfg ⊢
  have hn : gc.statBuffer (3 * (y * gb.width + x)) =
      (constCount K (vn : ℚ) c : ℚ) := congrArg PixelView.n h1
  have hs : gc.statBuffer (3 * (y * gb.width + x) + 1) =
      (constCount K (vn : ℚ) c : ℚ) * (vn : ℚ) := congrArg PixelView.s h1
  have hq : gc.statBuffer (3 * (y * gb.width + x) + 2) =
      (constCount K (vn : ℚ) c : ℚ) * ((vn : ℚ) * (vn : ℚ)) := congrArg PixelView.q h1
  have hval : gc.validBuffer (y * gb.width + x) =
      if (K + 1) / 2 ≤ c then (vn : ℚ) else 4000 := congrArg PixelView.valid h1
  refine ⟨?_, ?_, ?_, ?_⟩
  · exact viewStable_const gc K vn c hK hK24 (hcfg.minNumSamples.trans hm)
      (hcfg.maxVariance.trans hvar) (pixelView gc (y * gb.width + x)) hn hs hq
  · intro hlt
    rw [hval, if_neg (by omega)]
  · intro hle
    rw [hval, if_pos hle]
  · intro hsp
    have hc0 : c ≠ 0 := by omega
    rw [h3 hsp hc, hval]
    simp [constView, hc0]

/-- Witness of C2 (as amended): the spec's case `K = 15`, `v = 4000` on the
2 × 2 demonstration grabber with smoothing off, where the multiples of 4000 and
of 4000² up to the eighth are binary32 numbers: pixel 0 fails the stability
test on cycle 7, passes it on cycle 8, and shows 4000 on both. -/
theorem constant_sample_stabilises_witness :
    plainDemo.minNumSamples = 8 ∧ SumsExact 8 4000 ∧
    isStable (filterCycles demoFrames 7 plainDemo)
      (filterCycles demoFrames 7 plainDemo).statBuffer 0 ≠ true ∧
    isStable (filterCycles demoFrames 8 plainDemo)
      (filterCycles demoFrames 8 plainDemo).statBuffer 0 = true ∧
    (filterCycles demoFrames 7 plainDemo).validBuffer 0 = 4000 ∧
    (filterCycles demoFrames 8 plainDemo).validBuffer 0 = 4000 ∧
    (filterCycles demoFrames 8 plainDemo).filteredframe 0 =
      (filterCycles demoFrames 8 plainDemo).validBuffer 0 := by
  have h7 := constant_sample_stabilises (freshGrabber 2 2) 1 0 0 2 0 2 false false 15
    (by decide) (by norm_num) (by decide) (by decide) 0 0 (by decide) (by decide) 4000
    (by norm_num) demoFrames (fun _ => rfl) 7 (by decide) (by decide!)
  have h8 := constant_sample_stabilises (freshGrabber 2 2) 1 0 0 2 0 2 false false 15
    (by decide) (by norm_num) (by decide) (by decide) 0 0 (by decide) (by decide) 4000
    (by norm_num) demoFrames (fun _ => rfl) 8 (by decide) (by decide!)
  have e : 0 * (freshGrabber 2 2).width + 0 = 0 := rfl
  have ed : setupFramefilter (freshGrabber 2 2) 1 0 0 2 0 2 false false 15 = plainDemo := rfl
  have em : plainDemo.minNumSamples = 8 := rfl
  rw [e, ed, em] at h7 h8
  have c8 : ((4000 : ℕ) : ℚ) = 4000 := by norm_num
  refine ⟨em, by decide!, ?_, h8.1.2 (by decide), h7.2.1 (by decide), ?_, h8.2.2.2 rfl⟩
  · intro hs
    exact absurd (h7.1.1 hs) (by decide)
  · rw [← c8]
    exact h8.2.2.1 (by decide)

/-- Counterexamples to C2 as stated. With spatial smoothing on (the default of
`ZedProjector::setup`), depth 15 and pixel 0 fed the constant 4000 while its
neighbours are fed 3000, pixel 0 passes the stability test on cycle 8 but the
filtered frame there holds 268000/81, not 4000. With smoothing off, depth 15
and one pixel fed the constant 7335, the binary32 sum of squares after cycle 8
is 430417856, not `8 * 7335^2 = 430417800`; the pixel fails the stability test
on cycle 8 and its valid and filtered values are still 4000, not 7335. -/
theorem constant_sample_counterexample :
    (smoothedDemo.minNumSamples = 8 ∧
      isStable (filterCycles demoFrames 8 smoothedDemo)
        (filterCycles demoFrames 8 smoothedDemo).statBuffer 0 = true ∧
      (filterCycles demoFrames 8 smoothedDemo).filteredframe 0 = 268000 / 81 ∧
      (filterCycles demoFrames 8 smoothedDemo).filteredframe 0 ≠ 4000) ∧
    ((onePixelDemo 15).minNumSamples = 8 ∧ (onePixelDemo 15).spatialFilter = false ∧
      (onePixelDemo 15).maxOffset < 7335 ∧
      (filterCycles (steadyFrames 7335) 8 (onePixelDemo 15)).statBuffer 2 = 430417856 ∧
      (8 : ℚ) * 7335 ^ 2 = 430417800 ∧
      isStable (filterCycles (steadyFrames 7335) 8 (onePixelDemo 15))
        (filterCycles (steadyFrames 7335) 8 (onePixelDemo 15)).statBuffer 0 = false ∧
      (filterCycles (steadyFrames 7335) 8 (onePixelDemo 15)).validBuffer 0 = 4000 ∧
      (filterCycles (steadyFrames 7335) 8 (onePixelDemo 15)).filteredframe 0 = 4000) :=
  ⟨⟨by decide!, by decide!, by decide!, by decide!⟩,
   ⟨by decide!, by decide!, by decide!, by decide!, by norm_num, by decide!, by decide!,
    by decide!⟩⟩

/-- C3 (as amended): on every `filter()` cycle the valid value of a ROI pixel
either stays as it was or is replaced by the new running mean `fl(s/n)`, and it
is replaced only when `filter()` finds that mean at least `hysteresis` away from
the old value, the difference being the `float` subtraction of the source:
when the valid value changes, `|fl(new - old)| ≥ hysteresis`. The change itself
is then never smaller than the hysteresis threshold, `|new - old| ≥ hysteresis`,
in each of these cases: the subtraction is exact; the old value is a positive
binary32 number within a factor of two of the new one (then the subtraction is
exact); or `hysteresis` is a binary32 number and the rounded difference exceeds
it. -/
theorem valid_change_at_least_hysteresis (img : Nat → Nat) (g : ZedGrabber)
    (hinit : g.bufferInitiated = true)
    (hX : g.maxX ≤ g.width) (hY : g.maxY ≤ g.height) (x y : Nat)
    (hx : g.minX ≤ x ∧ x < g.maxX) (hy : g.minY ≤ y ∧ y < g.maxY) :
    (filter img g).validBuffer (y * g.width + x) = g.validBuffer (y * g.width + x) ∨
    ((filter img g).validBuffer (y * g.width + x) =
        f32 ((filter img g).statBuffer (3 * (y * g.width + x) + 1) /
          (filter img g).statBuffer (3 * (y * g.width + x))) ∧
      g.hysteresis ≤ abs (f32 ((filter img g).validBuffer (y * g.width + x) -
        g.validBuffer (y * g.width + x))) ∧
      ((f32 ((filter img g).validBuffer (y * g.width + x) - g.validBuffer (y * g.width + x)) =
            (filter img g).validBuffer (y * g.width + x) - g.validBuffer (y * g.width + x) ∨
          (0 < g.validBuffer (y * g.width + x) ∧
            f32 (g.validBuffer (y * g.width + x)) = g.validBuffer (y * g.width + x) ∧
            g.validBuffer (y * g.width + x) ≤
              2 * (filter img g).validBuffer (y * g.width + x) ∧
            (filter img g).validBuffer (y * g.width + x) ≤
              2 * g.validBuffer (y * g.width + x)) ∨
          (f32 g.hysteresis = g.hysteresis ∧
            g.hysteresis < abs (f32 ((filter img g).validBuffer (y * g.width + x) -
              g.validBuffer (y * g.width + x))))) →
        g.hysteresis ≤ abs ((filter img g).validBuffer (y * g.width + x) -
          g.validBuffer (y * g.width + x)))) := by
  have hv := filter_inside_core img g hinit hX hY x y hx hy
  have hn : (filter img g).statBuffer (3 * (y * g.width + x)) =
      (viewStep g (img (y * g.width + x)) (pixelView g (y * g.width + x))).n :=
    congrArg PixelView.n hv
  have hs : (filter img g).statBuffer (3 * (y * g.width + x) + 1) =
      (viewStep g (img (y * g.width + x)) (pixelView g (y * g.width + x))).s :=
    congrArg PixelView.s hv
  have hval : (filter img g).validBuffer (y * g.width + x) =
      (viewStep g (img (y * g.width + x)) (pixelView g (y * g.width + x))).valid :=
    congrArg PixelView.valid hv
  have k1 := (viewStep_valid g (img (y * g.width + x)) (pixelView g (y * g.width + x))).1
  rw [hn, hs, hval]
  generalize (viewStep g (img (y * g.width + x)) (pixelView g (y * g.width + x))).valid = new
    at k1 ⊢
  generalize (viewStep g (img (y * g.width + x)) (pixelView g (y * g.width + x))).s /
    (viewStep g (img (y * g.width + x)) (pixelView g (y * g.width + x))).n = mean at k1 ⊢
  have hold : (pixelView g (y * g.width + x)).valid = g.validBuffer (y * g.width + x) := rfl
  rw [hold] at k1
  generalize g.validBuffer (y * g.width + x) = old at k1 ⊢
  split_ifs at k1 with hcond
  · right
    have hb : g.hysteresis ≤ abs (f32 (new - old)) := by
      rw [k1]
      exact hcond.2
    refine ⟨k1, hb, ?_⟩
    rintro (hex | ⟨h0, hrep, h1, h2⟩ | ⟨hh, hlt⟩)
    · rw [← hex]
      exact hb
    · have hnewrep : f32 new = new := by rw [k1]; exact f32_idem_all mean
      have hnewpos : 0 < new := by linarith
      have hex := f32_sub_exact new old hnewpos h0 hnewrep hrep h2 h1
      rw [← hex]
      exact hb
    · exact abs_ge_of_lt_abs_f32 g.hysteresis (new - old) hh hlt
  · left
    exact k1

/-- Witness of C3 (as amended): the one-pixel grabber on its first cycle, where
the valid value moves from 4000 to 5000; the difference 1000 is exact, and it
exceeds the hysteresis 1/2, a binary32 number. -/
theorem valid_change_at_least_hysteresis_witness :
    (filter (driftFrames 1) driftDemo).validBuffer (0 * driftDemo.width + 0) = 5000 ∧
    driftDemo.validBuffer (0 * driftDemo.width + 0) = 4000 ∧
    driftDemo.hysteresis = 1 / 2 ∧ f32 driftDemo.hysteresis = driftDemo.hysteresis ∧
    f32 ((filter (driftFrames 1) driftDemo).validBuffer (0 * driftDemo.width + 0) -
        driftDemo.validBuffer (0 * driftDemo.width + 0)) = 1000 ∧
    ((filter (driftFrames 1) driftDemo).validBuffer (0 * driftDemo.width + 0) =
      driftDemo.validBuffer (0 * driftDemo.width + 0) ∨
    ((filter (driftFrames 1) driftDemo).validBuffer (0 * driftDemo.width + 0) =
        f32 ((filter (driftFrames 1) driftDemo).statBuffer (3 * (0 * driftDemo.width + 0) + 1) /
          (filter (driftFrames 1) driftDemo).statBuffer (3 * (0 * driftDemo.width + 0))) ∧
      driftDemo.hysteresis ≤
        abs (f32 ((filter (driftFrames 1) driftDemo).validBuffer (0 * driftDemo.width + 0) -
          driftDemo.validBuffer (0 * driftDemo.width + 0))) ∧
      ((f32 ((filter (driftFrames 1) driftDemo).validBuffer (0 * driftDemo.width + 0) -
              driftDemo.validBuffer (0 * driftDemo.width + 0)) =
            (filter (driftFrames 1) driftDemo).validBuffer (0 * driftDemo.width + 0) -
              driftDemo.validBuffer (0 * driftDemo.width + 0) ∨
          (0 < driftDemo.validBuffer (0 * driftDemo.width + 0) ∧
            f32 (driftDemo.validBuffer (0 * driftDemo.width + 0)) =
              driftDemo.validBuffer (0 * driftDemo.width + 0) ∧
            driftDemo.validBuffer (0 * driftDemo.width + 0) ≤
              2 * (filter (driftFrames 1) driftDemo).validBuffer (0 * driftDemo.width + 0) ∧
            (filter (driftFrames 1) driftDemo).validBuffer (0 * driftDemo.width + 0) ≤
              2 * driftDemo.validBuffer (0 * driftDemo.width + 0)) ∨
          (f32 driftDemo.hysteresis = driftDemo.hysteresis ∧
            driftDemo.hysteresis <
              abs (f32 ((filter (driftFrames 1) driftDemo).validBuffer
                  (0 * driftDemo.width + 0) -
                driftDemo.validBuffer (0 * driftDemo.width + 0))))) →
        driftDemo.hysteresis ≤
          abs ((filter (driftFrames 1) driftDemo).validBuffer (0 * driftDemo.width + 0) -
            driftDemo.validBuffer (0 * driftDemo.width + 0))))) :=
  ⟨by decide!, by decide!, by decide!, by decide!, by decide!,
   valid_change_at_least_hysteresis (driftFrames 1) driftDemo rfl (by decide) (by decide) 0 0
    (by decide) (by decide)⟩

/-- Counterexample to C3 as stated: the one-pixel grabber (depth 1, big-change
override on) is fed 5000 and then 5005. The pixel passes the stability test on
cycle 1, no big-change reset fires on cycle 2, and on cycle 2 its valid value
moves from 5000 to 5005, a change of 5 that is not below the hysteresis 1/2. -/
theorem valid_change_counterexample :
    isStable (filterCycles driftFrames 1 driftDemo)
      (filterCycles driftFrames 1 driftDemo).statBuffer 0 = true ∧
    bigChangeFires (filterCycles driftFrames 1 driftDemo)
      (filterCycles driftFrames 1 driftDemo).statBuffer 0 5005 = false ∧
    (filterCycles driftFrames 1 driftDemo).validBuffer 0 = 5000 ∧
    (filterCycles driftFrames 2 driftDemo).validBuffer 0 = 5005 ∧
    ¬ (abs ((filterCycles driftFrames 2 driftDemo).validBuffer 0 -
          (filterCycles driftFrames 1 driftDemo).validBuffer 0) <
        (filterCycles driftFrames 1 driftDemo).hysteresis) :=
  ⟨by decide!, by decide!, by decide!, by decide!, by decide!⟩

/-- In binary32 the change of the valid value can itself be smaller than the
hysteresis threshold. One pixel, averaging depth 10, raw samples 1, 0, 0, 0, 0
and then 1 on every cycle: on cycle 5 the valid value becomes `fl(1/5)`, and it
stays there until cycle 12, when the window holds seven ones and the mean is
`fl(7/10)`. The difference `fl(7/10) - fl(1/5) = 1/2 - 2^-26` lies halfway
between two binary32 numbers and is rounded to `1/2`, so the test
`|newFiltered - valid| >= hysteresis` of `filter()` passes and the valid value
moves by less than `hysteresis = 1/2`. -/
theorem valid_change_below_hysteresis_example :
    lowDemo.hysteresis = 1 / 2 ∧
    (filterCycles lowFrames 11 lowDemo).validBuffer 0 = 13421773 / 67108864 ∧
    (filterCycles lowFrames 12 lowDemo).validBuffer 0 = 11744051 / 16777216 ∧
    abs ((filterCycles lowFrames 12 lowDemo).validBuffer 0 -
      (filterCycles lowFrames 11 lowDemo).validBuffer 0) = 1 / 2 - 1 / 67108864 ∧
    f32 ((filterCycles lowFrames 12 lowDemo).validBuffer 0 -
      (filterCycles lowFrames 11 lowDemo).validBuffer 0) = 1 / 2 :=
  ⟨by decide!, by decide!, by decide!, by decide!, by decide!⟩
/-! ## Theorems: the plane fitter -/

theorem foldl_covarianceStep_quadForm (ctr v : Vec3) (pts : List Vec3) (acc : Covariance) :
    quadForm (pts.foldl (covarianceStep ctr) acc) v =
      quadForm acc v + (pts.map fun p => (Vec3.dot v (p.sub ctr)) ^ 2).sum := by
  induction pts generalizing acc with
  | nil => simp
  | cons p rest ih =>
    rw [List.foldl_cons, ih, List.map_cons, List.sum_cons, ← add_assoc]
    congr 1
    simp only [quadForm, covarianceStep, Vec3.dot]
    ring

theorem centredCost_eq_quadForm (pts : List Vec3) (v : Vec3) :
    centredCost pts v = quadForm (covarianceOf pts) v := by
  rw [covarianceOf, foldl_covarianceStep_quadForm]
  simp [centredCost, quadForm]

theorem list_sum_sq_nonneg (l : List ℚ) : 0 ≤ (l.map fun a => a ^ 2).sum := by
  induction l with
  | nil => simp
  | cons a rest ih =>
    rw [List.map_cons, List.sum_cons]
    exact add_nonneg (sq_nonneg a) ih

theorem centredCost_nonneg (pts : List Vec3) (v : Vec3) : 0 ≤ centredCost pts v := by
  have := list_sum_sq_nonneg (pts.map fun p => Vec3.dot v (p.sub (centroidOf pts)))
  simpa [centredCost, List.map_map, Function.comp] using this

theorem quadForm_nonneg (pts : List Vec3) (v : Vec3) : 0 ≤ quadForm (covarianceOf pts) v := by
  rw [← centredCost_eq_quadForm]
  exact centredCost_nonneg pts v

theorem det_nonneg_of_psd2 (a b d : ℚ)
    (h : ∀ s t : ℚ, 0 ≤ s ^ 2 * a + t ^ 2 * d + 2 * (s * t) * b) : 0 ≤ a * d - b * b := by
  have ha : 0 ≤ a := by
    have := h 1 0
    linarith
  have h3 : 0 ≤ a * (a * d - b * b) := by
    have := h (-b) a
    linarith
  by_contra hneg
  push_neg at hneg
  have ha0 : a = 0 := by
    rcases ha.lt_or_eq with hpos | h0
    · exact absurd (mul_neg_of_pos_of_neg hpos hneg) (not_lt.2 h3)
    · exact h0.symm
  rw [ha0] at hneg
  have hb2 : 0 < b * b := by linarith
  have h6 := h 1 (-b)
  rw [ha0] at h6
  have e6 : (1 : ℚ) ^ 2 * 0 + (-b) ^ 2 * d + 2 * (1 * -b) * b = (b * b) * (d - 2) := by ring
  rw [e6] at h6
  have hd2 : 2 ≤ d := by
    have := nonneg_of_mul_nonneg_right h6 hb2
    linarith
  have h7 := h d (-b)
  rw [ha0] at h7
  have e7 : d ^ 2 * 0 + (-b) ^ 2 * d + 2 * (d * -b) * b = -((b * b) * d) := by ring
  rw [e7] at h7
  have : 0 < b * b * d := mul_pos hb2 (by linarith)
  linarith

theorem detZ_nonneg_of_psd (c : Covariance) (hpsd : ∀ v, 0 ≤ quadForm c v) : 0 ≤ detZ c := by
  apply det_nonneg_of_psd2
  intro s t
  have := hpsd ⟨s, t, 0⟩
  simp only [quadForm] at this
  linarith

theorem detY_nonneg_of_psd (c : Covariance) (hpsd : ∀ v, 0 ≤ quadForm c v) : 0 ≤ detY c := by
  apply det_nonneg_of_psd2
  intro s t
  have := hpsd ⟨s, 0, t⟩
  simp only [quadForm] at this
  linarith

theorem detX_nonneg_of_psd (c : Covariance) (hpsd : ∀ v, 0 ≤ quadForm c v) : 0 ≤ detX c := by
  apply det_nonneg_of_psd2
  intro s t
  have := hpsd ⟨0, s, t⟩
  simp only [quadForm] at this
  linarith

theorem dets_zero_of_detMax_zero (c : Covariance) (hpsd : ∀ v, 0 ≤ quadForm c v)
    (h : detMax c = 0) : detX c = 0 ∧ detY c = 0 ∧ detZ c = 0 := by
  have hx : detX c ≤ 0 := by rw [← h]; exact le_max_left _ _
  have hy : detY c ≤ 0 := by
    rw [← h]; exact le_trans (le_max_left _ _) (le_max_right _ _)
  have hz : detZ c ≤ 0 := by
    rw [← h]; exact le_trans (le_max_right _ _) (le_max_right _ _)
  exact ⟨le_antisymm hx (detX_nonneg_of_psd c hpsd), le_antisymm hy (detY_nonneg_of_psd c hpsd),
    le_antisymm hz (detZ_nonneg_of_psd c hpsd)⟩

theorem detMax_cases (c : Covariance) :
    detMax c = detX c ∨ detMax c = detY c ∨ detMax c = detZ c := by
  unfold detMax
  rcases max_choice (detX c) (max (detY c) (detZ c)) with h | h
  · exact Or.inl h
  · rcases max_choice (detY c) (detZ c) with h2 | h2
    · exact Or.inr (Or.inl (h.trans h2))
    · exact Or.inr (Or.inr (h.trans h2))

theorem list_sum_sq_eq_zero (l : List ℚ) (h : (l.map fun a => a ^ 2).sum = 0) :
    ∀ a ∈ l, a = 0 := by
  induction l with
  | nil => simp
  | cons b rest ih =>
    rw [List.map_cons, List.sum_cons] at h
    have h1 := sq_nonneg b
    have h2 := list_sum_sq_nonneg rest
    have hb : b ^ 2 = 0 := by linarith
    have hr : (rest.map fun a => a ^ 2).sum = 0 := by linarith
    intro a ha
    rcases List.mem_cons.1 ha with rfl | ha
    · exact pow_eq_zero_iff (by norm_num) |>.1 hb
    · exact ih hr a ha

theorem dot_centred_eq_zero (pts : List Vec3) (v : Vec3)
    (h : quadForm (covarianceOf pts) v = 0) :
    ∀ p ∈ pts, Vec3.dot v (p.sub (centroidOf pts)) = 0 := by
  rw [← centredCost_eq_quadForm] at h
  have h' : ((pts.map fun p => Vec3.dot v (p.sub (centroidOf pts))).map fun a => a ^ 2).sum
      = 0 := by
    simpa [centredCost, List.map_map, Function.comp] using h
  intro p hp
  exact list_sum_sq_eq_zero _ h' _ (List.mem_map_of_mem _ hp)

theorem collinear_of_dets_zero (pts : List Vec3)
    (hx : detX (covarianceOf pts) = 0) (hy : detY (covarianceOf pts) = 0)
    (hz : detZ (covarianceOf pts) = 0) : Collinear pts := by
  have q1 : quadForm (covarianceOf pts)
      ⟨-(covarianceOf pts).xy, (covarianceOf pts).xx, 0⟩ = 0 := by
    have : quadForm (covarianceOf pts) ⟨-(covarianceOf pts).xy, (covarianceOf pts).xx, 0⟩ =
        (covarianceOf pts).xx * detZ (covarianceOf pts) := by
      simp only [quadForm, detZ]; ring
    rw [this, hz, mul_zero]
  have q2 : quadForm (covarianceOf pts)
      ⟨-(covarianceOf pts).xz, 0, (covarianceOf pts).xx⟩ = 0 := by
    have : quadForm (covarianceOf pts) ⟨-(covarianceOf pts).xz, 0, (covarianceOf pts).xx⟩ =
        (covarianceOf pts).xx * detY (covarianceOf pts) := by
      simp only [quadForm, detY]; ring
    rw [this, hy, mul_zero]
  have q3 : quadForm (covarianceOf pts)
      ⟨0, -(covarianceOf pts).yz, (covarianceOf pts).yy⟩ = 0 := by
    have : quadForm (covarianceOf pts) ⟨0, -(covarianceOf pts).yz, (covarianceOf pts).yy⟩ =
        (covarianceOf pts).yy * detX (covarianceOf pts) := by
      simp only [quadForm, detX]; ring
    rw [this, hx, mul_zero]
  have d1 := dot_centred_eq_zero pts _ q1
  have d2 := dot_centred_eq_zero pts _ q2
  have d3 := dot_centred_eq_zero pts _ q3
  simp only [Vec3.dot, Vec3.sub] at d1 d2 d3
  by_cases hxx : (covarianceOf pts).xx = 0
  · have e1 : quadForm (covarianceOf pts) ⟨1, 0, 0⟩ = 0 := by
      simp only [quadForm]; rw [hxx]; ring
    have dx := dot_centred_eq_zero pts _ e1
    simp only [Vec3.dot, Vec3.sub] at dx
    by_cases hyy : (covarianceOf pts).yy = 0
    · have e2 : quadForm (covarianceOf pts) ⟨0, 1, 0⟩ = 0 := by
        simp only [quadForm]; rw [hyy]; ring
      have dy := dot_centred_eq_zero pts _ e2
      simp only [Vec3.dot, Vec3.sub] at dy
      refine ⟨centroidOf pts, ⟨0, 0, 1⟩, fun p hp => ⟨p.z - (centroidOf pts).z, ?_⟩⟩
      have hpx := dx p hp
      have hpy := dy p hp
      cases p with
      | mk px py pz =>
        simp only [Vec3.mk.injEq]
        simp only at hpx hpy
        refine ⟨by linarith, by linarith, by ring⟩
    · refine ⟨centroidOf pts, ⟨0, 1, (covarianceOf pts).yz / (covarianceOf pts).yy⟩,
        fun p hp => ⟨p.y - (centroidOf pts).y, ?_⟩⟩
      have hpx := dx p hp
      have hp3 := d3 p hp
      cases p with
      | mk px py pz =>
        simp only [Vec3.mk.injEq]
        simp only at hpx hp3
        refine ⟨by linarith, by ring, ?_⟩
        field_simp
        linarith
  · refine ⟨centroidOf pts, ⟨1, (covarianceOf pts).xy / (covarianceOf pts).xx,
        (covarianceOf pts).xz / (covarianceOf pts).xx⟩,
      fun p hp => ⟨p.x - (centroidOf pts).x, ?_⟩⟩
    have hp1 := d1 p hp
    have hp2 := d2 p hp
    cases p with
    | mk px py pz =>
      simp only [Vec3.mk.injEq]
      simp only at hp1 hp2
      refine ⟨by ring, ?_, ?_⟩
      · field_simp
        linarith
      · field_simp
        linarith

theorem exists_line_params (a d : Vec3) (pts : List Vec3)
    (h : ∀ p ∈ pts, ∃ t : ℚ, p = ⟨a.x + t * d.x, a.y + t * d.y, a.z + t * d.z⟩) :
    ∃ ts : List ℚ, pts = ts.map (linePoint a d) := by
  induction pts with
  | nil => exact ⟨[], rfl⟩
  | cons p rest ih =>
    obtain ⟨t, ht⟩ := h p (List.mem_cons_self p rest)
    obtain ⟨ts, hts⟩ := ih (fun q hq => h q (List.mem_cons_of_mem p hq))
    exact ⟨t :: ts, by rw [List.map_cons, ← hts, ht]; rfl⟩

theorem foldl_add_linePoints (a d : Vec3) (ts : List ℚ) (acc : Vec3) :
    (ts.map (linePoint a d)).foldl Vec3.add acc =
      ⟨acc.x + (ts.length : ℚ) * a.x + ts.sum * d.x,
       acc.y + (ts.length : ℚ) * a.y + ts.sum * d.y,
       acc.z + (ts.length : ℚ) * a.z + ts.sum * d.z⟩ := by
  induction ts generalizing acc with
  | nil => simp
  | cons t rest ih =>
    rw [List.map_cons, List.foldl_cons, ih]
    simp only [Vec3.add, linePoint, List.length_cons, List.sum_cons, Nat.cast_add, Nat.cast_one,
      Vec3.mk.injEq]
    refine ⟨by ring, by ring, by ring⟩

theorem centroidOf_linePoints (a d : Vec3) (ts : List ℚ) (hts : ts ≠ []) :
    centroidOf (ts.map (linePoint a d)) = linePoint a d (ts.sum / (ts.length : ℚ)) := by
  have hlen : (ts.length : ℚ) ≠ 0 := by
    have : ts.length ≠ 0 := fun h => hts (List.length_eq_zero.1 h)
    exact_mod_cast this
  rw [centroidOf, foldl_add_linePoints, List.length_map]
  simp only [Vec3.divScalar, linePoint, Vec3.mk.injEq]
  refine ⟨?_, ?_, ?_⟩ <;> field_simp <;> ring

theorem quadForm_linePoints (a d v : Vec3) (ts : List ℚ) (hts : ts ≠ []) :
    quadForm (covarianceOf (ts.map (linePoint a d))) v =
      (Vec3.dot v d) ^ 2 *
        (ts.map fun t => (t - ts.sum / (ts.length : ℚ)) ^ 2).sum := by
  rw [← centredCost_eq_quadForm, centredCost, centroidOf_linePoints a d ts hts, List.map_map,
    ← List.sum_map_mul_left]
  congr 1
  apply List.map_congr_left
  intro t _
  simp only [Function.comp, Vec3.dot, Vec3.sub, linePoint]
  ring

theorem detMax_zero_of_collinear (pts : List Vec3) (hn : pts ≠ []) (h : Collinear pts) :
    detMax (covarianceOf pts) = 0 := by
  obtain ⟨a, d, hpts⟩ := h
  obtain ⟨ts, rfl⟩ := exists_line_params a d pts hpts
  have hts : ts ≠ [] := by
    intro h0
    exact hn (by rw [h0]; rfl)
  have hq := fun v => quadForm_linePoints a d v ts hts
  generalize (ts.map fun t => (t - ts.sum / (ts.length : ℚ)) ^ 2).sum = U at hq
  generalize covarianceOf (ts.map (linePoint a d)) = c at hq
  have h1 := hq ⟨1, 0, 0⟩
  have h2 := hq ⟨0, 1, 0⟩
  have h3 := hq ⟨0, 0, 1⟩
  have h4 := hq ⟨1, 1, 0⟩
  have h5 := hq ⟨1, 0, 1⟩
  have h6 := hq ⟨0, 1, 1⟩
  simp only [quadForm, Vec3.dot] at h1 h2 h3 h4 h5 h6
  have exx : c.xx = d.x ^ 2 * U := by linear_combination h1
  have eyy : c.yy = d.y ^ 2 * U := by linear_combination h2
  have ezz : c.zz = d.z ^ 2 * U := by linear_combination h3
  have exy : c.xy = d.x * d.y * U := by
    linear_combination (1 / 2) * h4 - (1 / 2) * h1 - (1 / 2) * h2
  have exz : c.xz = d.x * d.z * U := by
    linear_combination (1 / 2) * h5 - (1 / 2) * h1 - (1 / 2) * h3
  have eyz : c.yz = d.y * d.z * U := by
    linear_combination (1 / 2) * h6 - (1 / 2) * h2 - (1 / 2) * h3
  have dx : detX c = 0 := by simp only [detX, eyy, ezz, eyz]; ring
  have dy : detY c = 0 := by simp only [detY, exx, ezz, exz]; ring
  have dz : detZ c = 0 := by simp only [detZ, exx, eyy, exy]; ring
  simp [detMax, dx, dy, dz]

theorem planeDirection_component (c : Covariance) :
    (planeDirection c).component (planeAxis c) = 1 := by
  by_cases hx : detMax c = detX c
  · simp only [planeDirection, planeAxis, if_pos hx, Vec3.component]
    simp
  · by_cases hy : detMax c = detY c
    · simp only [planeDirection, planeAxis, if_neg hx, if_pos hy, Vec3.component]
      simp
    · have hz : detMax c = detZ c := by
        rcases detMax_cases c with h | h | h
        · exact absurd h hx
        · exact absurd h hy
        · exact h
      simp only [planeDirection, planeAxis, if_neg hx, if_neg hy, if_pos hz, Vec3.component]
      simp

theorem getPlaneEquation_ne_zero (pos dir : Vec3) (axis : Nat)
    (h : dir.component axis = 1) : getPlaneEquation pos dir ≠ ⟨0, 0, 0, 0⟩ := by
  intro h0
  simp only [getPlaneEquation, Vec3.divScalar, Vec3.length, Vec4.mk.injEq] at h0
  obtain ⟨h1, h2, h3, _⟩ := h0
  unfold Vec3.component at h
  split_ifs at h
  · rw [h] at h1; norm_num at h1
  · rw [h] at h2; norm_num at h2
  · rw [h] at h3; norm_num at h3

/-- C7: in exact arithmetic `plane_from_points` returns the all-zero vector for
fewer than three points, and for three or more points it returns the all-zero
vector if and only if the points are collinear (coincident points included). -/
theorem plane_from_points_zero_iff_collinear (pts : List Vec3) :
    (pts.length < 3 → plane_from_points pts = ⟨0, 0, 0, 0⟩) ∧
    (3 ≤ pts.length → (plane_from_points pts = ⟨0, 0, 0, 0⟩ ↔ Collinear pts)) := by
  constructor
  · intro h
    simp [plane_from_points, h]
  · intro h
    have hlt : ¬ pts.length < 3 := by omega
    have hne : pts ≠ [] := by
      intro h0
      rw [h0] at h
      simp at h
    constructor
    · intro hzero
      by_cases hdm : detMax (covarianceOf pts) = 0
      · obtain ⟨hx, hy, hz⟩ :=
          dets_zero_of_detMax_zero _ (quadForm_nonneg pts) hdm
        exact collinear_of_dets_zero pts hx hy hz
      · exfalso
        simp only [plane_from_points, hlt, hdm, if_false] at hzero
        exact getPlaneEquation_ne_zero _ _ _ (planeDirection_component _) hzero
    · intro hcol
      simp [plane_from_points, hlt, detMax_zero_of_collinear pts hne hcol]

/-- Witness of C7: three points on a line. -/
theorem plane_from_points_zero_iff_collinear_witness :
    3 ≤ diagonalPoints.length ∧
    (plane_from_points diagonalPoints = ⟨0, 0, 0, 0⟩ ↔ Collinear diagonalPoints) :=
  ⟨by decide, (plane_from_points_zero_iff_collinear diagonalPoints).2 (by decide)⟩

/-- C8, the code at a failing input: the three points `(0,0,1)`, `(1,0,2)`,
`(0,1,1)` lie on the plane `x - z + 1 = 0` and are not collinear;
`plane_from_points` returns normal `(1/3, 0, -1/3)` with offset `1`, for which
`dot(normal, p) + offset` is `2/3` at each of the three points and at their
centroid `(1/3, 1/3, 4/3)`, not `0`. -/
theorem plane_from_points_offset_mismatch :
    OnPlane ⟨1, 0, -1⟩ 1 tiltedPoints ∧ ¬ Collinear tiltedPoints ∧
    plane_from_points tiltedPoints = ⟨1 / 3, 0, -1 / 3, 1⟩ ∧
    (∀ p ∈ tiltedPoints, Vec3.dot ⟨1 / 3, 0, -1 / 3⟩ p + 1 = 2 / 3) ∧
    centroidOf tiltedPoints = ⟨1 / 3, 1 / 3, 4 / 3⟩ ∧
    Vec3.dot ⟨1 / 3, 0, -1 / 3⟩ (centroidOf tiltedPoints) + 1 = 2 / 3 := by
  refine ⟨⟨by decide, ?_⟩, ?_, by decide!, ?_, by decide!, by decide!⟩
  · intro p hp
    simp only [tiltedPoints, List.mem_cons, List.mem_singleton, List.not_mem_nil, or_false] at hp
    rcases hp with rfl | rfl | rfl <;> norm_num [Vec3.dot]
  · intro hcol
    have h0 := detMax_zero_of_collinear tiltedPoints (by decide) hcol
    revert h0
    decide!
  · intro p hp
    simp only [tiltedPoints, List.mem_cons, List.mem_singleton, List.not_mem_nil, or_false] at hp
    rcases hp with rfl | rfl | rfl <;> norm_num [Vec3.dot]

/-- C10, the code at a failing input: `getPlaneEquation(P, n)` is
`(n/3, -dot(n, P))`, so the elevation query returns `dot(n, P) - dot(n, w)/3`;
for the default base plane `n = (0,0,1)`, `P = (0,0,870)` the equation is
`(0, 0, 1/3, -870)` and the elevation of `w` is `870 - w.z/3`: `580`, not `0`, at
the point `(0, 0, 870)` of the plane, and `770`, not `570`, at `(0, 0, 300)`.
For the normal `(0, 0, 2)` through `P = (0, 0, 1)` the elevation of `P` itself
is `4/3`. -/
theorem elevation_default_plane_mismatch :
    (∀ P n w : Vec3, elevationOfWorldPoint (getPlaneEquation P n) w =
      Vec3.dot n P - Vec3.dot n w / 3) ∧
    defaultBasePlaneEq = ⟨0, 0, 1 / 3, -870⟩ ∧
    (∀ w : Vec3, elevationOfWorldPoint defaultBasePlaneEq w = 870 - w.z / 3) ∧
    elevationOfWorldPoint defaultBasePlaneEq ⟨0, 0, 870⟩ = 580 ∧
    elevationOfWorldPoint defaultBasePlaneEq ⟨0, 0, 300⟩ = 770 ∧
    elevationOfWorldPoint (getPlaneEquation ⟨0, 0, 1⟩ ⟨0, 0, 2⟩) ⟨0, 0, 1⟩ = 4 / 3 := by
  refine ⟨?_, by decide!, ?_, by decide!, by decide!, by decide!⟩
  · intro P n w
    simp only [elevationOfWorldPoint, getPlaneEquation, Vec4.dot, Vec3.dot, Vec3.divScalar,
      Vec3.length]
    ring
  · intro w
    simp only [elevationOfWorldPoint, defaultBasePlaneEq, getPlaneEquation, Vec4.dot, Vec3.dot,
      Vec3.divScalar, Vec3.length]
    ring

/-! ## Theorems: the calibration solver and the coordinate transforms -/

theorem demoSystem_built : calibrationSystem demoWorld demoDisplay = some demoSystem := by
  decide!

/-- The function `projCoordAndWorldZToWorldCoord` inverts the projective map
that the rows of `calibrate()` encode: the world point it returns for a display
point `(u, v)` is mapped back to `(u, v)` by `projectiveMap`. -/
theorem projCoordAndWorldZ_inverts_projectiveMap (c : Vec11) (u v z : ℚ)
    (hdet : projSystemDet (calibratedMatrix c) u v ≠ 0)
    (hden : c.c8 * (projCoordAndWorldZToWorldCoord (calibratedMatrix c) u v z).x +
      c.c9 * (projCoordAndWorldZToWorldCoord (calibratedMatrix c) u v z).y +
      c.c10 * (projCoordAndWorldZToWorldCoord (calibratedMatrix c) u v z).z + 1 ≠ 0) :
    projectiveMap c (projCoordAndWorldZToWorldCoord (calibratedMatrix c) u v z) = ⟨u, v⟩ := by
  have hdet' : (c.c0 - c.c8 * u) * (c.c5 - c.c9 * v) -
      (c.c1 - c.c9 * u) * (c.c4 - c.c8 * v) ≠ 0 := hdet
  simp only [projCoordAndWorldZToWorldCoord, calibratedMatrix, mat4x4, if_neg hdet'] at hden ⊢
  simp only [projectiveMap, Vec2.mk.injEq]
  constructor
  · rw [div_eq_iff hden]
    field_simp
    ring
  · rw [div_eq_iff hden]
    field_simp
    ring

/-- C5, the code at a failing input: with the matrix that `calibrate()` builds
from coefficients `x`, `getProjectedPoint` and `worldCoordToProjCoord` return
`((x0*X + x4*Y + x8*Z) / (x2*X + x6*Y + x10*Z), (x1*X + x5*Y + x9*Z) / (x2*X + x6*Y + x10*Z))`,
the matrix being filled by columns and multiplied as such. After calibrating on
the six pairs of the map `u = X/(Z+1)`, `v = Y/(Z+1)`, whose fifth pair is
`(1, 0, 1) ↦ (1/2, 0)`, both functions send `(1, 0, 1)` to `(1, 0)`. -/
theorem getProjectedPoint_calibrated_mismatch :
    (∀ (x : Vec11) (k : Toolkit) (w : Vec3),
      getProjectedPoint { k with projMatrice := calibratedMatrix x } w =
        ⟨(x.c0 * w.x + x.c4 * w.y + x.c8 * w.z) / (x.c2 * w.x + x.c6 * w.y + x.c10 * w.z),
         (x.c1 * w.x + x.c5 * w.y + x.c9 * w.z) / (x.c2 * w.x + x.c6 * w.y + x.c10 * w.z)⟩) ∧
    (∀ (x : Vec11) (w : Vec3),
      worldCoordToProjCoord (calibratedMatrix x) w =
        ⟨(x.c0 * w.x + x.c4 * w.y + x.c8 * w.z) / (x.c2 * w.x + x.c6 * w.y + x.c10 * w.z),
         (x.c1 * w.x + x.c5 * w.y + x.c9 * w.z) / (x.c2 * w.x + x.c6 * w.y + x.c10 * w.z)⟩) ∧
    (calibrate (fun _ => demoCoeffs) freshToolkit demoWorld demoDisplay).map
        (fun k => getProjectedPoint k ⟨1, 0, 1⟩) = some ⟨1, 0⟩ ∧
    worldCoordToProjCoord (calibratedMatrix demoCoeffs) ⟨1, 0, 1⟩ = ⟨1, 0⟩ ∧
    projectiveMap demoCoeffs ⟨1, 0, 1⟩ = ⟨1 / 2, 0⟩ := by
  refine ⟨?_, ?_, by decide!, by decide!, by decide!⟩
  · intro x k w
    simp only [getProjectedPoint, calibratedMatrix, mat4x4, Mat4.mulVec, Vec2.mk.injEq]
    constructor <;> ring_nf
  · intro x w
    simp only [worldCoordToProjCoord, calibratedMatrix, mat4x4, Mat4.mulVec, Vec2.mk.injEq]
    constructor <;> ring_nf

/-- C6, the code at a failing input: for the matrix calibrated on the map
`u = X/(Z+1)`, `v = Y/(Z+1)`, the display point `(1/2, 0)` and the height `1`,
the 2 × 2 system has determinant `1`, `projCoordAndWorldZToWorldCoord` returns
the world point `(1, 0, 1)`, whose divisor in `worldCoordToProjCoord` is `1`,
and `worldCoordToProjCoord` sends it to `(1, 0)`, not back to `(1/2, 0)`. -/
theorem projCoord_round_trip_mismatch :
    projSystemDet (calibratedMatrix demoCoeffs) (1 / 2) 0 = 1 ∧
    projCoordAndWorldZToWorldCoord (calibratedMatrix demoCoeffs) (1 / 2) 0 1 = ⟨1, 0, 1⟩ ∧
    ((calibratedMatrix demoCoeffs).mulVec ⟨1, 0, 1, 1⟩).z = 1 ∧
    worldCoordToProjCoord (calibratedMatrix demoCoeffs)
      (projCoordAndWorldZToWorldCoord (calibratedMatrix demoCoeffs) (1 / 2) 0 1) = ⟨1, 0⟩ ∧
    projectiveMap demoCoeffs
      (projCoordAndWorldZToWorldCoord (calibratedMatrix demoCoeffs) (1 / 2) 0 1) = ⟨1 / 2, 0⟩ :=
  ⟨by decide!, by decide!, by decide!, by decide!, by decide!⟩

/-! ## Theorems: the coordinate transforms of ZedProjector.cpp -/

/-- C20, counterexample: a ROI `[0, 4) × [0, 2)` over a flat scene of depth `2`
gives one row of three sample points `(0, 0, 4)`, `(2, 0, 4)`, `(4, 0, 4)`, on
one line; `plane_from_points` returns the all-zero result, `updateBasePlane`
replaces the base plane `(0, 0, 1/3, -870)` by it and `updateMaxOffset` replaces
the ceiling `570` by `-50`. -/
theorem sentinel_plane_counterexample :
    smallROIPoints thinRoiSensor = some [⟨0, 0, 4⟩, ⟨2, 0, 4⟩, ⟨4, 0, 4⟩] ∧
    plane_from_points [⟨0, 0, 4⟩, ⟨2, 0, 4⟩, ⟨4, 0, 4⟩] = ⟨0, 0, 0, 0⟩ ∧
    thinRoiSensor.basePlaneEq = ⟨0, 0, 1 / 3, -870⟩ ∧
    (updateBasePlane thinRoiSensor).basePlaneEq = ⟨0, 0, 0, 0⟩ ∧
    (updateBasePlane thinRoiSensor).basePlaneNormal = ⟨0, 0, 0⟩ ∧
    thinRoiSensor.maxOffset = 570 ∧
    (updateMaxOffset thinRoiSensor).maxOffset = -50 := by
  decide!

/-- C20, amended: when `plane_from_points` returns the all-zero result, its
callers install it unchecked: `updateBasePlane` sets `basePlaneEq`,
`basePlaneNormal` and `basePlaneOffset` to zero and `updateMaxOffset` sets
`maxOffset` to `-maxOffsetSafeRange`. When the sample rectangle is empty
(`sw * sh == 0`) both return before `plane_from_points` is called and leave the
projector as it was. -/
theorem sentinel_plane_is_installed (p : ZedProjector) :
    (∀ points, smallROIPoints p = some points → plane_from_points points = ⟨0, 0, 0, 0⟩ →
      (updateBasePlane p).basePlaneEq = ⟨0, 0, 0, 0⟩ ∧
      (updateBasePlane p).basePlaneNormal = ⟨0, 0, 0⟩ ∧
      (updateBasePlane p).basePlaneOffset = ⟨0, 0, 0⟩ ∧
      (updateMaxOffset p).maxOffset = -p.maxOffsetSafeRange) ∧
    (smallROIPoints p = none → updateBasePlane p = p ∧ updateMaxOffset p = p) := by
  constructor
  · intro points hpts hzero
    simp only [updateBasePlane, updateMaxOffset, hpts, hzero]
    norm_num
  · intro h
    simp only [updateBasePlane, updateMaxOffset, h]
    exact ⟨trivial, trivial⟩

/-- Witness of C20: the one-row sample rectangle over a flat scene. -/
theorem sentinel_plane_is_installed_witness :
    smallROIPoints thinRoiSensor = some [⟨0, 0, 4⟩, ⟨2, 0, 4⟩, ⟨4, 0, 4⟩] ∧
    plane_from_points [⟨0, 0, 4⟩, ⟨2, 0, 4⟩, ⟨4, 0, 4⟩] = ⟨0, 0, 0, 0⟩ ∧
    (updateBasePlane thinRoiSensor).basePlaneEq = ⟨0, 0, 0, 0⟩ ∧
    (updateBasePlane thinRoiSensor).basePlaneNormal = ⟨0, 0, 0⟩ ∧
    (updateBasePlane thinRoiSensor).basePlaneOffset = ⟨0, 0, 0⟩ ∧
    (updateMaxOffset thinRoiSensor).maxOffset = -thinRoiSensor.maxOffsetSafeRange :=
  ⟨by decide!, by decide!,
   (sentinel_plane_is_installed thinRoiSensor).1 [⟨0, 0, 4⟩, ⟨2, 0, 4⟩, ⟨4, 0, 4⟩]
     (by decide!) (by decide!)⟩

/-! ## Theorems: the gradient field -/

/-- C14, the code at a failing input: a 2 × 2 frame with one gradient cell,
depths 3000 in the left column and 7000 in the right column, `maxgradfield`
1000. `updateGradientField()` stores `(-2000, 0)`, of squared magnitude
`4000000 > 1000²`: the clamp compares the component count `2` of the vector with
`maxgradfield` and never fires. -/
theorem gradient_clamp_mismatch :
    steepDemo.maxgradfield = 1000 ∧
    steepDemo.filteredframe 0 = 3000 ∧ steepDemo.filteredframe 1 = 7000 ∧
    steepDemo.filteredframe 2 = 3000 ∧ steepDemo.filteredframe 3 = 7000 ∧
    (updateGradientField steepDemo).gradField 0 = ⟨-2000, 0⟩ ∧
    ((updateGradientField steepDemo).gradField 0).x ^ 2 +
      ((updateGradientField steepDemo).gradField 0).y ^ 2 > steepDemo.maxgradfield ^ 2 := by
  decide!

/-- C15, the code at a failing input: two grabbers with the same all-zero
filtered frame, ROI and resolution, whose one cell is inside the ROI and has no
valid edge pair; the first still holds the gradient `(-2000, 0)` of the cycle
before, the second the zero field of a reset. `updateGradientField()` leaves
`(-2000, 0)` in the first and `(0, 0)` in the second. -/
theorem gradient_field_keeps_stale_cell :
    staleDemo.filteredframe = blankDemo.filteredframe ∧
    (staleDemo.minX, staleDemo.maxX, staleDemo.minY, staleDemo.maxY) =
      (blankDemo.minX, blankDemo.maxX, blankDemo.minY, blankDemo.maxY) ∧
    staleDemo.gradFieldresolution = blankDemo.gradFieldresolution ∧
    (isInsideROI staleDemo 0 0 && isInsideROI staleDemo 2 2) = true ∧
    cellSums staleDemo 0 0 = ⟨0, 0, 0, 0⟩ ∧
    staleDemo.gradField 0 = ⟨-2000, 0⟩ ∧ blankDemo.gradField 0 = ⟨0, 0⟩ ∧
    (updateGradientField staleDemo).gradField 0 = ⟨-2000, 0⟩ ∧
    (updateGradientField blankDemo).gradField 0 = ⟨0, 0⟩ := by
  refine ⟨rfl, by decide, by decide, by decide, ?_, ?_, ?_, ?_, ?_⟩ <;> decide!

/-! ## Theorems: the spatial filter and the ROI -/

/-- C16, the code at a failing input: a 4 × 4 frame with the ROI
`[1, 3) × [1, 3)`, spatial smoothing on, every raw depth 4000. After the scan of
`filter()` the pixel 1 (column 1 of row 0, above the ROI) holds `0`;
`applySpaceFilter`, whose column runs start in row 0 of the frame, leaves
`92000/81` there. -/
theorem applySpaceFilter_writes_outside_roi :
    (offsetRoiDemo.minX, offsetRoiDemo.maxX, offsetRoiDemo.minY, offsetRoiDemo.maxY) =
      (1, 3, 1, 3) ∧
    (offsetRoiDemo.width, offsetRoiDemo.height) = (4, 4) ∧
    (filterScan (fun _ => 4000) offsetRoiDemo).filteredframe (0 * 4 + 1) = 0 ∧
    (applySpaceFilter (filterScan (fun _ => 4000) offsetRoiDemo)).filteredframe (0 * 4 + 1) =
      92000 / 81 ∧
    (filter (fun _ => 4000) offsetRoiDemo).filteredframe (0 * 4 + 1) = 92000 / 81 := by
  refine ⟨by decide, by decide, ?_, ?_, ?_⟩ <;> decide!

/-! ## Theorems: the stabilisation counter -/

theorem filter_initCount (img : Nat → Nat) (g : ZedGrabber)
    (hinit : g.bufferInitiated = true) :
    (filter img g).firstImageReady = (countInitFrame g).firstImageReady ∧
    (filter img g).currentInitFrame = (countInitFrame g).currentInitFrame := by
  have hs := filterScan_settings img g
  have e1 : (advanceSlot (filterScan img g)).firstImageReady = g.firstImageReady :=
    hs.firstImageReady
  have e2 : (advanceSlot (filterScan img g)).currentInitFrame = g.currentInitFrame :=
    hs.currentInitFrame
  have e3 : (advanceSlot (filterScan img g)).minInitFrame = g.minInitFrame :=
    hs.minInitFrame
  have key : (countInitFrame (advanceSlot (filterScan img g))).firstImageReady =
        (countInitFrame g).firstImageReady ∧
      (countInitFrame (advanceSlot (filterScan img g))).currentInitFrame =
        (countInitFrame g).currentInitFrame := by
    unfold countInitFrame
    rw [e1, e2, e3]
    split_ifs <;> exact ⟨by first | rfl | assumption, by first | rfl | assumption⟩
  unfold filter
  rw [if_pos hinit]
  split_ifs
  · exact key
  · exact key

theorem countInitFrame_ready (g : ZedGrabber) :
    (countInitFrame g).firstImageReady =
      (g.firstImageReady || decide (g.minInitFrame < g.currentInitFrame + 1)) := by
  unfold countInitFrame
  by_cases h : g.firstImageReady = true
  · simp [h]
  · by_cases h2 : g.currentInitFrame + 1 > g.minInitFrame
    · simp [h, h2]
    · have h3 : ¬ g.minInitFrame < g.currentInitFrame + 1 := h2
      simp [h, h3]

theorem countInitFrame_count (g : ZedGrabber) (h : g.firstImageReady = false) :
    (countInitFrame g).currentInitFrame = g.currentInitFrame + 1 := by
  unfold countInitFrame
  by_cases h2 : g.currentInitFrame + 1 > g.minInitFrame
  · simp [h, h2]
  · simp [h, h2]

theorem filterCycles_initCount (frames : Nat → Nat → Nat) (g : ZedGrabber)
    (hinit : g.bufferInitiated = true) (hready : g.firstImageReady = false)
    (hcount : g.currentInitFrame = 0) (k : Nat) :
    (filterCycles frames k g).firstImageReady = decide (g.minInitFrame < k) ∧
    (k ≤ g.minInitFrame → (filterCycles frames k g).currentInitFrame = k) := by
  induction k with
  | zero => simp [filterCycles, hready, hcount]
  | succ k ih =>
    obtain ⟨ih1, ih2⟩ := ih
    have hc := filterCycles_config frames k g
    have hb : (filterCycles frames k g).bufferInitiated = true := by
      rw [hc.bufferInitiated]; exact hinit
    obtain ⟨f1, f2⟩ := filter_initCount (frames (k + 1)) (filterCycles frames k g) hb
    have hfc : filterCycles frames (k + 1) g =
        filter (frames (k + 1)) (filterCycles frames k g) := rfl
    rw [hfc, f1, f2, countInitFrame_ready, ih1, hc.minInitFrame]
    by_cases hk : g.minInitFrame < k
    · have hk2 : g.minInitFrame < k + 1 := by omega
      refine ⟨by simp [hk, hk2], ?_⟩
      intro h
      omega
    · have hk' : k ≤ g.minInitFrame := by omega
      have hr : (filterCycles frames k g).firstImageReady = false := by
        rw [ih1]; simp [hk]
      rw [countInitFrame_count _ hr, ih2 hk']
      refine ⟨by simp [hk], fun _ => rfl⟩

theorem initiateBuffers_initCount (g : ZedGrabber) :
    (initiateBuffers g).bufferInitiated = true ∧ (initiateBuffers g).firstImageReady = false ∧
    (initiateBuffers g).currentInitFrame = 0 ∧
    (initiateBuffers g).minInitFrame = g.minInitFrame :=
  ⟨rfl, rfl, rfl, rfl⟩

theorem stabilized_after_initiate (frames : Nat → Nat → Nat) (g : ZedGrabber) (k : Nat) :
    isImageStabilized (filterCycles frames k (initiateBuffers g)) =
      decide (g.minInitFrame < k) :=
  (filterCycles_initCount frames (initiateBuffers g) rfl rfl rfl k).1

/-- C17: after each of the five full buffer resets `isImageStabilized()` is
false after `k` cycles of `filter()` for every `k ≤ minInitFrame` (`k = 0` is the
reset itself) and true after every `k > minInitFrame`; `setupFramefilter` sets
`minInitFrame` to 60 and the other four resets keep it. -/
theorem stabilized_after_minInitFrame (frames : Nat → Nat → Nat) (g : ZedGrabber) (k : Nat) :
    (∀ (res : Nat) (off : ℚ) (minX maxX minY maxY : Nat) (sp fb : Bool) (slots : Nat),
      isImageStabilized (filterCycles frames k
        (setupFramefilter g res off minX maxX minY maxY sp fb slots)) = decide (60 < k)) ∧
    (∀ minX maxX minY maxY : Nat,
      isImageStabilized (filterCycles frames k (setzedROI g minX maxX minY maxY)) =
        decide (g.minInitFrame < k)) ∧
    (∀ slots : Nat,
      isImageStabilized (filterCycles frames k (setAveragingSlotsNumber g slots)) =
        decide (g.minInitFrame < k)) ∧
    (∀ b : Bool,
      isImageStabilized (filterCycles frames k (setFollowBigChange g b)) =
        decide (g.minInitFrame < k)) ∧
    (∀ res : Nat,
      isImageStabilized (filterCycles frames k (setGradFieldResolution g res)) =
        decide (g.minInitFrame < k)) := by
  refine ⟨?_, ?_, ?_, ?_, ?_⟩
  · intro res off minX maxX minY maxY sp fb slots
    exact stabilized_after_initiate frames _ k
  · intro minX maxX minY maxY
    exact stabilized_after_initiate frames _ k
  · intro slots
    exact stabilized_after_initiate frames _ k
  · intro b
    exact stabilized_after_initiate frames _ k
  · intro res
    exact stabilized_after_initiate frames _ k

/-! ## Theorems: loading a calibration -/

/-- C18: `loadCalibration` returns false and leaves the toolkit (coefficients,
matrix, flag) as it was when the file cannot be loaded or a stored resolution
differs from the live one; it returns true exactly when the file loads with both
stored resolutions equal to the live ones, and then the coefficients are the
loaded ones and `calibrated` is set. -/
theorem loadCalibration_fails_closed (k : Toolkit) (file : Option CalibrationFile) :
    ((loadCalibration k file).1 = true ↔
      ∃ xml, file = some xml ∧ xml.PROJECTOR = k.projRes ∧ xml.Zed = k.zedRes) ∧
    ((loadCalibration k file).1 = false → (loadCalibration k file).2 = k) ∧
    (∀ xml, file = some xml → (loadCalibration k file).1 = true →
      (loadCalibration k file).2.x = xml.COEFF ∧
      (loadCalibration k file).2.projMatrice = loadedMatrix xml.COEFF ∧
      (loadCalibration k file).2.calibrated = true) := by
  cases file with
  | none => simp [loadCalibration]
  | some xml =>
    by_cases h : xml.PROJECTOR ≠ k.projRes ∨ xml.Zed ≠ k.zedRes
    · have hn : ¬ (xml.PROJECTOR = k.projRes ∧ xml.Zed = k.zedRes) := by
        rintro ⟨h1, h2⟩
        rcases h with h | h
        · exact h h1
        · exact h h2
      simp only [loadCalibration, if_pos h]
      simp [hn]
    · have hy : xml.PROJECTOR = k.projRes ∧ xml.Zed = k.zedRes := by
        constructor
        · by_contra h1
          exact h (Or.inl h1)
        · by_contra h2
          exact h (Or.inr h2)
      simp only [loadCalibration, if_neg h]
      simp [hy]

/-- Witness of C18: a file stored for the live resolutions is loaded, a file
stored for another projector resolution is refused and changes nothing. -/
theorem loadCalibration_fails_closed_witness :
    ((loadCalibration freshToolkit (some demoFile)).1 = true ∧
      (loadCalibration freshToolkit (some demoFile)).2.x = demoCoeffs ∧
      (loadCalibration freshToolkit (some demoFile)).2.projMatrice = loadedMatrix demoCoeffs ∧
      (loadCalibration freshToolkit (some demoFile)).2.calibrated = true) ∧
    (loadCalibration freshToolkit (some staleFile)).1 = false ∧
    (loadCalibration freshToolkit (some staleFile)).2 = freshToolkit := by
  have h1 : (loadCalibration freshToolkit (some demoFile)).1 = true := by decide!
  have h2 : (loadCalibration freshToolkit (some staleFile)).1 = false := by decide!
  exact ⟨⟨h1, (loadCalibration_fails_closed freshToolkit (some demoFile)).2.2 demoFile rfl h1⟩,
    h2, (loadCalibration_fails_closed freshToolkit (some staleFile)).2.1 h2⟩

/-! ## Theorems: the automatic calibration state machine -/

theorem addPointPair_spec (c : AutoCalibration) (sensor : ZedProjector) (cvPoints : List Vec2) :
    ((addPointPair c sensor cvPoints).1 = true ∧
      (addPointPair c sensor cvPoints).2.pairsZed.length =
        c.pairsZed.length + cvPoints.length ∧
      (addPointPair c sensor cvPoints).2.pairsProjector.length =
        c.pairsProjector.length + cvPoints.length ∧
      (addPointPair c sensor cvPoints).2.autoCalibState = c.autoCalibState ∧
      (addPointPair c sensor cvPoints).2.chessboardX = c.chessboardX ∧
      (addPointPair c sensor cvPoints).2.chessboardY = c.chessboardY) ∨
    ((addPointPair c sensor cvPoints).1 = false ∧ (addPointPair c sensor cvPoints).2 = c) := by
  unfold addPointPair
  split_ifs
  · left
    simp
  · right
    exact ⟨rfl, rfl⟩

theorem retryBoard_fields (c : AutoCalibration) (num den : ℚ) :
    (retryBoard c num den).pairsZed = c.pairsZed ∧
    (retryBoard c num den).pairsProjector = c.pairsProjector ∧
    (retryBoard c num den).autoCalibState = c.autoCalibState ∧
    (retryBoard c num den).currentCalibPts = c.currentCalibPts ∧
    (retryBoard c num den).chessboardX = c.chessboardX ∧
    (retryBoard c num den).chessboardY = c.chessboardY := by
  unfold retryBoard
  split_ifs <;> exact ⟨rfl, rfl, rfl, rfl, rfl, rfl⟩

/-- What the branch `NEXT_POINT` does to the pair lists, the counter and the
state: either a board is added (twelve pairs more in both lists, the counter one
more), or the lists and the counter stay and the state stays or, with ten boards
counted, becomes `COMPUTE`. -/
theorem nextPoint_spec (c : AutoCalibration) (f : CalibFrame)
    (hfull : f.foundChessboard = true → f.cvPoints.length = 12) :
    (nextPoint c f).1.chessboardX = c.chessboardX ∧
    (nextPoint c f).1.chessboardY = c.chessboardY ∧
    (((nextPoint c f).2 = true ∧
        (nextPoint c f).1.pairsZed.length = c.pairsZed.length + 12 ∧
        (nextPoint c f).1.pairsProjector.length = c.pairsProjector.length + 12 ∧
        (nextPoint c f).1.currentCalibPts = c.currentCalibPts + 1 ∧
        (nextPoint c f).1.autoCalibState = c.autoCalibState) ∨
      ((nextPoint c f).2 = false ∧
        (nextPoint c f).1.pairsZed = c.pairsZed ∧
        (nextPoint c f).1.pairsProjector = c.pairsProjector ∧
        (nextPoint c f).1.currentCalibPts = c.currentCalibPts ∧
        ((nextPoint c f).1.autoCalibState = c.autoCalibState ∨
          ((nextPoint c f).1.autoCalibState = AutoCalibState.COMPUTE ∧
            10 ≤ c.currentCalibPts)))) := by
  obtain ⟨r1, r2, r3, r4, r5, r6⟩ := retryBoard_fields c 4 5
  obtain ⟨q1, q2, q3, q4, q5, q6⟩ := retryBoard_fields c 3 4
  unfold nextPoint
  by_cases h1 : c.currentCalibPts < 5 ∨ (c.upframe = true ∧ c.currentCalibPts < 10)
  · rw [if_pos h1]
    by_cases h2 : f.foundChessboard = true
    · rw [if_pos h2]
      by_cases h3 : c.cleared = true
      · rw [if_pos h3]
        rcases addPointPair_spec c f.sensor f.cvPoints with ⟨a1, a2, a3, a4, a5, a6⟩ | ⟨a1, a2⟩
        · rw [if_pos a1]
          rw [hfull h2] at a2 a3
          exact ⟨a5, a6, Or.inl ⟨rfl, a2, a3, rfl, a4⟩⟩
        · rw [a1]
          exact ⟨r5, r6, Or.inr ⟨rfl, r1, r2, r4, Or.inl r3⟩⟩
      · rw [if_neg h3]
        exact ⟨rfl, rfl, Or.inr ⟨rfl, rfl, rfl, rfl, Or.inl rfl⟩⟩
    · rw [if_neg h2]
      by_cases h3 : c.cleared = false
      · rw [if_pos h3]
        exact ⟨rfl, rfl, Or.inr ⟨rfl, rfl, rfl, rfl, Or.inl rfl⟩⟩
      · rw [if_neg h3]
        exact ⟨q5, q6, Or.inr ⟨rfl, q1, q2, q4, Or.inl q3⟩⟩
  · rw [if_neg h1]
    by_cases h2 : c.upframe = true
    · rw [if_pos h2]
      refine ⟨rfl, rfl, Or.inr ⟨rfl, rfl, rfl, rfl, Or.inr ⟨rfl, ?_⟩⟩⟩
      by_contra h3
      exact h1 (Or.inr ⟨h2, by omega⟩)
    · rw [if_neg h2]
      exact ⟨rfl, rfl, Or.inr ⟨rfl, rfl, rfl, rfl, Or.inl rfl⟩⟩

theorem runInvariant_update (n : Nat) (t : CalibTrace) (f : CalibFrame)
    (hfull : f.foundChessboard = true → f.cvPoints.length = 12) (h : RunInvariant n t) :
    RunInvariant n (traceStep t (CalibEvent.update f)) := by
  obtain ⟨hb, hs, ht, hc, hd, hcalls⟩ := h
  cases hst : t.state.autoCalibState with
  | INIT_FIRST_PLANE =>
    by_cases h1 : f.ROIcalibrated = true
    · simp only [traceStep, calibStep, updateProjZedAutoCalibration, hst, if_pos h1]
      exact ⟨hb, hs, ht, by simp, by simp, hcalls⟩
    · simp only [traceStep, calibStep, updateProjZedAutoCalibration, hst, if_neg h1]
      exact ⟨hb, hs, ht, by simp [hst], by simp [hst], hcalls⟩
  | INIT_POINT =>
    by_cases h1 : f.imageStabilized = true
    · simp only [traceStep, calibStep, updateProjZedAutoCalibration, hst, if_pos h1]
      refine ⟨hb, hs, ht, ?_, ?_, hcalls⟩
      · intro _
        show (0 : Int) ≤ (t.acquisitions : Int)
        exact Int.ofNat_nonneg _
      · intro h2
        exact absurd h2 (by simp [initPoint])
    · simp only [traceStep, calibStep, updateProjZedAutoCalibration, hst, if_neg h1]
      exact ⟨hb, hs, ht, by simp [hst], by simp [hst], hcalls⟩
  | NEXT_POINT =>
    by_cases h1 : f.imageStabilized = true
    · obtain ⟨n1, n2, n3⟩ := nextPoint_spec t.state f hfull
      simp only [traceStep, calibStep, updateProjZedAutoCalibration, hst, if_pos h1]
      rcases n3 with ⟨a1, a2, a3, a4, a5⟩ | ⟨a1, a2, a3, a4, a5⟩
      · rw [a1]
        refine ⟨by rw [n1, n2]; exact hb, by rw [a2, a3, hs], ?_, ?_, ?_, hcalls⟩
        · rw [a2, ht]
          simp only [if_true]
          ring
        · intro _
          rw [a4]
          have := hc hst
          simp only [if_true]
          push_cast
          omega
        · intro h2
          rw [a5, hst] at h2
          exact absurd h2 (by simp)
      · rw [a1]
        refine ⟨by rw [n1, n2]; exact hb, by rw [a2, a3, hs], ?_, ?_, ?_, hcalls⟩
        · rw [a2, ht]
          simp
        · intro _
          rw [a4]
          simpa using hc hst
        · intro h2
          have h3 := hc hst
          rcases a5 with a5 | ⟨_, a6⟩
          · rw [a5, hst] at h2
            exact absurd h2 (by simp)
          · simp only [Bool.false_eq_true, if_false]
            omega
    · simp only [traceStep, calibStep, updateProjZedAutoCalibration, hst, if_neg h1]
      exact ⟨hb, hs, ht, hc, by simp [hst], hcalls⟩
  | COMPUTE =>
    have h10 := hd hst
    by_cases h1 : t.state.pairsZed.length = 0
    · simp only [traceStep, calibStep, updateProjZedAutoCalibration, hst, if_pos h1]
      exact ⟨hb, hs, ht, by simp, by simp, hcalls⟩
    · simp only [traceStep, calibStep, updateProjZedAutoCalibration, hst, if_neg h1]
      refine ⟨hb, hs, ht, by simp, by simp, ?_⟩
      intro call hcall
      simp only [List.mem_cons] at hcall
      rcases hcall with rfl | hcall
      · exact ⟨hs, by simp only; omega⟩
      · exact hcalls call hcall
  | DONE =>
    simp only [traceStep, calibStep, updateProjZedAutoCalibration, hst]
    exact ⟨hb, hs, ht, by simp [hst], by simp [hst], hcalls⟩

theorem runInvariant_step (n : Nat) (t : CalibTrace) (ev : CalibEvent) (hfull : FullBoard ev)
    (h : RunInvariant n t) : RunInvariant n (traceStep t ev) := by
  cases ev with
  | update f => exact runInvariant_update n t f hfull h
  | confirm armed =>
    obtain ⟨hb, hs, ht, hc, hd, hcalls⟩ := h
    by_cases h1 : armed = true ∧ t.state.autoCalibState = AutoCalibState.NEXT_POINT ∧
        t.state.upframe = false
    · simp only [traceStep, calibStep, if_pos h1]
      exact ⟨hb, hs, ht, by simpa using hc, by simpa using hd, hcalls⟩
    · simp only [traceStep, calibStep, if_neg h1]
      exact ⟨hb, hs, ht, by simpa using hc, by simpa using hd, hcalls⟩
  | startAutomatic =>
    obtain ⟨hb, hs, ht, hc, hd, hcalls⟩ := h
    simp only [traceStep, calibStep]
    exact ⟨hb, hs, ht, by simp, by simp, hcalls⟩
  | startFull =>
    obtain ⟨hb, hs, ht, hc, hd, hcalls⟩ := h
    simp only [traceStep, calibStep]
    exact ⟨hb, hs, ht, by simp, by simp, hcalls⟩

theorem runInvariant_foldl (n : Nat) (events : List CalibEvent)
    (hfull : ∀ ev ∈ events, FullBoard ev) (t : CalibTrace) (h : RunInvariant n t) :
    RunInvariant n (events.foldl traceStep t) := by
  induction events generalizing t with
  | nil => exact h
  | cons ev rest ih =>
    simp only [List.foldl_cons]
    exact ih (fun e he => hfull e (List.mem_cons_of_mem _ he)) _
      (runInvariant_step n t ev (hfull ev (List.mem_cons_self _ _)) h)

/-- C19: in every run of the calibration state machine that starts a session
(state `INIT_POINT` or `INIT_FIRST_PLANE`, the two lists of equal length) and in
which every chessboard found has 12 corners, for the 5 × 4 chessboard:
`addPointPair` appends twelve pairs to both lists or leaves the machine as it
was; every call of `kpt->calibrate` gets lists of equal length with at least 120
pairs acquired in the run, hence at least 6; both lists hold twelve pairs per
successful acquisition; and the state `COMPUTE` is reached only after ten
successful acquisitions. -/
theorem calibrate_called_with_full_boards (c : AutoCalibration) (events : List CalibEvent)
    (hboard : (c.chessboardX - 1) * (c.chessboardY - 1) = 12)
    (hstart : c.autoCalibState = AutoCalibState.INIT_POINT ∨
      c.autoCalibState = AutoCalibState.INIT_FIRST_PLANE)
    (hlen : c.pairsZed.length = c.pairsProjector.length)
    (hcorners : ∀ ev ∈ events, FullBoard ev) :
    (∀ (sensor : ZedProjector) (cvPoints : List Vec2), cvPoints.length = 12 →
      ((addPointPair c sensor cvPoints).1 = true ∧
        (addPointPair c sensor cvPoints).2.pairsZed.length = c.pairsZed.length + 12 ∧
        (addPointPair c sensor cvPoints).2.pairsProjector.length =
          c.pairsProjector.length + 12) ∨
      ((addPointPair c sensor cvPoints).1 = false ∧ (addPointPair c sensor cvPoints).2 = c)) ∧
    (∀ call ∈ (calibrationRun c events).calls,
      call.1.length = call.2.length ∧ 6 ≤ call.1.length ∧
      c.pairsZed.length + 120 ≤ call.1.length) ∧
    (calibrationRun c events).state.pairsZed.length =
      c.pairsZed.length + 12 * (calibrationRun c events).acquisitions ∧
    (calibrationRun c events).state.pairsProjector.length =
      c.pairsProjector.length + 12 * (calibrationRun c events).acquisitions ∧
    ((calibrationRun c events).state.autoCalibState = AutoCalibState.COMPUTE →
      10 ≤ (calibrationRun c events).acquisitions) := by
  have h0 : RunInvariant c.pairsZed.length ⟨c, [], 0⟩ := by
    refine ⟨hboard, hlen, by simp, ?_, ?_, by simp⟩
    · intro h
      rcases hstart with h1 | h1 <;> rw [h1] at h <;> exact absurd h (by simp)
    · intro h
      rcases hstart with h1 | h1 <;> rw [h1] at h <;> exact absurd h (by simp)
  have hinv := runInvariant_foldl c.pairsZed.length events hcorners _ h0
  refine ⟨?_, ?_, hinv.total, ?_, hinv.done⟩
  · intro sensor cvPoints h12
    rcases addPointPair_spec c sensor cvPoints with ⟨a1, a2, a3, _⟩ | h
    · rw [h12] at a2 a3
      exact Or.inl ⟨a1, a2, a3⟩
    · exact Or.inr h
  · intro call hcall
    obtain ⟨e1, e2⟩ := hinv.calls call hcall
    exact ⟨e1, by omega, e2⟩
  · have e1 := hinv.same
    have e2 := hinv.total
    unfold calibrationRun
    omega

theorem demoSession_calls :
    (calibrationRun demoMachine demoSession).calls.map (fun call => (call.1.length, call.2.length))
      = [(120, 120)] := by
  decide!

/-- Witness of C19: a whole session on a 1024 × 768 projector, five low and five
high boards of twelve corners each; the solver is called once, with 120 pairs
in each list. -/
theorem calibrate_called_with_full_boards_witness :
    (∀ ev ∈ demoSession, FullBoard ev) ∧
    (calibrationRun demoMachine demoSession).calls.map
      (fun call => (call.1.length, call.2.length)) = [(120, 120)] ∧
    (∀ call ∈ (calibrationRun demoMachine demoSession).calls,
      call.1.length = call.2.length ∧ 6 ≤ call.1.length ∧
      demoMachine.pairsZed.length + 120 ≤ call.1.length) ∧
    (calibrationRun demoMachine demoSession).state.pairsZed.length =
      demoMachine.pairsZed.length + 12 * (calibrationRun demoMachine demoSession).acquisitions :=
  ⟨by decide, demoSession_calls,
   (calibrate_called_with_full_boards demoMachine demoSession (by decide) (Or.inl rfl) rfl
     (by decide)).2.1,
   (calibrate_called_with_full_boards demoMachine demoSession (by decide) (Or.inl rfl) rfl
     (by decide)).2.2.1⟩

/-! ## Theorems: the stability test and the sample statistics -/

/-- C25, counterexample: for the averaging depth `K = 2` the stored
`minNumSamples` is `(2 + 1) / 2 = 1` in integer arithmetic, while the ceiling of
`3/2` is `2`. -/
theorem minNumSamples_even_counterexample :
    (setupFramefilter (freshGrabber 2 2) 1 0 0 2 0 2 false false 2).minNumSamples = 1 ∧
    (setAveragingSlotsNumber plainDemo 2).minNumSamples = 1 ∧
    ⌈((2 : ℚ) + 1) / 2⌉₊ = 2 := by
  refine ⟨by decide, by decide, ?_⟩
  rw [Nat.ceil_eq_iff (by norm_num)]
  norm_num

/-- C25, amended: for every averaging depth `K` the value that
`setupFramefilter` and `setAveragingSlotsNumber` store in `minNumSamples` is the
integer quotient `(K + 1) / 2`, the floor of `(K + 1)/2`; it is the ceiling of
`(K + 1)/2` exactly when `K` is odd. -/
theorem minNumSamples_is_floor (g : ZedGrabber) (res : Nat) (off : ℚ)
    (minX maxX minY maxY : Nat) (sp fb : Bool) (K : Nat) :
    (setupFramefilter g res off minX maxX minY maxY sp fb K).minNumSamples = (K + 1) / 2 ∧
    (setAveragingSlotsNumber g K).minNumSamples = (K + 1) / 2 ∧
    (K + 1) / 2 = ⌊((K : ℚ) + 1) / 2⌋₊ ∧
    ((K + 1) / 2 = ⌈((K : ℚ) + 1) / 2⌉₊ ↔ K % 2 = 1) := by
  refine ⟨rfl, rfl, ?_, ?_⟩
  · have e : ((K : ℚ) + 1) / 2 = (((K + 1 : ℕ) : ℚ)) / ((2 : ℕ) : ℚ) := by
      push_cast
      ring
    rw [e, Nat.floor_div_eq_div]
  · obtain ⟨m, hm | hm⟩ := Nat.even_or_odd' K
    · subst hm
      have e1 : (2 * m + 1) / 2 = m := by omega
      have e2 : ⌈(((2 * m : ℕ) : ℚ) + 1) / 2⌉₊ = m + 1 := by
        rw [Nat.ceil_eq_iff (by omega)]
        push_cast
        constructor
        · have : (0 : ℚ) ≤ m := Nat.cast_nonneg m
          linarith
        · linarith
      rw [e1, e2]
      constructor
      · intro h
        omega
      · intro h
        omega
    · subst hm
      have e1 : (2 * m + 1 + 1) / 2 = m + 1 := by omega
      have e2 : ⌈(((2 * m + 1 : ℕ) : ℚ) + 1) / 2⌉₊ = m + 1 := by
        rw [Nat.ceil_eq_iff (by omega)]
        push_cast
        constructor
        · have : (0 : ℚ) ≤ m := Nat.cast_nonneg m
          linarith
        · linarith
      rw [e1, e2]
      constructor
      · intro _
        omega
      · intro _
        rfl

/-- C26, counterexample: the statistics `(9, 46701, 242331520)`, which
`filter()` stores for a pixel of averaging depth 17 after nine samples 5189,
against the maximum variance 4. The count is `minNumSamples`, the variance
`242331520/9 - (46701/9)^2 = 31/9` is below 4 and the inequality holds in exact
arithmetic, yet the test of `filter()` fails: it compares the binary32 values
`2180983808` and `2180983552`. -/
theorem variance_test_rounding_counterexample :
    (∀ i, i < 3 →
      (filterCycles (steadyFrames 5189) 9 (onePixelDemo 17)).statBuffer i = roundedStats i) ∧
    0 < roundedStats (3 * 0) ∧
    ((onePixelDemo 17).minNumSamples : ℚ) ≤ roundedStats (3 * 0) ∧
    roundedStats (3 * 0 + 2) / roundedStats (3 * 0) -
      (roundedStats (3 * 0 + 1) / roundedStats (3 * 0)) ^ 2 = 31 / 9 ∧
    (31 : ℚ) / 9 ≤ (onePixelDemo 17).maxVariance ∧
    roundedStats (3 * 0 + 2) * roundedStats (3 * 0) ≤
      (onePixelDemo 17).maxVariance * roundedStats (3 * 0) * roundedStats (3 * 0) +
        roundedStats (3 * 0 + 1) * roundedStats (3 * 0 + 1) ∧
    isStable (onePixelDemo 17) roundedStats 0 = false := by
  refine ⟨?_, by decide!, by decide!, by decide!, by decide!, by decide!, by decide!⟩
  intro i hi
  interval_cases i <;> decide!

/-- C26 (as amended): for a positive sample count the inequality
`sumSq * count ≤ maxVariance * count * count + sum * sum` holds exactly when the
variance `sumSq/count - (sum/count)^2` is at most `maxVariance`. `filter()`
evaluates the inequality in binary32; when that involves no rounding (the
converted `minNumSamples`, the four products and the sum are binary32 numbers),
its stability test holds exactly when `count ≥ minNumSamples` and the variance
is at most `maxVariance`. -/
theorem variance_test_is_variance_bound (g : ZedGrabber) (stat : Nat → ℚ) (p : Nat)
    (hpos : 0 < stat (3 * p)) :
    (stat (3 * p + 2) * stat (3 * p) ≤
        g.maxVariance * stat (3 * p) * stat (3 * p) + stat (3 * p + 1) * stat (3 * p + 1) ↔
      stat (3 * p + 2) / stat (3 * p) - (stat (3 * p + 1) / stat (3 * p)) ^ 2 ≤
        g.maxVariance) ∧
    (TestExact g stat p →
      (isStable g stat p = true ↔
        (g.minNumSamples : ℚ) ≤ stat (3 * p) ∧
        stat (3 * p + 2) / stat (3 * p) - (stat (3 * p + 1) / stat (3 * p)) ^ 2 ≤
          g.maxVariance)) := by
  have hne : stat (3 * p) ≠ 0 := ne_of_gt hpos
  have hsq : 0 < stat (3 * p) * stat (3 * p) := mul_pos hpos hpos
  have e : stat (3 * p + 2) / stat (3 * p) - (stat (3 * p + 1) / stat (3 * p)) ^ 2 =
      (stat (3 * p + 2) * stat (3 * p) - stat (3 * p + 1) * stat (3 * p + 1)) /
        (stat (3 * p) * stat (3 * p)) := by
    field_simp
    ring
  have key : stat (3 * p + 2) * stat (3 * p) ≤
        g.maxVariance * stat (3 * p) * stat (3 * p) + stat (3 * p + 1) * stat (3 * p + 1) ↔
      stat (3 * p + 2) / stat (3 * p) - (stat (3 * p + 1) / stat (3 * p)) ^ 2 ≤
        g.maxVariance := by
    rw [e, div_le_iff₀ hsq]
    constructor <;> intro h <;> linarith
  refine ⟨key, ?_⟩
  rintro ⟨t1, t2, t3, t4, t5, t6⟩
  simp only [isStable, Bool.and_eq_true, decide_eq_true_eq]
  rw [t1, t2, t3, t4, t5, t6, key]

/-- Witness of C26: the one-pixel grabber of averaging depth 15
(`minNumSamples` 8) after eight cycles on samples that alternate between 1002
and 1000. Its statistics are `(8, 8008, 8016016)`, of variance 1; every value of
the test is a binary32 number, the test passes and the variance is below the
maximum variance 4 of `setupFramefilter`. -/
theorem variance_test_is_variance_bound_witness :
    (filterCycles closeFrames 8 (onePixelDemo 15)).statBuffer (3 * 0) = 8 ∧
    (filterCycles closeFrames 8 (onePixelDemo 15)).statBuffer (3 * 0 + 1) = 8008 ∧
    (filterCycles closeFrames 8 (onePixelDemo 15)).statBuffer (3 * 0 + 2) = 8016016 ∧
    0 < (filterCycles closeFrames 8 (onePixelDemo 15)).statBuffer (3 * 0) ∧
    TestExact (filterCycles closeFrames 8 (onePixelDemo 15))
      (filterCycles closeFrames 8 (onePixelDemo 15)).statBuffer 0 ∧
    isStable (filterCycles closeFrames 8 (onePixelDemo 15))
      (filterCycles closeFrames 8 (onePixelDemo 15)).statBuffer 0 = true ∧
    (filterCycles closeFrames 8 (onePixelDemo 15)).statBuffer (3 * 0 + 2) /
        (filterCycles closeFrames 8 (onePixelDemo 15)).statBuffer (3 * 0) -
      ((filterCycles closeFrames 8 (onePixelDemo 15)).statBuffer (3 * 0 + 1) /
        (filterCycles closeFrames 8 (onePixelDemo 15)).statBuffer (3 * 0)) ^ 2 = 1 ∧
    (isStable (filterCycles closeFrames 8 (onePixelDemo 15))
        (filterCycles closeFrames 8 (onePixelDemo 15)).statBuffer 0 = true ↔
      ((filterCycles closeFrames 8 (onePixelDemo 15)).minNumSamples : ℚ) ≤
        (filterCycles closeFrames 8 (onePixelDemo 15)).statBuffer (3 * 0) ∧
      (filterCycles closeFrames 8 (onePixelDemo 15)).statBuffer (3 * 0 + 2) /
          (filterCycles closeFrames 8 (onePixelDemo 15)).statBuffer (3 * 0) -
        ((filterCycles closeFrames 8 (onePixelDemo 15)).statBuffer (3 * 0 + 1) /
          (filterCycles closeFrames 8 (onePixelDemo 15)).statBuffer (3 * 0)) ^ 2 ≤
        (filterCycles closeFrames 8 (onePixelDemo 15)).maxVariance) :=
  ⟨by decide!, by decide!, by decide!, by decide!, by decide!, by decide!, by decide!,
   (variance_test_is_variance_bound (filterCycles closeFrames 8 (onePixelDemo 15))
    (filterCycles closeFrames 8 (onePixelDemo 15)).statBuffer 0 (by decide!)).2 (by decide!)⟩

/-- C24, the code at two failing inputs, one pixel with the big-change override
on, raw depth 5000 on the first cycle and 5020 on the second, where the override
fires. With depth `K = 2` both slots hold 5020 but the statistics count 3
samples, `(3, 3*5020, 3*5020^2)`; with depth `K = 1` the slot holds 5020 but the
statistics are `(1, 5040, 2*5020^2 - 5000^2)`, a mean of 5040: after the reset
the cycle still adds the sample and takes out the value the slot held. -/
theorem bigChange_statistics_mismatch :
    bigChangeFires (filterCycles jumpFrames 1 pairDemo)
      (filterCycles jumpFrames 1 pairDemo).statBuffer 0 5020 = true ∧
    (pixelView (filterCycles jumpFrames 2 pairDemo) 0).slots 0 = 5020 ∧
    (pixelView (filterCycles jumpFrames 2 pairDemo) 0).slots 1 = 5020 ∧
    (pixelView (filterCycles jumpFrames 2 pairDemo) 0).n = 3 ∧
    (pixelView (filterCycles jumpFrames 2 pairDemo) 0).s = 3 * 5020 ∧
    (pixelView (filterCycles jumpFrames 2 pairDemo) 0).q = 3 * 5020 ^ 2 ∧
    bigChangeFires (filterCycles jumpFrames 1 driftDemo)
      (filterCycles jumpFrames 1 driftDemo).statBuffer 0 5020 = true ∧
    (pixelView (filterCycles jumpFrames 2 driftDemo) 0).slots 0 = 5020 ∧
    (pixelView (filterCycles jumpFrames 2 driftDemo) 0).n = 1 ∧
    (pixelView (filterCycles jumpFrames 2 driftDemo) 0).s = 5040 ∧
    (pixelView (filterCycles jumpFrames 2 driftDemo) 0).q = 2 * 5020 ^ 2 - 5000 ^ 2 := by
  refine ⟨?_, ?_, ?_, ?_, ?_, ?_, ?_, ?_, ?_, ?_, ?_⟩ <;> decide!

/-! ## Theorems: the axis of the plane fitter -/

/-- C28: for every input of `plane_from_points` the three determinants are not
negative, so the signed maximum `det_max` is the largest absolute value; the
vector `dir` is set by the first of the three axis branches whose determinant
equals `det_max` (x, else y, else z), never left to the error branch, and the
determinant of that branch is at least the other two in absolute value; from
three points on, unless `det_max` is zero, the result is the plane equation of
the centroid and that vector. -/
theorem plane_axis_has_largest_determinant (points : List Vec3) :
    0 ≤ detX (covarianceOf points) ∧ 0 ≤ detY (covarianceOf points) ∧
    0 ≤ detZ (covarianceOf points) ∧
    ((detMax (covarianceOf points) = detX (covarianceOf points) ∧
        planeDirection (covarianceOf points) =
          ⟨1,
           ((covarianceOf points).xz * (covarianceOf points).yz -
              (covarianceOf points).xy * (covarianceOf points).zz) / detX (covarianceOf points),
           ((covarianceOf points).xy * (covarianceOf points).yz -
              (covarianceOf points).xz * (covarianceOf points).yy) / detX (covarianceOf points)⟩ ∧
        |detY (covarianceOf points)| ≤ |detX (covarianceOf points)| ∧
        |detZ (covarianceOf points)| ≤ |detX (covarianceOf points)|) ∨
     (detMax (covarianceOf points) ≠ detX (covarianceOf points) ∧
        detMax (covarianceOf points) = detY (covarianceOf points) ∧
        planeDirection (covarianceOf points) =
          ⟨((covarianceOf points).yz * (covarianceOf points).xz -
              (covarianceOf points).xy * (covarianceOf points).zz) / detY (covarianceOf points),
           1,
           ((covarianceOf points).xy * (covarianceOf points).xz -
              (covarianceOf points).yz * (covarianceOf points).xx) / detY (covarianceOf points)⟩ ∧
        |detX (covarianceOf points)| ≤ |detY (covarianceOf points)| ∧
        |detZ (covarianceOf points)| ≤ |detY (covarianceOf points)|) ∨
     (detMax (covarianceOf points) ≠ detX (covarianceOf points) ∧
        detMax (covarianceOf points) ≠ detY (covarianceOf points) ∧
        detMax (covarianceOf points) = detZ (covarianceOf points) ∧
        planeDirection (covarianceOf points) =
          ⟨((covarianceOf points).yz * (covarianceOf points).xy -
              (covarianceOf points).xz * (covarianceOf points).yy) / detZ (covarianceOf points),
           ((covarianceOf points).xz * (covarianceOf points).xy -
              (covarianceOf points).yz * (covarianceOf points).xx) / detZ (covarianceOf points),
           1⟩ ∧
        |detX (covarianceOf points)| ≤ |detZ (covarianceOf points)| ∧
        |detY (covarianceOf points)| ≤ |detZ (covarianceOf points)|)) ∧
    (3 ≤ points.length → detMax (covarianceOf points) ≠ 0 →
      plane_from_points points =
        getPlaneEquation (centroidOf points) (planeDirection (covarianceOf points))) := by
  have hpsd := quadForm_nonneg points
  have hx := detX_nonneg_of_psd _ hpsd
  have hy := detY_nonneg_of_psd _ hpsd
  have hz := detZ_nonneg_of_psd _ hpsd
  have hmx : detX (covarianceOf points) ≤ detMax (covarianceOf points) := le_max_left _ _
  have hmy : detY (covarianceOf points) ≤ detMax (covarianceOf points) :=
    le_trans (le_max_left _ _) (le_max_right _ _)
  have hmz : detZ (covarianceOf points) ≤ detMax (covarianceOf points) :=
    le_trans (le_max_right _ _) (le_max_right _ _)
  refine ⟨hx, hy, hz, ?_, ?_⟩
  · by_cases h1 : detMax (covarianceOf points) = detX (covarianceOf points)
    · left
      refine ⟨h1, ?_, ?_, ?_⟩
      · simp only [planeDirection, if_pos h1]
      · rw [abs_of_nonneg hy, abs_of_nonneg hx, ← h1]; exact hmy
      · rw [abs_of_nonneg hz, abs_of_nonneg hx, ← h1]; exact hmz
    · by_cases h2 : detMax (covarianceOf points) = detY (covarianceOf points)
      · right; left
        refine ⟨h1, h2, ?_, ?_, ?_⟩
        · simp only [planeDirection, if_neg h1, if_pos h2]
        · rw [abs_of_nonneg hx, abs_of_nonneg hy, ← h2]; exact hmx
        · rw [abs_of_nonneg hz, abs_of_nonneg hy, ← h2]; exact hmz
      · have h3 : detMax (covarianceOf points) = detZ (covarianceOf points) := by
          rcases detMax_cases (covarianceOf points) with h | h | h
          · exact absurd h h1
          · exact absurd h h2
          · exact h
        right; right
        refine ⟨h1, h2, h3, ?_, ?_, ?_⟩
        · simp only [planeDirection, if_neg h1, if_neg h2, if_pos h3]
        · rw [abs_of_nonneg hx, abs_of_nonneg hz, ← h3]; exact hmx
        · rw [abs_of_nonneg hy, abs_of_nonneg hz, ← h3]; exact hmy
  · intro hlen hdet
    unfold plane_from_points
    rw [if_neg (by omega), if_neg hdet]

/-- Witness of C28: the four points `(0,0,0)`, `(1,0,0)`, `(0,1,0)`, `(1,1,1)`,
with determinants `1/2`, `1/2`, `1`: the z branch is taken, `dir` is
`(-1/2, -1/2, 1)`, and the result is the plane equation of the centroid and
`dir`. -/
theorem plane_axis_has_largest_determinant_witness :
    3 ≤ cornerPoints.length ∧ detMax (covarianceOf cornerPoints) ≠ 0 ∧
    detX (covarianceOf cornerPoints) = 1 / 2 ∧ detY (covarianceOf cornerPoints) = 1 / 2 ∧
    detZ (covarianceOf cornerPoints) = 1 ∧
    planeDirection (covarianceOf cornerPoints) = ⟨-1 / 2, -1 / 2, 1⟩ ∧
    plane_from_points cornerPoints =
      getPlaneEquation (centroidOf cornerPoints) (planeDirection (covarianceOf cornerPoints)) :=
  ⟨by decide, by decide!, by decide!, by decide!, by decide!, by decide!,
   (plane_axis_has_largest_determinant cornerPoints).2.2.2.2 (by decide) (by decide!)⟩

/-! ## Theorems: the size of the gradient field -/

/-- C29, the code at a failing input: a 4 × 4 grabber set up with gradient
resolution 1 has a 4 × 4 gradient field; after `setGradFieldResolution(2)` the
resolution is 2 but `gradFieldcols` and `gradFieldrows` are still 4, not
`4 / 2 = 2`. -/
theorem gradient_field_size_mismatch :
    coarseDemo.width = 4 ∧ coarseDemo.height = 4 ∧ coarseDemo.gradFieldresolution = 2 ∧
    coarseDemo.gradFieldcols = 4 ∧ coarseDemo.gradFieldrows = 4 ∧
    coarseDemo.width / coarseDemo.gradFieldresolution = 2 ∧
    coarseDemo.height / coarseDemo.gradFieldresolution = 2 := by
  decide

/-! ## Theorems: the matrix of a loaded calibration -/

/-- C30, the code at a failing input: a toolkit calibrated with the coefficients
`(1,0,0,0, 0,1,0,0, 0,0,1)` holds a matrix whose last entry is 1; saving it and
loading the file back succeeds, restores the coefficients and installs a
matrix whose last entry is 0. For every coefficient vector the two matrices
agree in the other fifteen entries and differ in the last. -/
theorem loaded_matrix_mismatch :
    calibrate (fun _ => demoCoeffs) freshToolkit demoWorld demoDisplay = some calibratedToolkit ∧
    (loadCalibration calibratedToolkit (some (saveCalibration calibratedToolkit))).1 = true ∧
    (loadCalibration calibratedToolkit (some (saveCalibration calibratedToolkit))).2.x =
      calibratedToolkit.x ∧
    calibratedToolkit.projMatrice.col3.w = 1 ∧
    (loadCalibration calibratedToolkit
      (some (saveCalibration calibratedToolkit))).2.projMatrice.col3.w = 0 ∧
    ∀ x : Vec11,
      (loadedMatrix x).col0 = (calibratedMatrix x).col0 ∧
      (loadedMatrix x).col1 = (calibratedMatrix x).col1 ∧
      (loadedMatrix x).col2 = (calibratedMatrix x).col2 ∧
      (loadedMatrix x).col3.x = (calibratedMatrix x).col3.x ∧
      (loadedMatrix x).col3.y = (calibratedMatrix x).col3.y ∧
      (loadedMatrix x).col3.z = (calibratedMatrix x).col3.z ∧
      (loadedMatrix x).col3.w = 0 ∧ (calibratedMatrix x).col3.w = 1 := by
  refine ⟨?_, by decide!, by decide!, by decide!, by decide!, ?_⟩
  · rw [calibrate, demoSystem_built]
    rfl
  intro x
  exact ⟨rfl, rfl, rfl, rfl, rfl, rfl, rfl, rfl⟩

/-! ## Theorems: the correspondence lists across sessions -/

theorem addPointPair_appends (c : AutoCalibration) (sensor : ZedProjector)
    (cvPoints : List Vec2) :
    (∃ more, (addPointPair c sensor cvPoints).2.pairsZed = c.pairsZed ++ more) ∧
    (∃ more, (addPointPair c sensor cvPoints).2.pairsProjector = c.pairsProjector ++ more) := by
  unfold addPointPair
  split_ifs
  · exact ⟨⟨_, rfl⟩, ⟨_, rfl⟩⟩
  · exact ⟨⟨[], (List.append_nil _).symm⟩, ⟨[], (List.append_nil _).symm⟩⟩

theorem nextPoint_appends (c : AutoCalibration) (f : CalibFrame) :
    (∃ more, (nextPoint c f).1.pairsZed = c.pairsZed ++ more) ∧
    (∃ more, (nextPoint c f).1.pairsProjector = c.pairsProjector ++ more) := by
  obtain ⟨r1, r2, _⟩ := retryBoard_fields c 4 5
  obtain ⟨q1, q2, _⟩ := retryBoard_fields c 3 4
  have keep : ∀ d : AutoCalibration, d.pairsZed = c.pairsZed →
      d.pairsProjector = c.pairsProjector →
      (∃ more, d.pairsZed = c.pairsZed ++ more) ∧
      (∃ more, d.pairsProjector = c.pairsProjector ++ more) := fun d h1 h2 =>
    ⟨⟨[], by rw [h1, List.append_nil]⟩, ⟨[], by rw [h2, List.append_nil]⟩⟩
  unfold nextPoint
  by_cases h1 : c.currentCalibPts < 5 ∨ (c.upframe = true ∧ c.currentCalibPts < 10)
  · rw [if_pos h1]
    by_cases h2 : f.foundChessboard = true
    · rw [if_pos h2]
      by_cases h3 : c.cleared = true
      · rw [if_pos h3]
        by_cases h4 : (addPointPair c f.sensor f.cvPoints).1 = true
        · rw [if_pos h4]
          exact addPointPair_appends c f.sensor f.cvPoints
        · rw [if_neg h4]
          exact keep _ r1 r2
      · rw [if_neg h3]
        exact keep _ rfl rfl
    · rw [if_neg h2]
      by_cases h3 : c.cleared = false
      · rw [if_pos h3]
        exact keep _ rfl rfl
      · rw [if_neg h3]
        exact keep _ q1 q2
  · rw [if_neg h1]
    by_cases h2 : c.upframe = true
    · rw [if_pos h2]
      exact keep _ rfl rfl
    · rw [if_neg h2]
      exact keep _ rfl rfl

theorem calibStep_appends (c : AutoCalibration) (ev : CalibEvent) :
    (∃ more, (calibStep c ev).1.pairsZed = c.pairsZed ++ more) ∧
    (∃ more, (calibStep c ev).1.pairsProjector = c.pairsProjector ++ more) ∧
    (∀ call, (calibStep c ev).2.call = some call → call = (c.pairsZed, c.pairsProjector)) := by
  have keep : ∀ d : AutoCalibration, d.pairsZed = c.pairsZed →
      d.pairsProjector = c.pairsProjector →
      (∃ more, d.pairsZed = c.pairsZed ++ more) ∧
      (∃ more, d.pairsProjector = c.pairsProjector ++ more) := fun d h1 h2 =>
    ⟨⟨[], by rw [h1, List.append_nil]⟩, ⟨[], by rw [h2, List.append_nil]⟩⟩
  cases ev with
  | update f =>
    cases hst : c.autoCalibState with
    | INIT_FIRST_PLANE =>
      simp only [calibStep, updateProjZedAutoCalibration, hst]
      split_ifs
      · exact ⟨(keep _ rfl rfl).1, (keep _ rfl rfl).2, by simp⟩
      · exact ⟨(keep _ rfl rfl).1, (keep _ rfl rfl).2, by simp⟩
    | INIT_POINT =>
      simp only [calibStep, updateProjZedAutoCalibration, hst]
      split_ifs
      · exact ⟨(keep (initPoint c) rfl rfl).1, (keep (initPoint c) rfl rfl).2, by simp⟩
      · exact ⟨(keep _ rfl rfl).1, (keep _ rfl rfl).2, by simp⟩
    | NEXT_POINT =>
      simp only [calibStep, updateProjZedAutoCalibration, hst]
      split_ifs
      · exact ⟨(nextPoint_appends c f).1, (nextPoint_appends c f).2, by simp⟩
      · exact ⟨(keep _ rfl rfl).1, (keep _ rfl rfl).2, by simp⟩
    | COMPUTE =>
      simp only [calibStep, updateProjZedAutoCalibration, hst]
      split_ifs
      · exact ⟨(keep _ rfl rfl).1, (keep _ rfl rfl).2, by simp⟩
      · refine ⟨(keep _ rfl rfl).1, (keep _ rfl rfl).2, ?_⟩
        intro call h
        simp only [Option.some.injEq] at h
        exact h.symm
    | DONE =>
      simp only [calibStep, updateProjZedAutoCalibration, hst]
      exact ⟨(keep _ rfl rfl).1, (keep _ rfl rfl).2, by simp⟩
  | confirm armed =>
    simp only [calibStep]
    split_ifs
    · exact ⟨(keep _ rfl rfl).1, (keep _ rfl rfl).2, by simp⟩
    · exact ⟨(keep _ rfl rfl).1, (keep _ rfl rfl).2, by simp⟩
  | startAutomatic =>
    simp only [calibStep]
    exact ⟨(keep _ rfl rfl).1, (keep _ rfl rfl).2, by simp⟩
  | startFull =>
    simp only [calibStep]
    exact ⟨(keep _ rfl rfl).1, (keep _ rfl rfl).2, by simp⟩

theorem calibrationRun_appends (bz : List Vec3) (bp : List Vec2) (events : List CalibEvent) :
    ∀ t : CalibTrace,
      ((∃ more, t.state.pairsZed = bz ++ more) ∧
       (∃ more, t.state.pairsProjector = bp ++ more) ∧
       ∀ call ∈ t.calls, (∃ more, call.1 = bz ++ more) ∧ (∃ more, call.2 = bp ++ more)) →
      ((∃ more, (events.foldl traceStep t).state.pairsZed = bz ++ more) ∧
       (∃ more, (events.foldl traceStep t).state.pairsProjector = bp ++ more) ∧
       ∀ call ∈ (events.foldl traceStep t).calls,
         (∃ more, call.1 = bz ++ more) ∧ (∃ more, call.2 = bp ++ more)) := by
  induction events with
  | nil => exact fun t h => h
  | cons ev rest ih =>
    intro t h
    obtain ⟨⟨m1, h1⟩, ⟨m2, h2⟩, h3⟩ := h
    obtain ⟨⟨a1, e1⟩, ⟨a2, e2⟩, e3⟩ := calibStep_appends t.state ev
    simp only [List.foldl_cons]
    apply ih
    refine ⟨⟨m1 ++ a1, ?_⟩, ⟨m2 ++ a2, ?_⟩, ?_⟩
    · show (calibStep t.state ev).1.pairsZed = bz ++ (m1 ++ a1)
      rw [e1, h1, List.append_assoc]
    · show (calibStep t.state ev).1.pairsProjector = bp ++ (m2 ++ a2)
      rw [e2, h2, List.append_assoc]
    · intro call hcall
      simp only [traceStep] at hcall
      cases hc : (calibStep t.state ev).2.call with
      | none =>
        rw [hc] at hcall
        exact h3 call hcall
      | some made =>
        rw [hc] at hcall
        simp only [List.mem_cons] at hcall
        rcases hcall with rfl | hcall
        · rw [e3 call hc]
          exact ⟨⟨m1, h1⟩, ⟨m2, h2⟩⟩
        · exact h3 call hcall

/-- C21, counterexample: a whole session (ten boards, one call of the solver
with 120 pairs), then `startAutomaticZedProjectorCalibration`, then the same
session again. At the start of the second session both lists hold 120 pairs,
and its call of the solver gets 240 pairs, of which the second session acquired
120. -/
theorem pairs_kept_across_sessions_counterexample :
    (calibrationRun demoMachine (demoSession ++ [CalibEvent.startAutomatic])).state.autoCalibState
      = AutoCalibState.INIT_POINT ∧
    (calibrationRun demoMachine
      (demoSession ++ [CalibEvent.startAutomatic])).state.pairsZed.length = 120 ∧
    (calibrationRun demoMachine
      (demoSession ++ [CalibEvent.startAutomatic])).state.pairsProjector.length = 120 ∧
    (calibrationRun demoMachine twoSessions).calls.map
      (fun call => (call.1.length, call.2.length)) = [(240, 240), (120, 120)] ∧
    (calibrationRun demoMachine twoSessions).acquisitions = 20 := by
  refine ⟨?_, ?_, ?_, ?_, ?_⟩ <;> decide!

/-- C21, amended: the correspondence lists are never cleared. Neither start of
a session changes them, every step of the machine only appends to them, and so
after every run both lists, and the lists of every call of the solver, begin
with the pairs that were there when the run started. -/
theorem pairs_are_never_cleared (c : AutoCalibration) (events : List CalibEvent) :
    (calibStep c CalibEvent.startAutomatic).1.pairsZed = c.pairsZed ∧
    (calibStep c CalibEvent.startAutomatic).1.pairsProjector = c.pairsProjector ∧
    (calibStep c CalibEvent.startFull).1.pairsZed = c.pairsZed ∧
    (calibStep c CalibEvent.startFull).1.pairsProjector = c.pairsProjector ∧
    (∃ more, (calibrationRun c events).state.pairsZed = c.pairsZed ++ more) ∧
    (∃ more, (calibrationRun c events).state.pairsProjector = c.pairsProjector ++ more) ∧
    ∀ call ∈ (calibrationRun c events).calls,
      (∃ more, call.1 = c.pairsZed ++ more) ∧ (∃ more, call.2 = c.pairsProjector ++ more) := by
  refine ⟨rfl, rfl, rfl, rfl, ?_⟩
  exact calibrationRun_appends c.pairsZed c.pairsProjector events ⟨c, [], 0⟩
    ⟨⟨[], (List.append_nil _).symm⟩, ⟨[], (List.append_nil _).symm⟩, by simp⟩

/-! ## Theorems: the queue of the producer thread -/

theorem startThreads_invariant (g : ZedGrabber) : ThreadsInvariant (startThreads g) := by
  refine ⟨?_, ?_, rfl, ?_, ?_, ?_⟩
  · simp [startThreads, ProducerInBlock]
  · simp [startThreads, CallerInBlock]
  · intro k h; simp [startThreads] at h
  · intro h; simp [startThreads] at h
  · intro img entered h; simp [startThreads] at h

theorem drop_eq_cons_of_getElem {α : Type} (l : List α) (k : Nat) (a : α)
    (h : l[k]? = some a) : l.drop k = a :: l.drop (k + 1) := by
  induction l generalizing k with
  | nil => simp at h
  | cons x xs ih =>
    cases k with
    | zero =>
      simp at h
      simp [h]
    | succ k =>
      simp at h
      simpa using ih k h

theorem producerStep_invariant (s : Threads) (frame : Option (Nat → Nat))
    (h : ThreadsInvariant s) : ThreadsInvariant (producerStep s frame) := by
  obtain ⟨h1, h2, h3, h4, h5, h6⟩ := h
  unfold producerStep
  cases hp : s.producer with
  | locking =>
    simp only
    by_cases hl : s.actionsLock = none
    · rw [if_pos hl]
      have hc : ¬ CallerInBlock s := fun hc => by
        have := h2.2 hc
        rw [hl] at this
        exact Option.noConfusion this
      refine ⟨?_, ?_, ?_, ?_, ?_, ?_⟩
      · simp [ProducerInBlock]
      · constructor
        · intro hx; simp at hx
        · intro hx; exact absurd hx hc
      · rw [h3]; simp [pendingActions, hp]
      · intro k hk
        simp only [ProducerAt.applying.injEq] at hk
        omega
      · intro hx; simp at hx
      · intro img entered hx; simp at hx
    · rw [if_neg hl]
      exact ⟨h1, h2, h3, h4, h5, h6⟩
  | applying k =>
    simp only
    have hk := h4 k hp
    have hlock : s.actionsLock = some ThreadId.producer := h1.2 (Or.inl ⟨k, hp⟩)
    have hc : ¬ CallerInBlock s := fun hc => by
      have := h2.2 hc
      rw [hlock] at this
      simp at this
    have hpend : pendingActions s = s.actions.drop k := by simp [pendingActions, hp]
    cases ha : s.actions[k]? with
    | some action =>
      simp only
      have hlt : k < s.actions.length := by
        by_contra hc2
        have : s.actions[k]? = none := List.getElem?_eq_none (by omega)
        rw [this] at ha
        exact Option.noConfusion ha
      refine ⟨?_, ?_, ?_, ?_, ?_, ?_⟩
      · constructor
        · intro _; exact Or.inl ⟨k + 1, rfl⟩
        · intro _; exact hlock
      · constructor
        · intro hx; rw [hlock] at hx; simp at hx
        · intro hx; exact absurd hx hc
      · show s.pushed = (s.called ++ [action]) ++ s.actions.drop (k + 1)
        rw [h3, hpend, drop_eq_cons_of_getElem s.actions k action ha]
        simp
      · intro j hj
        simp only [ProducerAt.applying.injEq] at hj
        show j ≤ s.actions.length
        omega
      · intro hx; simp at hx
      · intro img entered hx; simp at hx
    | none =>
      simp only
      have hge : s.actions.length ≤ k := by
        by_contra hc2
        have hlt : k < s.actions.length := by omega
        have : s.actions[k]? = some s.actions[k] := List.getElem?_eq_getElem hlt
        rw [this] at ha
        exact Option.noConfusion ha
      refine ⟨?_, ?_, ?_, ?_, ?_, ?_⟩
      · constructor
        · intro _; exact Or.inr rfl
        · intro _; exact hlock
      · constructor
        · intro hx; rw [hlock] at hx; simp at hx
        · intro hx; exact absurd hx hc
      · show s.pushed = s.called ++ []
        rw [h3, hpend, List.drop_eq_nil_of_le hge]
      · intro j hj; simp at hj
      · intro _; rfl
      · intro img entered hx; simp at hx
  | unlocking =>
    simp only
    have hlock : s.actionsLock = some ThreadId.producer := h1.2 (Or.inr hp)
    have hc : ¬ CallerInBlock s := fun hc => by
      have := h2.2 hc
      rw [hlock] at this
      simp at this
    refine ⟨?_, ?_, ?_, ?_, ?_, ?_⟩
    · simp [ProducerInBlock]
    · constructor
      · intro hx; simp at hx
      · intro hx; exact absurd hx hc
    · rw [h3]; simp [pendingActions, hp]
    · intro j hj; simp at hj
    · intro hx; simp at hx
    · intro img entered hx; simp at hx
  | grabbing =>
    simp only
    have hnp : ¬ ProducerInBlock s := by
      rintro (⟨k, hk⟩ | hk)
      · rw [hp] at hk; exact ProducerAt.noConfusion hk
      · rw [hp] at hk; exact ProducerAt.noConfusion hk
    cases frame with
    | some img =>
      simp only
      refine ⟨?_, h2, ?_, ?_, ?_, ?_⟩
      · constructor
        · intro hx; exact absurd (h1.1 hx) hnp
        · rintro (⟨k, hk⟩ | hk)
          · simp at hk
          · simp at hk
      · rw [h3]; simp [pendingActions, hp]
      · intro j hj; simp at hj
      · intro hx; simp at hx
      · intro img2 entered hx
        simp only [ProducerAt.filtering.injEq] at hx
        exact hx.2
    | none =>
      simp only
      refine ⟨?_, h2, ?_, ?_, ?_, ?_⟩
      · constructor
        · intro hx; exact absurd (h1.1 hx) hnp
        · rintro (⟨k, hk⟩ | hk)
          · simp at hk
          · simp at hk
      · rw [h3]; simp [pendingActions, hp]
      · intro j hj; simp at hj
      · intro hx; simp at hx
      · intro img2 entered hx; simp at hx
  | filtering img entered =>
    simp only
    have hnp : ¬ ProducerInBlock s := by
      rintro (⟨k, hk⟩ | hk)
      · rw [hp] at hk; exact ProducerAt.noConfusion hk
      · rw [hp] at hk; exact ProducerAt.noConfusion hk
    refine ⟨?_, h2, ?_, ?_, ?_, ?_⟩
    · constructor
      · intro hx; exact absurd (h1.1 hx) hnp
      · rintro (⟨k, hk⟩ | hk)
        · simp at hk
        · simp at hk
    · rw [h3]; simp [pendingActions, hp]
    · intro j hj; simp at hj
    · intro hx; simp at hx
    · intro img2 entered2 hx; simp at hx

theorem callerStep_invariant (s : Threads) (request : Option (ZedGrabber → ZedGrabber))
    (h : ThreadsInvariant s) : ThreadsInvariant (callerStep s request) := by
  obtain ⟨h1, h2, h3, h4, h5, h6⟩ := h
  unfold callerStep
  cases hc : s.caller with
  | idle =>
    simp only
    have hnc : ¬ CallerInBlock s := by
      rintro (⟨a, ha⟩ | ha)
      · rw [hc] at ha; exact CallerAt.noConfusion ha
      · rw [hc] at ha; exact CallerAt.noConfusion ha
    cases request with
    | none => exact ⟨h1, h2, h3, h4, h5, h6⟩
    | some action =>
      simp only
      refine ⟨h1, ?_, h3, h4, h5, h6⟩
      constructor
      · intro hx; exact absurd (h2.1 hx) hnc
      · rintro (⟨a, ha⟩ | ha)
        · simp at ha
        · simp at ha
  | locking action =>
    simp only
    by_cases hl : s.actionsLock = none
    · rw [if_pos hl]
      have hnp : ¬ ProducerInBlock s := fun hp => by
        have := h1.2 hp
        rw [hl] at this
        exact Option.noConfusion this
      refine ⟨?_, ?_, h3, h4, h5, h6⟩
      · constructor
        · intro hx; simp at hx
        · intro hx; exact absurd hx hnp
      · constructor
        · intro _; exact Or.inl ⟨action, rfl⟩
        · intro _; rfl
    · rw [if_neg hl]
      exact ⟨h1, h2, h3, h4, h5, h6⟩
  | pushing action =>
    simp only
    have hlock : s.actionsLock = some ThreadId.caller := h2.2 (Or.inl ⟨action, hc⟩)
    have hnp : ¬ ProducerInBlock s := fun hp => by
      have := h1.2 hp
      rw [hlock] at this
      simp at this
    have hpend : pendingActions s = s.actions := by
      unfold pendingActions
      cases hp : s.producer with
      | applying k => exact absurd (Or.inl ⟨k, hp⟩) hnp
      | locking => rfl
      | unlocking => rfl
      | grabbing => rfl
      | filtering img entered => rfl
    refine ⟨?_, ?_, ?_, ?_, ?_, h6⟩
    · constructor
      · intro hx; exact absurd (h1.1 hx) hnp
      · intro hx; exact absurd hx hnp
    · constructor
      · intro _; exact Or.inr rfl
      · intro _; exact hlock
    · show s.pushed ++ [action] = s.called ++ pendingActions
        { s with actions := s.actions ++ [action], caller := CallerAt.unlocking,
                 pushed := s.pushed ++ [action] }
      have hpend2 : pendingActions
          { s with actions := s.actions ++ [action], caller := CallerAt.unlocking,
                   pushed := s.pushed ++ [action] } = s.actions ++ [action] := by
        unfold pendingActions
        cases hp : s.producer with
        | applying k => exact absurd (Or.inl ⟨k, hp⟩) hnp
        | locking => simp [hp]
        | unlocking => simp [hp]
        | grabbing => simp [hp]
        | filtering img entered => simp [hp]
      rw [hpend2, h3, hpend, List.append_assoc]
    · intro k hk
      exact absurd (Or.inl ⟨k, hk⟩) hnp
    · intro hx
      exact absurd (Or.inr hx) hnp
  | unlocking =>
    simp only
    have hlock : s.actionsLock = some ThreadId.caller := h2.2 (Or.inr hc)
    have hnp : ¬ ProducerInBlock s := fun hp => by
      have := h1.2 hp
      rw [hlock] at this
      simp at this
    refine ⟨?_, ?_, h3, h4, h5, h6⟩
    · constructor
      · intro hx; simp at hx
      · intro hx; exact absurd hx hnp
    · constructor
      · intro hx; simp at hx
      · rintro (⟨a, ha⟩ | ha)
        · simp at ha
        · simp at ha

theorem threadStep_invariant (s : Threads) (ev : ThreadEvent) (h : ThreadsInvariant s) :
    ThreadsInvariant (threadStep s ev) := by
  cases ev with
  | producer frame => exact producerStep_invariant s frame h
  | caller request => exact callerStep_invariant s request h

theorem foldl_threadStep_invariant (events : List ThreadEvent) :
    ∀ s, ThreadsInvariant s → ThreadsInvariant (events.foldl threadStep s) := by
  induction events with
  | nil => intro s h; exact h
  | cons ev rest ih =>
    intro s h
    exact ih _ (threadStep_invariant s ev h)

theorem runThreads_invariant (g : ZedGrabber) (events : List ThreadEvent) :
    ThreadsInvariant (runThreads g events) :=
  foldl_threadStep_invariant events _ (startThreads_invariant g)

theorem callerStep_grabber (s : Threads) (request : Option (ZedGrabber → ZedGrabber)) :
    (callerStep s request).grabber = s.grabber ∧ (callerStep s request).called = s.called ∧
    (callerStep s request).producer = s.producer := by
  unfold callerStep
  cases s.caller with
  | idle => cases request <;> exact ⟨rfl, rfl, rfl⟩
  | locking action => simp only; split_ifs <;> exact ⟨rfl, rfl, rfl⟩
  | pushing action => exact ⟨rfl, rfl, rfl⟩
  | unlocking => exact ⟨rfl, rfl, rfl⟩

theorem producerStep_outside_loop (s : Threads) (frame : Option (Nat → Nat))
    (h : ∀ k, s.producer ≠ ProducerAt.applying k) :
    (producerStep s frame).called = s.called ∧ (producerStep s frame).pushed = s.pushed ∧
    ((∀ img entered, s.producer ≠ ProducerAt.filtering img entered) →
      (producerStep s frame).grabber = s.grabber) := by
  unfold producerStep
  cases hp : s.producer with
  | locking => simp only; split_ifs <;> exact ⟨rfl, rfl, fun _ => rfl⟩
  | applying k => exact absurd hp (h k)
  | unlocking => exact ⟨rfl, rfl, fun _ => rfl⟩
  | grabbing => cases frame <;> exact ⟨rfl, rfl, fun _ => rfl⟩
  | filtering img entered =>
    refine ⟨rfl, rfl, ?_⟩
    intro hx
    exact absurd rfl (hx img entered)

theorem producerStep_in_loop (s : Threads) (frame : Option (Nat → Nat)) (k : Nat)
    (h : s.producer = ProducerAt.applying k) :
    (∀ action, s.actions[k]? = some action →
      (producerStep s frame).grabber = action s.grabber ∧
      (producerStep s frame).called = s.called ++ [action] ∧
      (producerStep s frame).producer = ProducerAt.applying (k + 1)) ∧
    (s.actions[k]? = none →
      (producerStep s frame).grabber = s.grabber ∧ (producerStep s frame).called = s.called ∧
      (producerStep s frame).actions = [] ∧
      (producerStep s frame).producer = ProducerAt.unlocking) := by
  unfold producerStep
  rw [h]
  constructor
  · intro action ha
    simp only [ha]
    exact ⟨trivial, trivial, trivial⟩
  · intro ha
    simp only [ha]
    exact ⟨trivial, trivial, trivial, trivial⟩

theorem producerStep_filter (s : Threads) (frame : Option (Nat → Nat)) (img : Nat → Nat)
    (entered : ZedGrabber) (h : s.producer = ProducerAt.filtering img entered) :
    (producerStep s frame).grabber = updateGradientField (filter img s.grabber) := by
  unfold producerStep
  rw [h]

/-- C22: in every state that an interleaving of the producer thread and of a
thread calling `performInThread` reaches from the start of the producer thread,
the two threads are never both inside the block that `actionsLock` protects;
the actions pushed so far are the actions called so far followed by the pending
ones, in the order of the pushes, so each is called at most once and none is
skipped; when the producer thread leaves its block the queue is empty and every
action pushed has been called; while `filter()` runs on a frame the grabber is
as `filter()` found it, and the cycle ends with the filtered frame of exactly
that grabber; a step of the calling thread changes neither the grabber nor the
list of calls; a step of the producer thread outside its loop calls nothing and,
outside `filter()`, leaves the grabber alone; and a step of the loop is made
under the mutex, with the calling thread outside its block, and calls the
oldest pending action. -/
theorem queued_actions_apply_at_cycle_start (g : ZedGrabber) (events : List ThreadEvent) :
    ¬ (ProducerInBlock (runThreads g events) ∧ CallerInBlock (runThreads g events)) ∧
    (runThreads g events).pushed =
      (runThreads g events).called ++ pendingActions (runThreads g events) ∧
    ((runThreads g events).producer = ProducerAt.unlocking →
      (runThreads g events).actions = [] ∧
      (runThreads g events).called = (runThreads g events).pushed) ∧
    (∀ img entered, (runThreads g events).producer = ProducerAt.filtering img entered →
      (runThreads g events).grabber = entered ∧
      ∀ frame, (producerStep (runThreads g events) frame).grabber =
        updateGradientField (filter img entered)) ∧
    (∀ request,
      (callerStep (runThreads g events) request).grabber = (runThreads g events).grabber ∧
      (callerStep (runThreads g events) request).called = (runThreads g events).called) ∧
    (∀ frame, (∀ k, (runThreads g events).producer ≠ ProducerAt.applying k) →
      (producerStep (runThreads g events) frame).called = (runThreads g events).called ∧
      ((∀ img entered, (runThreads g events).producer ≠ ProducerAt.filtering img entered) →
        (producerStep (runThreads g events) frame).grabber = (runThreads g events).grabber)) ∧
    (∀ frame k, (runThreads g events).producer = ProducerAt.applying k →
      (runThreads g events).actionsLock = some ThreadId.producer ∧
      ¬ CallerInBlock (runThreads g events) ∧
      ∀ action, (runThreads g events).actions[k]? = some action →
        pendingActions (runThreads g events) =
          action :: (runThreads g events).actions.drop (k + 1) ∧
        (producerStep (runThreads g events) frame).grabber =
          action (runThreads g events).grabber ∧
        (producerStep (runThreads g events) frame).called =
          (runThreads g events).called ++ [action]) := by
  have hinv := runThreads_invariant g events
  generalize runThreads g events = s at hinv ⊢
  obtain ⟨h1, h2, h3, h4, h5, h6⟩ := hinv
  refine ⟨?_, h3, ?_, ?_, ?_, ?_, ?_⟩
  · rintro ⟨hp, hc⟩
    have e1 := h1.2 hp
    have e2 := h2.2 hc
    rw [e1] at e2
    simp at e2
  · intro hu
    have ha := h5 hu
    refine ⟨ha, ?_⟩
    rw [h3]
    simp [pendingActions, hu, ha]
  · intro img entered hf
    have hg := h6 img entered hf
    refine ⟨hg, ?_⟩
    intro frame
    rw [producerStep_filter s frame img entered hf, hg]
  · intro request
    exact ⟨(callerStep_grabber s request).1, (callerStep_grabber s request).2.1⟩
  · intro frame hk
    obtain ⟨a1, _, a3⟩ := producerStep_outside_loop s frame hk
    exact ⟨a1, a3⟩
  · intro frame k hk
    have hlock : s.actionsLock = some ThreadId.producer := h1.2 (Or.inl ⟨k, hk⟩)
    refine ⟨hlock, ?_, ?_⟩
    · intro hc
      have e2 := h2.2 hc
      rw [hlock] at e2
      simp at e2
    · intro action ha
      obtain ⟨b1, b2, _⟩ := (producerStep_in_loop s frame k hk).1 action ha
      refine ⟨?_, b1, b2⟩
      simp only [pendingActions, hk]
      exact drop_eq_cons_of_getElem s.actions k action ha

theorem demoInterleaving_reaches_filter :
    (runThreads plainDemo demoInterleaving).producer =
      ProducerAt.filtering (demoFrames 1) demoConfigured := rfl

/-- Witness of C22: the demonstration run, which ends inside `filter()` with one
request pushed since the frame was grabbed: the grabber is the one configured
by the first two requests, two actions are called, three are pushed, one is
pending, and the next step of the producer thread ends the cycle with the
filtered frame of the configured grabber. -/
theorem queued_actions_apply_at_cycle_start_witness :
    (runThreads plainDemo demoInterleaving).producer =
      ProducerAt.filtering (demoFrames 1) demoConfigured ∧
    (runThreads plainDemo demoInterleaving).called.length = 2 ∧
    (runThreads plainDemo demoInterleaving).pushed.length = 3 ∧
    (pendingActions (runThreads plainDemo demoInterleaving)).length = 1 ∧
    demoConfigured.numAveragingSlots = 3 ∧ demoConfigured.followBigChange = true ∧
    (runThreads plainDemo demoInterleaving).grabber = demoConfigured ∧
    (∀ frame, (producerStep (runThreads plainDemo demoInterleaving) frame).grabber =
      updateGradientField (filter (demoFrames 1) demoConfigured)) :=
  ⟨demoInterleaving_reaches_filter, rfl, rfl, rfl, rfl, rfl,
   ((queued_actions_apply_at_cycle_start plainDemo demoInterleaving).2.2.2.1 (demoFrames 1)
      demoConfigured demoInterleaving_reaches_filter).1,
   ((queued_actions_apply_at_cycle_start plainDemo demoInterleaving).2.2.2.1 (demoFrames 1)
      demoConfigured demoInterleaving_reaches_filter).2⟩

/-! ## Theorems: the statistics and the averaging slots -/

theorem sum_replace_slot (K j : Nat) (hj : j < K) (F : ℚ → ℚ) (s : Nat → ℚ) (x : ℚ) :
    Finset.sum (Finset.range K) (fun i => F (if i = j then x else s i)) =
      Finset.sum (Finset.range K) (fun i => F (s i)) - F (s j) + F x := by
  have hm : j ∈ Finset.range K := Finset.mem_range.2 hj
  have h1 : F x + Finset.sum ((Finset.range K).erase j)
        (fun i => F (if i = j then x else s i)) =
      Finset.sum (Finset.range K) (fun i => F (if i = j then x else s i)) := by
    have h := Finset.add_sum_erase (Finset.range K)
      (fun i => F (if i = j then x else s i)) hm
    simpa using h
  have h2 : F (s j) + Finset.sum ((Finset.range K).erase j) (fun i => F (s i)) =
      Finset.sum (Finset.range K) (fun i => F (s i)) :=
    Finset.add_sum_erase (Finset.range K) (fun i => F (s i)) hm
  have h3 : Finset.sum ((Finset.range K).erase j) (fun i => F (if i = j then x else s i)) =
      Finset.sum ((Finset.range K).erase j) (fun i => F (s i)) := by
    apply Finset.sum_congr rfl
    intro i hi
    have hne : i ≠ j := Finset.ne_of_mem_erase hi
    simp only [if_neg hne]
  rw [h3] at h1
  linarith

theorem slotCount_le (K : Nat) (init : ℚ) (slots : Nat → ℚ) :
    slotCount K init slots ≤ K := by
  unfold slotCount
  have h : Finset.sum (Finset.range K) (fun i => if slots i ≠ init then (1 : ℚ) else 0) ≤
      Finset.sum (Finset.range K) (fun _ => (1 : ℚ)) := by
    apply Finset.sum_le_sum
    intro i _
    split_ifs <;> norm_num
  simpa using h

theorem viewStep_fields (g : ZedGrabber) (v : ℚ) (w : PixelView) :
    (v > g.maxOffset →
      (viewStep g v w).n = (viewAccept g v w).n ∧ (viewStep g v w).s = (viewAccept g v w).s ∧
      (viewStep g v w).q = (viewAccept g v w).q ∧
      (viewStep g v w).slots = (viewAccept g v w).slots) ∧
    (¬ v > g.maxOffset →
      (viewStep g v w).n = w.n ∧ (viewStep g v w).s = w.s ∧ (viewStep g v w).q = w.q ∧
      (viewStep g v w).slots = w.slots) := by
  constructor
  · intro h
    simp only [viewStep, if_pos h, viewOutput]
    exact ⟨trivial, trivial, trivial, trivial⟩
  · intro h
    simp only [viewStep, if_neg h, viewOutput]
    exact ⟨trivial, trivial, trivial, trivial⟩

theorem viewStep_slot_origin (g : ZedGrabber) (v : ℚ) (w : PixelView)
    (hfb : g.followBigChange = false) (i : Nat) :
    (viewStep g v w).slots i = w.slots i ∨ (v > g.maxOffset ∧ (viewStep g v w).slots i = v) := by
  obtain ⟨f1, f2⟩ := viewStep_fields g v w
  have hfire : viewBigChange g v w = false := by simp [viewBigChange, hfb]
  by_cases hacc : v > g.maxOffset
  · rw [(f1 hacc).2.2.2]
    by_cases hi : i = g.averagingSlotIndex
    · right
      exact ⟨hacc, by simp [viewAccept, hfire, hi]⟩
    · left
      simp [viewAccept, hfire, hi]
  · left
    rw [(f2 hacc).2.2.2]

theorem filterCycles_slotIndex_lt (frames : Nat → Nat → Nat) (g : ZedGrabber)
    (hinit : g.bufferInitiated = true) (hK : 1 ≤ g.numAveragingSlots)
    (hidx : g.averagingSlotIndex < g.numAveragingSlots) (c : Nat) :
    (filterCycles frames c g).averagingSlotIndex < g.numAveragingSlots := by
  induction c with
  | zero => exact hidx
  | succ c ih =>
    have hc := filterCycles_config frames c g
    have hb : (filterCycles frames c g).bufferInitiated = true := by
      rw [hc.bufferInitiated]; exact hinit
    have e : filterCycles frames (c + 1) g =
        filter (frames (c + 1)) (filterCycles frames c g) := rfl
    rw [e, filter_slotIndex _ _ hb, hc.numAveragingSlots]
    split_ifs
    · omega
    · omega


theorem natUpTo_mono {B B' : Nat} {x : ℚ} (h : NatUpTo B x) (hB : B ≤ B') : NatUpTo B' x := by
  obtain ⟨m, hm, rfl⟩ := h
  exact ⟨m, le_trans hm hB, rfl⟩

theorem natUpTo_add {A B : Nat} {x y : ℚ} (hx : NatUpTo A x) (hy : NatUpTo B y) :
    NatUpTo (A + B) (x + y) := by
  obtain ⟨m, hm, rfl⟩ := hx
  obtain ⟨n, hn, rfl⟩ := hy
  exact ⟨m + n, by omega, by push_cast; rfl⟩

theorem natUpTo_mul {A B : Nat} {x y : ℚ} (hx : NatUpTo A x) (hy : NatUpTo B y) :
    NatUpTo (A * B) (x * y) := by
  obtain ⟨m, hm, rfl⟩ := hx
  obtain ⟨n, hn, rfl⟩ := hy
  exact ⟨m * n, Nat.mul_le_mul hm hn, by push_cast; rfl⟩

theorem natUpTo_zero (B : Nat) : NatUpTo B 0 := ⟨0, Nat.zero_le _, by simp⟩

theorem natUpTo_one {B : Nat} (hB : 1 ≤ B) : NatUpTo B 1 := ⟨1, hB, by simp⟩

theorem f32_of_natUpTo {B : Nat} {x : ℚ} (h : NatUpTo B x) (hB : B ≤ 2 ^ 24) : f32 x = x := by
  obtain ⟨m, hm, rfl⟩ := h
  exact f32_natCast m (le_trans hm hB)

theorem natUpTo_sum (K B : Nat) (F : Nat → ℚ) (h : ∀ i, NatUpTo B (F i)) :
    NatUpTo (K * B) (Finset.sum (Finset.range K) F) := by
  induction K with
  | zero => simpa using natUpTo_zero 0
  | succ K ih =>
    rw [Finset.sum_range_succ]
    have := natUpTo_add ih (h K)
    rwa [show K * B + B = (K + 1) * B by ring] at this

theorem slotSums_natUpTo (g : ZedGrabber) (V : Nat) (w : PixelView) (h : SlotsUpTo g V w) :
    NatUpTo (g.numAveragingSlots * 1) (slotCount g.numAveragingSlots g.initialValue w.slots) ∧
    NatUpTo (g.numAveragingSlots * V) (slotSum g.numAveragingSlots g.initialValue w.slots) ∧
    NatUpTo (g.numAveragingSlots * (V * V))
      (slotSumSq g.numAveragingSlots g.initialValue w.slots) := by
  refine ⟨natUpTo_sum _ _ _ ?_, natUpTo_sum _ _ _ ?_, natUpTo_sum _ _ _ ?_⟩
  · intro i
    split_ifs
    · exact natUpTo_one (le_refl 1)
    · exact natUpTo_zero _
  · intro i
    split_ifs with hi
    · rcases h i with h0 | h1
      · exact absurd h0 hi
      · exact h1
    · exact natUpTo_zero _
  · intro i
    split_ifs with hi
    · rcases h i with h0 | h1
      · exact absurd h0 hi
      · exact natUpTo_mul h1 h1
    · exact natUpTo_zero _

/-- With the big-change override off, taking a sample that is not the initial
value into the current slot keeps the statistics those of the slots, when the
samples are small enough for the sums to be binary32 numbers. -/
theorem viewAccept_statsMatch (g : ZedGrabber) (vn V : Nat) (w : PixelView)
    (hfb : g.followBigChange = false) (hidx : g.averagingSlotIndex < g.numAveragingSlots)
    (hv : (vn : ℚ) ≠ g.initialValue) (hvV : vn ≤ V)
    (hB : (g.numAveragingSlots + 1) * (V * V) ≤ 2 ^ 24) (hV1 : 1 ≤ V)
    (hslot : SlotsUpTo g V w) (h : StatsMatch g w) :
    StatsMatch g (viewAccept g (vn : ℚ) w) ∧ SlotsUpTo g V (viewAccept g (vn : ℚ) w) := by
  obtain ⟨hn, hs, hq⟩ := h
  have hfire : viewBigChange g (vn : ℚ) w = false := by simp [viewBigChange, hfb]
  have hslots : (viewAccept g (vn : ℚ) w).slots =
      fun i => if i = g.averagingSlotIndex then (vn : ℚ) else w.slots i := by
    funext i
    simp [viewAccept, hfire]
  have hvnat : NatUpTo V (vn : ℚ) := ⟨vn, hvV, rfl⟩
  have hslot' : SlotsUpTo g V (viewAccept g (vn : ℚ) w) := by
    intro i
    rw [hslots]
    by_cases hi : i = g.averagingSlotIndex
    · right; simp only [if_pos hi]; exact hvnat
    · simp only [if_neg hi]; exact hslot i
  refine ⟨?_, hslot'⟩
  -- bounds
  have hVV : V ≤ V * V := Nat.le_mul_of_pos_left V hV1
  have hK1 : (g.numAveragingSlots + 1) * 1 ≤ 2 ^ 24 :=
    le_trans (Nat.mul_le_mul_left _ (le_trans hV1 hVV)) hB
  have hKV : (g.numAveragingSlots + 1) * V ≤ 2 ^ 24 :=
    le_trans (Nat.mul_le_mul_left _ hVV) hB
  have hVV24 : V * V ≤ 2 ^ 24 := by
    have : 1 * (V * V) ≤ (g.numAveragingSlots + 1) * (V * V) :=
      Nat.mul_le_mul_right _ (by omega)
    omega
  obtain ⟨oN, oS, oQ⟩ := slotSums_natUpTo g V w hslot
  obtain ⟨nN, nS, nQ⟩ := slotSums_natUpTo g V _ hslot'
  rw [hslots] at nN nS nQ
  have cN := sum_replace_slot g.numAveragingSlots g.averagingSlotIndex hidx
    (fun a => if a ≠ g.initialValue then (1 : ℚ) else 0) w.slots (vn : ℚ)
  have cS := sum_replace_slot g.numAveragingSlots g.averagingSlotIndex hidx
    (fun a => if a ≠ g.initialValue then a else 0) w.slots (vn : ℚ)
  have cQ := sum_replace_slot g.numAveragingSlots g.averagingSlotIndex hidx
    (fun a => if a ≠ g.initialValue then a * a else 0) w.slots (vn : ℚ)
  simp only [if_pos hv] at cN cS cQ
  -- the rounded operations are exact
  have r1 : f32 (w.n + 1) = w.n + 1 := by
    rw [hn]
    apply f32_of_natUpTo (natUpTo_add oN (natUpTo_one (le_refl 1)))
    omega
  have r2 : f32 (w.s + (vn : ℚ)) = w.s + (vn : ℚ) := by
    rw [hs]
    apply f32_of_natUpTo (natUpTo_add oS hvnat)
    rw [show g.numAveragingSlots * V + V = (g.numAveragingSlots + 1) * V by ring]
    exact hKV
  have r3 : f32 ((vn : ℚ) * (vn : ℚ)) = (vn : ℚ) * (vn : ℚ) :=
    f32_of_natUpTo (natUpTo_mul hvnat hvnat) hVV24
  have r4 : f32 (w.q + (vn : ℚ) * (vn : ℚ)) = w.q + (vn : ℚ) * (vn : ℚ) := by
    rw [hq]
    apply f32_of_natUpTo (natUpTo_add oQ (natUpTo_mul hvnat hvnat))
    rw [show g.numAveragingSlots * (V * V) + V * V = (g.numAveragingSlots + 1) * (V * V) by ring]
    exact hB
  unfold StatsMatch
  rw [hslots]
  unfold slotCount slotSum slotSumSq
  unfold slotCount at hn nN
  unfold slotSum at hs nS
  unfold slotSumSq at hq nQ
  have vN : (viewAccept g (vn : ℚ) w).n =
      if w.slots g.averagingSlotIndex ≠ g.initialValue then f32 (f32 (w.n + 1) - 1)
      else f32 (w.n + 1) := by simp [viewAccept, hfire]
  have vS : (viewAccept g (vn : ℚ) w).s =
      if w.slots g.averagingSlotIndex ≠ g.initialValue then
        f32 (f32 (w.s + (vn : ℚ)) - w.slots g.averagingSlotIndex)
      else f32 (w.s + (vn : ℚ)) := by simp [viewAccept, hfire]
  have vQ : (viewAccept g (vn : ℚ) w).q =
      if w.slots g.averagingSlotIndex ≠ g.initialValue then
        f32 (f32 (w.q + f32 ((vn : ℚ) * (vn : ℚ))) -
          f32 (w.slots g.averagingSlotIndex * w.slots g.averagingSlotIndex))
      else f32 (w.q + f32 ((vn : ℚ) * (vn : ℚ))) := by simp [viewAccept, hfire]
  rw [vN, vS, vQ, r3, r1, r2, r4]
  by_cases ho : w.slots g.averagingSlotIndex ≠ g.initialValue
  · have hold : NatUpTo V (w.slots g.averagingSlotIndex) := by
      rcases hslot g.averagingSlotIndex with h0 | h1
      · exact absurd h0 ho
      · exact h1
    have r5 : f32 (w.slots g.averagingSlotIndex * w.slots g.averagingSlotIndex) =
        w.slots g.averagingSlotIndex * w.slots g.averagingSlotIndex :=
      f32_of_natUpTo (natUpTo_mul hold hold) hVV24
    simp only [if_pos ho] at cN cS cQ ⊢
    rw [r5]
    refine ⟨?_, ?_, ?_⟩
    · have e : w.n + 1 - 1 = Finset.sum (Finset.range g.numAveragingSlots)
          (fun i => if (if i = g.averagingSlotIndex then (vn : ℚ) else w.slots i) ≠
            g.initialValue then (1 : ℚ) else 0) := by
        rw [cN, hn]; ring
      rw [e]
      exact f32_of_natUpTo nN (by omega)
    · have e : w.s + (vn : ℚ) - w.slots g.averagingSlotIndex =
          Finset.sum (Finset.range g.numAveragingSlots)
          (fun i => if (if i = g.averagingSlotIndex then (vn : ℚ) else w.slots i) ≠
            g.initialValue then (if i = g.averagingSlotIndex then (vn : ℚ) else w.slots i)
            else 0) := by
        rw [cS, hs]; ring
      rw [e]
      exact f32_of_natUpTo nS (by
        have : g.numAveragingSlots * V ≤ (g.numAveragingSlots + 1) * V :=
          Nat.mul_le_mul_right _ (by omega)
        omega)
    · have e : w.q + (vn : ℚ) * (vn : ℚ) -
            w.slots g.averagingSlotIndex * w.slots g.averagingSlotIndex =
          Finset.sum (Finset.range g.numAveragingSlots)
          (fun i => if (if i = g.averagingSlotIndex then (vn : ℚ) else w.slots i) ≠
            g.initialValue then (if i = g.averagingSlotIndex then (vn : ℚ) else w.slots i) *
              (if i = g.averagingSlotIndex then (vn : ℚ) else w.slots i)
            else 0) := by
        rw [cQ, hq]; ring
      rw [e]
      exact f32_of_natUpTo nQ (by
        have : g.numAveragingSlots * (V * V) ≤ (g.numAveragingSlots + 1) * (V * V) :=
          Nat.mul_le_mul_right _ (by omega)
        omega)
  · simp only [if_neg ho] at cN cS cQ ⊢
    refine ⟨?_, ?_, ?_⟩
    · rw [cN, hn]; ring
    · rw [cS, hs]; ring
    · rw [cQ, hq]; ring

theorem viewStep_statsMatch (g : ZedGrabber) (vn V : Nat) (w : PixelView)
    (hfb : g.followBigChange = false) (hidx : g.averagingSlotIndex < g.numAveragingSlots)
    (hv : (vn : ℚ) > g.maxOffset → (vn : ℚ) ≠ g.initialValue) (hvV : vn ≤ V)
    (hB : (g.numAveragingSlots + 1) * (V * V) ≤ 2 ^ 24) (hV1 : 1 ≤ V)
    (hslot : SlotsUpTo g V w) (h : StatsMatch g w) :
    StatsMatch g (viewStep g (vn : ℚ) w) ∧ SlotsUpTo g V (viewStep g (vn : ℚ) w) := by
  obtain ⟨f1, f2⟩ := viewStep_fields g (vn : ℚ) w
  by_cases hacc : (vn : ℚ) > g.maxOffset
  · obtain ⟨e1, e2, e3, e4⟩ := f1 hacc
    obtain ⟨⟨a1, a2, a3⟩, a4⟩ :=
      viewAccept_statsMatch g vn V w hfb hidx (hv hacc) hvV hB hV1 hslot h
    refine ⟨⟨by rw [e1, e4]; exact a1, by rw [e2, e4]; exact a2, by rw [e3, e4]; exact a3⟩, ?_⟩
    intro i
    rw [e4]
    exact a4 i
  · obtain ⟨e1, e2, e3, e4⟩ := f2 hacc
    obtain ⟨a1, a2, a3⟩ := h
    refine ⟨⟨by rw [e1, e4]; exact a1, by rw [e2, e4]; exact a2, by rw [e3, e4]; exact a3⟩, ?_⟩
    intro i
    rw [e4]
    exact hslot i

/-- The statistics of a ROI pixel after `c` cycles from reset buffers, with the
big-change override off, no accepted sample equal to the initial value and
samples small enough for the sums to be binary32 numbers. -/
theorem cycles_statsMatch (g : ZedGrabber) (frames : Nat → Nat → Nat) (x y V : Nat)
    (hK : 1 ≤ g.numAveragingSlots) (hfb : g.followBigChange = false)
    (hX : g.maxX ≤ g.width) (hY : g.maxY ≤ g.height)
    (hx : g.minX ≤ x ∧ x < g.maxX) (hy : g.minY ≤ y ∧ y < g.maxY)
    (hraw : ∀ k, (frames k (y * g.width + x) : ℚ) > g.maxOffset →
      (frames k (y * g.width + x) : ℚ) ≠ g.initialValue)
    (hV : ∀ k, frames k (y * g.width + x) ≤ V) (hV1 : 1 ≤ V)
    (hB : (g.numAveragingSlots + 1) * (V * V) ≤ 2 ^ 24) (c : Nat) :
    StatsMatch g (pixelView (filterCycles frames c (initiateBuffers g)) (y * g.width + x)) ∧
    SlotsUpTo g V (pixelView (filterCycles frames c (initiateBuffers g)) (y * g.width + x)) ∧
    ∀ i, (pixelView (filterCycles frames c (initiateBuffers g)) (y * g.width + x)).slots i =
        g.initialValue ∨
      ∃ k, 1 ≤ k ∧ k ≤ c ∧ (frames k (y * g.width + x) : ℚ) > g.maxOffset ∧
        (pixelView (filterCycles frames c (initiateBuffers g)) (y * g.width + x)).slots i =
          (frames k (y * g.width + x) : ℚ) := by
  induction c with
  | zero =>
    refine ⟨⟨?_, ?_, ?_⟩, fun i => Or.inl rfl, fun i => Or.inl rfl⟩
    · simp [filterCycles, pixelView, initiateBuffers, slotCount]
    · simp [filterCycles, pixelView, initiateBuffers, slotSum]
    · simp [filterCycles, pixelView, initiateBuffers, slotSumSq]
  | succ c ih =>
    obtain ⟨ih1, ihs, ih2⟩ := ih
    have hc := filterCycles_config frames c (initiateBuffers g)
    have hb : (filterCycles frames c (initiateBuffers g)).bufferInitiated = true := by
      rw [hc.bufferInitiated]; rfl
    have hidx := filterCycles_slotIndex_lt frames (initiateBuffers g) rfl hK
      (show (0 : Nat) < g.numAveragingSlots by omega) c
    have e : filterCycles frames (c + 1) (initiateBuffers g) =
        filter (frames (c + 1)) (filterCycles frames c (initiateBuffers g)) := rfl
    have hw : (filterCycles frames c (initiateBuffers g)).width = g.width := hc.width
    have core := filter_inside_core (frames (c + 1)) (filterCycles frames c (initiateBuffers g))
      hb (by rw [hc.maxX, hc.width]; exact hX) (by rw [hc.maxY, hc.height]; exact hY) x y
      (by rw [hc.minX, hc.maxX]; exact hx) (by rw [hc.minY, hc.maxY]; exact hy)
    rw [hw] at core
    have hK' : (filterCycles frames c (initiateBuffers g)).numAveragingSlots =
        g.numAveragingSlots := hc.numAveragingSlots
    have hI' : (filterCycles frames c (initiateBuffers g)).initialValue = g.initialValue :=
      hc.initialValue
    have hM' : (filterCycles frames c (initiateBuffers g)).maxOffset = g.maxOffset :=
      hc.maxOffset
    have hF' : (filterCycles frames c (initiateBuffers g)).followBigChange = false := by
      rw [hc.followBigChange]; exact hfb
    have hmatch : StatsMatch (filterCycles frames c (initiateBuffers g))
        (pixelView (filterCycles frames c (initiateBuffers g)) (y * g.width + x)) := by
      unfold StatsMatch
      rw [hK', hI']
      exact ih1
    have hslotc : SlotsUpTo (filterCycles frames c (initiateBuffers g)) V
        (pixelView (filterCycles frames c (initiateBuffers g)) (y * g.width + x)) := by
      unfold SlotsUpTo
      rw [hI']
      exact ihs
    have step := viewStep_statsMatch (filterCycles frames c (initiateBuffers g))
      (frames (c + 1) (y * g.width + x)) V
      (pixelView (filterCycles frames c (initiateBuffers g)) (y * g.width + x)) hF'
      (by rw [hK']; exact hidx)
      (by rw [hM', hI']; exact hraw (c + 1)) (hV (c + 1)) (by rw [hK']; exact hB) hV1
      hslotc hmatch
    unfold StatsMatch SlotsUpTo at step
    rw [hK', hI'] at step
    rw [e, core]
    refine ⟨step.1, step.2, ?_⟩
    intro i
    rcases viewStep_slot_origin (filterCycles frames c (initiateBuffers g))
      (frames (c + 1) (y * g.width + x) : ℚ)
      (pixelView (filterCycles frames c (initiateBuffers g)) (y * g.width + x)) hF' i
      with hsame | ⟨hacc, hnew⟩
    · show (viewStep _ _ _).slots i = g.initialValue ∨ _
      rw [hsame]
      rcases ih2 i with h0 | ⟨k, k1, k2, k3, k4⟩
      · exact Or.inl h0
      · right
        refine ⟨k, k1, by omega, k3, ?_⟩
        show (viewStep _ _ _).slots i = _
        rw [hsame]
        exact k4
    · right
      rw [hM'] at hacc
      exact ⟨c + 1, by omega, le_refl _, hacc, hnew⟩

/-- C23, counterexamples. One pixel, averaging depth 1, big-change override off,
raw depth 4000 on every cycle: after two cycles the single slot holds 4000 and
the statistics are `(2, 8000, 32000000)`; the sample count 2 exceeds the depth
1, because a slot that holds the initial value 4000 counts as never written and
is not taken out when it is overwritten. One pixel, averaging depth 15,
override off, raw depth 7335 on every cycle: after eight cycles eight slots
hold 7335, the sum of their squares is `8 * 7335^2 = 430417800`, and the stored
sum of squares is the binary32 value 430417856. -/
theorem statistics_initial_value_counterexample :
    (singleDemo.followBigChange = false ∧ singleDemo.numAveragingSlots = 1 ∧
      singleDemo.initialValue = 4000 ∧
      (pixelView (filterCycles demoFrames 2 singleDemo) 0).slots 0 = 4000 ∧
      (pixelView (filterCycles demoFrames 2 singleDemo) 0).n = 2 ∧
      (pixelView (filterCycles demoFrames 2 singleDemo) 0).s = 8000 ∧
      (pixelView (filterCycles demoFrames 2 singleDemo) 0).q = 32000000) ∧
    ((onePixelDemo 15).followBigChange = false ∧ (onePixelDemo 15).numAveragingSlots = 15 ∧
      (onePixelDemo 15).initialValue = 4000 ∧
      slotCount 15 4000
        (pixelView (filterCycles (steadyFrames 7335) 8 (onePixelDemo 15)) 0).slots = 8 ∧
      slotSumSq 15 4000
        (pixelView (filterCycles (steadyFrames 7335) 8 (onePixelDemo 15)) 0).slots =
          430417800 ∧
      (pixelView (filterCycles (steadyFrames 7335) 8 (onePixelDemo 15)) 0).q = 430417856) :=
  ⟨⟨rfl, rfl, rfl, by decide!, by decide!, by decide!, by decide!⟩,
   ⟨rfl, rfl, rfl, by decide!, by decide!, by decide!⟩⟩

/-- C23, amended: with the big-change override off, after any number of
`filter()` cycles from reset buffers in which no raw sample above `maxOffset`
equals the initial value and every raw sample of the pixel is at most `V`, where
`V ≥ 1` and `(K + 1) * V^2 ≤ 2^24` (so that every sum is a binary32 number and
is accumulated without rounding), the statistics triple of every ROI pixel is
the number, the sum and the sum of squares of those of its `K` slots that differ
from the initial value; each such slot holds a raw sample of an earlier cycle
that was above `maxOffset`; and the sample count is at most `K`. -/
theorem statistics_match_slots (g : ZedGrabber) (frames : Nat → Nat → Nat) (x y V : Nat)
    (hK : 1 ≤ g.numAveragingSlots) (hfb : g.followBigChange = false)
    (hX : g.maxX ≤ g.width) (hY : g.maxY ≤ g.height)
    (hx : g.minX ≤ x ∧ x < g.maxX) (hy : g.minY ≤ y ∧ y < g.maxY)
    (hraw : ∀ k, (frames k (y * g.width + x) : ℚ) > g.maxOffset →
      (frames k (y * g.width + x) : ℚ) ≠ g.initialValue)
    (hV : ∀ k, frames k (y * g.width + x) ≤ V) (hV1 : 1 ≤ V)
    (hB : (g.numAveragingSlots + 1) * (V * V) ≤ 2 ^ 24) (c : Nat) :
    (pixelView (filterCycles frames c (initiateBuffers g)) (y * g.width + x)).n =
      slotCount g.numAveragingSlots g.initialValue
        (pixelView (filterCycles frames c (initiateBuffers g)) (y * g.width + x)).slots ∧
    (pixelView (filterCycles frames c (initiateBuffers g)) (y * g.width + x)).s =
      slotSum g.numAveragingSlots g.initialValue
        (pixelView (filterCycles frames c (initiateBuffers g)) (y * g.width + x)).slots ∧
    (pixelView (filterCycles frames c (initiateBuffers g)) (y * g.width + x)).q =
      slotSumSq g.numAveragingSlots g.initialValue
        (pixelView (filterCycles frames c (initiateBuffers g)) (y * g.width + x)).slots ∧
    (pixelView (filterCycles frames c (initiateBuffers g)) (y * g.width + x)).n ≤
      g.numAveragingSlots ∧
    ∀ i, (pixelView (filterCycles frames c (initiateBuffers g)) (y * g.width + x)).slots i =
        g.initialValue ∨
      ∃ k, 1 ≤ k ∧ k ≤ c ∧ (frames k (y * g.width + x) : ℚ) > g.maxOffset ∧
        (pixelView (filterCycles frames c (initiateBuffers g)) (y * g.width + x)).slots i =
          (frames k (y * g.width + x) : ℚ) := by
  obtain ⟨⟨h1, h2, h3⟩, _, h4⟩ :=
    cycles_statsMatch g frames x y V hK hfb hX hY hx hy hraw hV hV1 hB c
  refine ⟨h1, h2, h3, ?_, h4⟩
  rw [h1]
  exact slotCount_le _ _ _

theorem nearFrames_not_initial (k : Nat) :
    (nearFrames k (0 * (onePixelDemo 15).width + 0) : ℚ) > (onePixelDemo 15).maxOffset →
      (nearFrames k (0 * (onePixelDemo 15).width + 0) : ℚ) ≠ (onePixelDemo 15).initialValue := by
  intro _
  have hi : (onePixelDemo 15).initialValue = 4000 := rfl
  rw [hi]
  unfold nearFrames
  split_ifs <;> norm_num

theorem nearFrames_le (k : Nat) : nearFrames k (0 * (onePixelDemo 15).width + 0) ≤ 1000 := by
  unfold nearFrames
  split_ifs <;> omega

/-- Witness of C23: the one-pixel grabber of depth 15 with the override off,
reset and fed 990 and 1000 in turn, where `16 * 1000^2 ≤ 2^24`; after forty
cycles the statistics are those of the slots and the count is at most 15. -/
theorem statistics_match_slots_witness :
    (16 : Nat) * (1000 * 1000) ≤ 2 ^ 24 ∧
    (pixelView (filterCycles nearFrames 40 (initiateBuffers (onePixelDemo 15)))
        (0 * (onePixelDemo 15).width + 0)).q =
      slotSumSq (onePixelDemo 15).numAveragingSlots (onePixelDemo 15).initialValue
        (pixelView (filterCycles nearFrames 40 (initiateBuffers (onePixelDemo 15)))
          (0 * (onePixelDemo 15).width + 0)).slots ∧
    (pixelView (filterCycles nearFrames 40 (initiateBuffers (onePixelDemo 15)))
        (0 * (onePixelDemo 15).width + 0)).n ≤ (onePixelDemo 15).numAveragingSlots :=
  ⟨by norm_num,
   (statistics_match_slots (onePixelDemo 15) nearFrames 0 0 1000 (by decide) rfl (by decide)
      (by decide) (by decide) (by decide) nearFrames_not_initial nearFrames_le (by decide)
      (by norm_num [onePixelDemo, setupFramefilter, setzedROI, resetBuffers, initiateBuffers])
      40).2.2.1,
   (statistics_match_slots (onePixelDemo 15) nearFrames 0 0 1000 (by decide) rfl (by decide)
      (by decide) (by decide) (by decide) nearFrames_not_initial nearFrames_le (by decide)
      (by norm_num [onePixelDemo, setupFramefilter, setzedROI, resetBuffers, initiateBuffers])
      40).2.2.2.1⟩

/-! ## Theorems: the spatial filter on the whole frame -/

end MagicSand
